import Mathlib

/-!
Verification model of the structural override diff/patch engine of the
figmate plugin (src/code.ts).

Document nodes are modelled as a flat list of records carrying a
host-assigned `id` and a `parentId` back-reference, listed in the host's
depth-first traversal order (the order `findAll` enumerates descendants).
Reference equality on host nodes is modelled as equality of their unique
ids.  Optional node properties use `Option`, with `none` standing for an
absent property (a property the host does not expose on that node kind)
or a mixed value, exactly the cases the source guards with
`'field' in node` / `!== figma.mixed` checks.  Scalar numeric values
(font sizes, opacities, colour channels) are modelled as `Rat`; the
source never computes with them, it only compares and copies them.
Host mutation primitives (property setters) are modelled as deterministic
field updates.  The memoization caches are modelled separately (see the
cache section); the pipeline functions below compute what the source
computes with fresh caches, which is exact for a single operation.
-/

namespace Figmate

/-- Closed set of node kinds of the host document (the Figma node `type`
strings used by src/code.ts). -/
inductive NodeType where
  | TEXT | INSTANCE | RECTANGLE | ELLIPSE | VECTOR | FRAME
  | COMPONENT | GROUP | LINE | STAR | POLYGON | BOOLEAN_OPERATION
  | COMPONENT_SET | PAGE | DOCUMENT | SLICE
  deriving DecidableEq, Repr

/-- The `type` string of a node kind, as it appears inside signatures. -/
def nodeTypeStr : NodeType → String
  | .TEXT => "TEXT"
  | .INSTANCE => "INSTANCE"
  | .RECTANGLE => "RECTANGLE"
  | .ELLIPSE => "ELLIPSE"
  | .VECTOR => "VECTOR"
  | .FRAME => "FRAME"
  | .COMPONENT => "COMPONENT"
  | .GROUP => "GROUP"
  | .LINE => "LINE"
  | .STAR => "STAR"
  | .POLYGON => "POLYGON"
  | .BOOLEAN_OPERATION => "BOOLEAN_OPERATION"
  | .COMPONENT_SET => "COMPONENT_SET"
  | .PAGE => "PAGE"
  | .DOCUMENT => "DOCUMENT"
  | .SLICE => "SLICE"

/-- A font reference: family plus style (src/code.ts `FontName`). -/
structure FontName where
  family : String
  style : String
  deriving DecidableEq, Repr

/-- An RGB colour; channels are compared, never computed with. -/
structure RGB where
  r : Rat
  g : Rat
  b : Rat
  deriving DecidableEq, Repr

/-- The four gradient paint kinds distinguished by `clonePaint`. -/
inductive GradientKind where
  | linear | radial | diamond | angular
  deriving DecidableEq, Repr

/-- A gradient stop (position plus colour); carried by gradient paints,
cloned as data, never inspected by the comparator. -/
structure GradientStop where
  position : Rat
  color : RGB
  deriving DecidableEq, Repr

/-- A paint, with exactly the fields src/code.ts reads (`paintsEqual`)
or copies (`clonePaint`). -/
inductive Paint where
  | solid (color : RGB) (opacity : Option Rat)
  | image (imageHash : Option String) (scaleMode : String)
      (imageTransform : Option (List (List Rat))) (scalingFactor : Option Rat)
      (filters : Option String) (visible : Option Bool)
  | gradient (kind : GradientKind) (gradientTransform : Option (List (List Rat)))
      (gradientStops : List GradientStop) (opacity : Option Rat) (visible : Option Bool)
  deriving DecidableEq, Repr

/-- The `type` string of a paint (`paint.type` in the source). -/
def paintTypeStr : Paint → String
  | .solid _ _ => "SOLID"
  | .image _ _ _ _ _ _ => "IMAGE"
  | .gradient .linear _ _ _ _ => "GRADIENT_LINEAR"
  | .gradient .radial _ _ _ _ => "GRADIENT_RADIAL"
  | .gradient .diamond _ _ _ _ => "GRADIENT_DIAMOND"
  | .gradient .angular _ _ _ _ => "GRADIENT_ANGULAR"

/-- One iteration of the comparison loop of src/code.ts `paintsEqual`
(lines 89-109): unequal types differ; SOLID compares colour channels and
opacity; IMAGE compares image hash and scale mode; every other paint
kind is not compared further and counts as equal. -/
def paintPairEqual (paintA paintB : Paint) : Bool :=
  if paintTypeStr paintA ≠ paintTypeStr paintB then false
  else
    match paintA, paintB with
    | .solid cA oA, .solid cB oB =>
        if cA.r ≠ cB.r ∨ cA.g ≠ cB.g ∨ cA.b ≠ cB.b ∨ oA ≠ oB then false else true
    | .image hA sA _ _ _ _, .image hB sB _ _ _ _ =>
        if hA ≠ hB ∨ sA ≠ sB then false else true
    | _, _ => true

/-- src/code.ts `paintsEqual` (lines 84-111).  `none` models an
undefined/missing paint list (a JS empty array is truthy, so only
undefined/null take the early branches). -/
def paintsEqual (a b : Option (List Paint)) : Bool :=
  match a, b with
  | none, none => true
  | none, some _ => false
  | some _, none => false
  | some la, some lb =>
      if la.length ≠ lb.length then false
      else (la.zip lb).all (fun pr => paintPairEqual pr.1 pr.2)

/-- src/code.ts `fontNamesEqual` (lines 114-118). -/
def fontNamesEqual (a b : Option FontName) : Bool :=
  match a, b with
  | none, none => true
  | none, some _ => false
  | some _, none => false
  | some fa, some fb => if fa.family = fb.family ∧ fa.style = fb.style then true else false

/-- Keys of a keyed property map (a JS object modelled as an ordered
association list with distinct keys). -/
def keysOf {V : Type} (m : List (String × V)) : List String := m.map Prod.fst

/-- Value stored under a key, first occurrence. -/
def lookupKey {V : Type} (m : List (String × V)) (k : String) : Option V :=
  (m.find? (fun kv => kv.1 == k)).map Prod.snd

/-- src/code.ts `propertiesEqual` (lines 121-136): equal iff same key
count, every key of `a` occurs in `b`, and the values stored under each
key compare equal under the JS strict equality of the value type
(`a[key] !== b[key]`, line 131), passed here as `jsEq`: primitive values
compare by value, object values by reference.  The `a === b` shortcut of
line 122 never fires at the call sites, which always pass two map
objects freshly read from two distinct nodes. -/
def propertiesEqual {V : Type} (jsEq : V → V → Bool) (a b : List (String × V)) : Bool :=
  if (keysOf a).length ≠ (keysOf b).length then false
  else (keysOf a).all (fun key =>
    if (keysOf b).contains key then
      match lookupKey a key, lookupKey b key with
      | some va, some vb => jsEq va vb
      | _, _ => false
    else false)

/-- JS strict equality on variant-selector values: plain strings, which
`!==` compares by value. -/
def jsStrictEqStr (a b : String) : Bool := a == b

/-- A component-parameter value: a scalar, or the `{value, type}` wrapper
object the host stores component properties in. -/
inductive PropValue where
  | str (s : String)
  | num (q : Rat)
  | boolean (b : Bool)
  | wrapped (value : PropValue) (kind : String)
  deriving DecidableEq, Repr

/-- JS strict equality on component-parameter values (the `a[key] !==
b[key]` of src/code.ts line 131): primitive values compare by value,
while `{value, type}` wrapper objects compare by reference — and the
host materialises a fresh wrapper object for every node read, so two
wrappers held in the maps of two distinct nodes are never strictly
equal. -/
def jsStrictEqProp : PropValue → PropValue → Bool
  | .str a, .str b => a == b
  | .num a, .num b => a == b
  | .boolean a, .boolean b => a == b
  | _, _ => false

/-- src/code.ts `clonePaint` (lines 139-166): explicit per-kind field
copy (in this value-level model a structural copy). -/
def clonePaint (paint : Paint) : Paint :=
  match paint with
  | .solid color opacity => .solid ⟨color.r, color.g, color.b⟩ opacity
  | .image imageHash scaleMode imageTransform scalingFactor filters visible =>
      .image imageHash scaleMode imageTransform scalingFactor filters visible
  | .gradient kind gradientTransform gradientStops opacity visible =>
      .gradient kind gradientTransform gradientStops opacity visible

/-- src/code.ts `clonePaintArray` (lines 168-171). -/
def clonePaintArray (paints : Option (List Paint)) : Option (List Paint) :=
  match paints with
  | none => none
  | some l => some (l.map clonePaint)

/-- src/code.ts `cloneFontName` (lines 173-178). -/
def cloneFontName (fontName : FontName) : FontName := ⟨fontName.family, fontName.style⟩

/-- src/code.ts `cloneVariantProperties` (lines 180-186): key-by-key copy. -/
def cloneVariantProperties (props : List (String × String)) : List (String × String) :=
  props.map (fun kv => (kv.1, kv.2))

/-- src/code.ts `cloneComponentProperties` (lines 188-200): wrapper
objects are shallow-copied, scalars copied directly. -/
def cloneComponentProperties (props : List (String × PropValue)) : List (String × PropValue) :=
  props.map (fun kv =>
    match kv.2 with
    | .wrapped value kind => (kv.1, PropValue.wrapped value kind)
    | v => (kv.1, v))

/-- A document node: host-assigned unique `id`, parent back-reference,
kind, mutable `name`, and the optional mutable properties the engine
reads and writes. -/
structure FNode where
  id : String
  parentId : Option String
  ty : NodeType
  name : String
  characters : Option String := none
  fontName : Option FontName := none
  fontSize : Option Rat := none
  fills : Option (List Paint) := none
  strokes : Option (List Paint) := none
  opacity : Option Rat := none
  visible : Option Bool := none
  variantProperties : Option (List (String × String)) := none
  componentProperties : Option (List (String × PropValue)) := none
  deriving DecidableEq, Repr

/-- A document (or the relevant part of one): nodes listed in the host's
depth-first traversal order. -/
abbrev Doc := List FNode

/-- Node lookup by id (host reference resolution). -/
def byId (doc : Doc) (i : String) : Option FNode := doc.find? (fun n => n.id == i)

/-- `node.parent` of the host model. -/
def parentOf (doc : Doc) (n : FNode) : Option FNode :=
  match n.parentId with
  | none => none
  | some pid => byId doc pid

/-- `parent.children` of the host model, in document order. -/
def childrenOf (doc : Doc) (p : FNode) : List FNode :=
  doc.filter (fun c => c.parentId == some p.id)

/-- The characters of a text node (always a string on TEXT nodes). -/
def charactersOf (n : FNode) : String := n.characters.getD ""

/-- src/code.ts `OVERRIDABLE_NODE_TYPES` (lines 78-81). -/
def OVERRIDABLE_NODE_TYPES (t : NodeType) : Bool :=
  match t with
  | .TEXT | .INSTANCE | .RECTANGLE | .ELLIPSE | .VECTOR | .FRAME
  | .COMPONENT | .GROUP | .LINE | .STAR | .POLYGON | .BOOLEAN_OPERATION => true
  | _ => false

/-- The parent-walk loop of src/code.ts `buildInternalHierarchyPath`
(lines 66-71), with fuel bounding the walk (a well-formed document's
parent chains are shorter than the node count).  The JS
`current !== instanceRoot` reference comparison is id comparison. -/
def buildPathAux (doc : Doc) (rootId : String) : Nat → Option FNode → List String
  | _, none => []
  | 0, some _ => []
  | fuel + 1, some cur =>
      if cur.id = rootId ∨ cur.ty = .PAGE ∨ cur.ty = .DOCUMENT then []
      else buildPathAux doc rootId fuel (parentOf doc cur) ++ [cur.name]

/-- src/code.ts `buildInternalHierarchyPath` (lines 53-75), fresh-cache
behaviour: ordered ancestor names from just below the root down to the
node's parent. -/
def buildInternalHierarchyPath (doc : Doc) (node : FNode) (instanceRoot : FNode) : List String :=
  buildPathAux doc instanceRoot.id doc.length (parentOf doc node)

/-- The scanning loop of JS `Array.prototype.indexOf`, matching by
reference (= id) from offset `i`. -/
def jsIndexOfByIdAux (l : List FNode) (nodeId : String) (i : Nat) : Int :=
  match l with
  | [] => -1
  | c :: rest => if c.id = nodeId then (i : Int) else jsIndexOfByIdAux rest nodeId (i + 1)

/-- JS `Array.prototype.indexOf` with reference (= id) equality:
index of the node in the list, `-1` if absent. -/
def jsIndexOfById (l : List FNode) (node : FNode) : Int :=
  jsIndexOfByIdAux l node.id 0

/-- src/code.ts `getSiblingIndex` (lines 438-446): index of the node
among its parent's children that share both its name and its type.
The identical computation is also inlined in
`buildMainComponentSignatureMap` and `createTargetSignature`. -/
def getSiblingIndex (doc : Doc) (node : FNode) : Int :=
  match parentOf doc node with
  | none => 0
  | some p =>
      let siblings := childrenOf doc p
      let matchingSiblings := siblings.filter (fun child => child.name == node.name && child.ty == node.ty)
      jsIndexOfById matchingSiblings node

/-- src/code.ts `createUniqueSignature` (lines 412-414).  The
`instanceRoot` parameter is unused, exactly as in the source. -/
def createUniqueSignature (node : FNode) (_instanceRoot : FNode)
    (hierarchyPath : List String) (siblingIndex : Int) : String :=
  nodeTypeStr node.ty ++ ":" ++ node.name ++ ":" ++ String.intercalate "/" hierarchyPath
    ++ ":" ++ toString siblingIndex

/-- Whether the node's parent chain reaches the given root (with fuel),
i.e. the node lies strictly inside the root's subtree. -/
def chainReaches (doc : Doc) (rootId : String) : Nat → Option FNode → Bool
  | _, none => false
  | 0, some _ => false
  | fuel + 1, some cur =>
      if cur.id = rootId then true
      else chainReaches doc rootId fuel (parentOf doc cur)

/-- The host `findAll` filtered by `OVERRIDABLE_NODE_TYPES`: every strict
descendant of the root with an overridable type, in traversal order. -/
def findAllOverridable (doc : Doc) (root : FNode) : List FNode :=
  doc.filter (fun n =>
    !(n.id == root.id) && OVERRIDABLE_NODE_TYPES n.ty
      && chainReaches doc root.id doc.length (parentOf doc n))

/-- src/code.ts `collectAllNodesWithCache` (lines 203-215), fresh-cache
behaviour: the root itself followed by its overridable descendants. -/
def collectAllNodes (doc : Doc) (root : FNode) : List FNode :=
  root :: findAllOverridable doc root

/-- JS `Map.prototype.set`: overwrite in place if the key exists,
otherwise append (iteration follows insertion order). -/
def mapSet (m : List (String × FNode)) (k : String) (v : FNode) : List (String × FNode) :=
  if m.any (fun kv => kv.1 == k) then
    m.map (fun kv => if kv.1 == k then (k, v) else kv)
  else m ++ [(k, v)]

/-- JS `Map.prototype.get`. -/
def lookupSig (m : List (String × FNode)) (k : String) : Option FNode :=
  (m.find? (fun kv => kv.1 == k)).map Prod.snd

/-- src/code.ts `buildMainComponentSignatureMap` (lines 418-435):
signature → node over the template root and its overridable
descendants. -/
def buildSignatureMap (doc : Doc) (mainComponent : FNode) : List (String × FNode) :=
  (collectAllNodes doc mainComponent).foldl
    (fun m node =>
      let hierarchyPath := buildInternalHierarchyPath doc node mainComponent
      let siblingIndex := getSiblingIndex doc node
      mapSet m (createUniqueSignature node mainComponent hierarchyPath siblingIndex) node)
    []

/-- The sparse set of detected override properties (the optional fields
of src/code.ts `CopiedOverride`, lines 14-30). -/
structure OverrideData where
  characters : Option String := none
  fontName : Option FontName := none
  fontSize : Option Rat := none
  fills : Option (List Paint) := none
  opacity : Option Rat := none
  visible : Option Bool := none
  layerFills : Option (List Paint) := none
  layerStrokes : Option (List Paint) := none
  variantProperties : Option (List (String × String)) := none
  componentProperties : Option (List (String × PropValue)) := none
  deriving DecidableEq, Repr

/-- src/code.ts `CopiedOverride` (lines 5-31): identification fields
plus the sparse property set. -/
structure CopiedOverride extends OverrideData where
  nodeId : String
  nodeName : String
  nodeType : NodeType
  hierarchyPath : List String
  siblingIndex : Int
  uniqueSignature : String
  deriving DecidableEq, Repr

/-- The accumulating state of `detectOverrides`: the record under
construction and the `hasOverride` flag. -/
abbrev DetectState := OverrideData × Bool

/-- TEXT OVERRIDES section of src/code.ts `detectOverrides`
(lines 455-483): characters, font name, font size, text fills, each
compared and captured only when different. -/
def detectTextOverrides (instanceNode defaultNode : FNode) (st : DetectState) : DetectState :=
  if instanceNode.ty = .TEXT ∧ defaultNode.ty = .TEXT then
    let st := if charactersOf instanceNode ≠ charactersOf defaultNode then
        ({ st.1 with characters := some (charactersOf instanceNode) }, true) else st
    let st := match instanceNode.fontName, defaultNode.fontName with
      | some fi, some fd =>
          if fontNamesEqual (some fi) (some fd) then st
          else ({ st.1 with fontName := some (cloneFontName fi) }, true)
      | _, _ => st
    let st := match instanceNode.fontSize, defaultNode.fontSize with
      | some si, some sd => if si ≠ sd then ({ st.1 with fontSize := some si }, true) else st
      | _, _ => st
    let st := match instanceNode.fills, defaultNode.fills with
      | some fi, some fd =>
          if paintsEqual (some fi) (some fd) then st
          else ({ st.1 with fills := clonePaintArray (some fi) }, true)
      | _, _ => st
    st
  else st

/-- VISUAL OVERRIDES section of src/code.ts `detectOverrides`
(lines 486-498): opacity and visibility, compared when both nodes
expose them. -/
def detectVisualOverrides (instanceNode defaultNode : FNode) (st : DetectState) : DetectState :=
  let st := match instanceNode.opacity, defaultNode.opacity with
    | some oi, some od => if oi ≠ od then ({ st.1 with opacity := some oi }, true) else st
    | _, _ => st
  let st := match instanceNode.visible, defaultNode.visible with
    | some vi, some vd => if vi ≠ vd then ({ st.1 with visible := some vi }, true) else st
    | _, _ => st
  st

/-- The node kinds whose fill list the FILL OVERRIDES section captures
(the type list at src/code.ts lines 503 and 514). -/
def isFillCaptureType (t : NodeType) : Bool :=
  match t with
  | .VECTOR | .BOOLEAN_OPERATION | .RECTANGLE | .ELLIPSE | .POLYGON | .STAR
  | .LINE | .FRAME | .COMPONENT | .INSTANCE => true
  | _ => false

/-- FILL OVERRIDES section of src/code.ts `detectOverrides`
(lines 500-524): for shape-like kinds the current fill list is captured
unconditionally whenever non-empty, with no equality test (the computed
`fillsEqual` local is never used). -/
def detectLayerFillOverrides (instanceNode defaultNode : FNode) (st : DetectState) : DetectState :=
  match instanceNode.fills, defaultNode.fills with
  | some instanceFills, some _ =>
      if isFillCaptureType instanceNode.ty then
        if 0 < instanceFills.length then
          ({ st.1 with layerFills := clonePaintArray (some instanceFills) }, true)
        else st
      else st
  | _, _ => st

/-- STROKE OVERRIDES section of src/code.ts `detectOverrides`
(lines 526-536): stroke lists compared with `paintsEqual`. -/
def detectStrokeOverrides (instanceNode defaultNode : FNode) (st : DetectState) : DetectState :=
  match instanceNode.strokes, defaultNode.strokes with
  | some instanceStrokes, some defaultStrokes =>
      if paintsEqual (some instanceStrokes) (some defaultStrokes) then st
      else ({ st.1 with layerStrokes := clonePaintArray (some instanceStrokes) }, true)
  | _, _ => st

/-- INSTANCE OVERRIDES section of src/code.ts `detectOverrides`
(lines 539-556): variant and component property maps compared with
`propertiesEqual` (absent maps default to empty). -/
def detectInstanceOverrides (instanceNode defaultNode : FNode) (st : DetectState) : DetectState :=
  if instanceNode.ty = .INSTANCE ∧ defaultNode.ty = .INSTANCE then
    let st := if propertiesEqual jsStrictEqStr (instanceNode.variantProperties.getD []) (defaultNode.variantProperties.getD []) then st
      else ({ st.1 with variantProperties := some (cloneVariantProperties (instanceNode.variantProperties.getD [])) }, true)
    let st := if propertiesEqual jsStrictEqProp (instanceNode.componentProperties.getD []) (defaultNode.componentProperties.getD []) then st
      else ({ st.1 with componentProperties := some (cloneComponentProperties (instanceNode.componentProperties.getD [])) }, true)
    st
  else st

/-- src/code.ts `detectOverrides` (lines 449-563): runs the comparison
sections in source order and emits the record only when some field was
flagged. -/
def detectOverrides (instanceNode defaultNode : FNode) : Option OverrideData :=
  let st : DetectState := ({}, false)
  let st := detectTextOverrides instanceNode defaultNode st
  let st := detectVisualOverrides instanceNode defaultNode st
  let st := detectLayerFillOverrides instanceNode defaultNode st
  let st := detectStrokeOverrides instanceNode defaultNode st
  let st := detectInstanceOverrides instanceNode defaultNode st
  if st.2 then some st.1 else none

/-- FALLBACK FOR NESTED INSTANCES (src/code.ts lines 623-645): variant
and component property maps snapshotted whenever non-empty. -/
def fallbackInstanceCapture (node : FNode) (st : DetectState) : DetectState :=
  if node.ty = .INSTANCE then
    let st := match node.variantProperties with
      | some props =>
          if 0 < props.length then
            ({ st.1 with variantProperties := some (props.map (fun kv => (kv.1, kv.2))) }, true)
          else st
      | none => st
    let st := match node.componentProperties with
      | some props =>
          if 0 < props.length then ({ st.1 with componentProperties := some props }, true) else st
      | none => st
    st
  else st

/-- FALLBACK FOR TEXT NODES (src/code.ts lines 647-679): characters when
non-blank; font name, font size and fills whenever readable. -/
def fallbackTextCapture (node : FNode) (st : DetectState) : DetectState :=
  if node.ty = .TEXT then
    let st := if charactersOf node ≠ "" ∧ (charactersOf node).trim ≠ "" then
        ({ st.1 with characters := some (charactersOf node) }, true) else st
    let st := match node.fontName with
      | some f => ({ st.1 with fontName := some (cloneFontName f) }, true)
      | none => st
    let st := match node.fontSize with
      | some s => ({ st.1 with fontSize := some s }, true)
      | none => st
    let st := match node.fills with
      | some fl => ({ st.1 with fills := clonePaintArray (some fl) }, true)
      | none => st
    st
  else st

/-- FALLBACK FOR VISUAL PROPERTIES (src/code.ts lines 681-690): opacity
when not full, visibility when hidden. -/
def fallbackVisualCapture (node : FNode) (st : DetectState) : DetectState :=
  let st := match node.opacity with
    | some o => if o ≠ 1 then ({ st.1 with opacity := some o }, true) else st
    | none => st
  let st := match node.visible with
    | some v => if v = false then ({ st.1 with visible := some v }, true) else st
    | none => st
  st

/-- FALLBACK FOR SHAPE FILLS (src/code.ts lines 692-707): current fill
list of shape-like kinds whenever non-empty. -/
def fallbackLayerFillCapture (node : FNode) (st : DetectState) : DetectState :=
  match node.fills with
  | some fl =>
      if isFillCaptureType node.ty then
        if 0 < fl.length then ({ st.1 with layerFills := clonePaintArray (some fl) }, true) else st
      else st
  | none => st

/-- FALLBACK FOR STROKES (src/code.ts lines 709-718): current stroke
list whenever non-empty. -/
def fallbackStrokeCapture (node : FNode) (st : DetectState) : DetectState :=
  match node.strokes with
  | some sl =>
      if 0 < sl.length then ({ st.1 with layerStrokes := clonePaintArray (some sl) }, true) else st
  | none => st

/-- The comprehensive fallback capture of src/code.ts `collectOverrides`
(lines 618-732), applied when no counterpart is found. -/
def fallbackCapture (node : FNode) : Option OverrideData :=
  let st : DetectState := ({}, false)
  let st := fallbackInstanceCapture node st
  let st := fallbackTextCapture node st
  let st := fallbackVisualCapture node st
  let st := fallbackLayerFillCapture node st
  let st := fallbackStrokeCapture node st
  if st.2 then some st.1 else none

/-- src/code.ts `findCorrespondingNode` (lines 566-582): the root maps
to the template root itself; every other node is looked up by its
signature in the template's signature map. -/
def findCorrespondingNode (sigMap : List (String × FNode)) (mainComponent : FNode)
    (instanceRoot : FNode) (instanceNode : FNode)
    (internalHierarchyPath : List String) (siblingIndex : Int) : Option FNode :=
  if instanceNode.id = instanceRoot.id then some mainComponent
  else lookupSig sigMap (createUniqueSignature instanceNode instanceRoot internalHierarchyPath siblingIndex)

/-- Assemble a `CopiedOverride` from identification data and a sparse
property set (the record literals at src/code.ts lines 604-612 and
721-729). -/
def mkCopiedOverride (node : FNode) (hierarchyPath : List String) (siblingIndex : Int)
    (uniqueSignature : String) (data : OverrideData) : CopiedOverride :=
  { toOverrideData := data, nodeId := node.id, nodeName := node.name, nodeType := node.ty,
    hierarchyPath := hierarchyPath, siblingIndex := siblingIndex, uniqueSignature := uniqueSignature }

/-- The loop body of src/code.ts `collectOverrides` (lines 589-738):
compute path, sibling index and signature for one collected node, look
up the template counterpart, and append either a comparison record or a
fallback record. -/
def collectStep (mainComponentSignatureMap : List (String × FNode)) (instanceDoc : Doc)
    (instanceRoot mainComponent : FNode) (overrides : List CopiedOverride) (node : FNode) :
    List CopiedOverride :=
  let hierarchyPath := buildInternalHierarchyPath instanceDoc node instanceRoot
  let siblingIndex := getSiblingIndex instanceDoc node
  let uniqueSignature := createUniqueSignature node instanceRoot hierarchyPath siblingIndex
  match findCorrespondingNode mainComponentSignatureMap mainComponent instanceRoot node
      hierarchyPath siblingIndex with
  | some defaultNode =>
      match detectOverrides node defaultNode with
      | some overrideData =>
          overrides ++ [mkCopiedOverride node hierarchyPath siblingIndex uniqueSignature overrideData]
      | none => overrides
  | none =>
      match fallbackCapture node with
      | some fallbackData =>
          overrides ++ [mkCopiedOverride node hierarchyPath siblingIndex uniqueSignature fallbackData]
      | none => overrides

/-- src/code.ts `collectOverrides` (lines 585-739): run the collection
loop over every collected node of the instance. -/
def collectOverrides (instanceDoc templateDoc : Doc) (instanceRoot mainComponent : FNode) :
    List CopiedOverride :=
  let mainComponentSignatureMap := buildSignatureMap templateDoc mainComponent
  let allNodes := collectAllNodes instanceDoc instanceRoot
  allNodes.foldl (collectStep mainComponentSignatureMap instanceDoc instanceRoot mainComponent) []

/-- src/code.ts `copiedInstanceData` payload shape (lines 33-42). -/
structure CopiedInstanceData where
  sourceComponentName : String
  sourceInstanceName : String
  sourceComponentSetId : Option String
  sourceMainComponentId : String
  variantProperties : List (String × String)
  componentProperties : List (String × PropValue)
  overrides : List CopiedOverride
  timestamp : Nat
  deriving DecidableEq, Repr

/-- The component set of a main component (src/code.ts line 390):
its parent when that parent is a COMPONENT_SET. -/
def componentSetOf (templateDoc : Doc) (mainComponent : FNode) : Option FNode :=
  match parentOf templateDoc mainComponent with
  | some p => if p.ty = .COMPONENT_SET then some p else none
  | none => none

/-- The copy-instance-data handler (src/code.ts lines 360-824, the data
path): extract the root's variant and component property maps, collect
overrides, append the synthetic root component-parameter record when the
map is non-empty and not already captured for the root, and assemble the
payload. -/
def copyInstanceData (instanceDoc templateDoc : Doc) (instanceRoot mainComponent : FNode)
    (timestamp : Nat) : CopiedInstanceData :=
  let variantProperties := (instanceRoot.variantProperties.getD []).map (fun kv => (kv.1, kv.2))
  let componentProperties := instanceRoot.componentProperties.getD []
  let overrides := collectOverrides instanceDoc templateDoc instanceRoot mainComponent
  let overrides :=
    if 0 < componentProperties.length then
      if (overrides.find? (fun o => o.nodeId == instanceRoot.id && o.componentProperties.isSome)).isSome then
        overrides
      else
        overrides ++ [mkCopiedOverride instanceRoot [] 0
          (createUniqueSignature instanceRoot instanceRoot [] 0)
          { componentProperties := some componentProperties }]
    else overrides
  { sourceComponentName := mainComponent.name
    sourceInstanceName := instanceRoot.name
    sourceComponentSetId := (componentSetOf templateDoc mainComponent).map (fun p => p.id)
    sourceMainComponentId := mainComponent.id
    variantProperties := variantProperties
    componentProperties := componentProperties
    overrides := overrides
    timestamp := timestamp }

/-! ### Paste side: compatibility gate, correspondence and application

The paste-instance-data handler (src/code.ts lines 827-1251).  The host
serializes all document mutations on one logical thread; the
`Promise.all` fan-outs issue independently suspending tasks whose
synchronous mutation sections do not interleave, so per-record and
per-instance application is modelled as a sequential fold in issue
order. -/

/-- Update every document node carrying the given id (a host reference
write; ids are unique in a well-formed document). -/
def updateNode (doc : Doc) (nodeId : String) (f : FNode → FNode) : Doc :=
  doc.map (fun n => if n.id == nodeId then f n else n)

/-- Modelled host primitive `InstanceNode.setProperties` for the
variant-selector map (spec 6: "set variant-selector map").  The engine
always passes a complete captured map, so the stored map is replaced by
the given entries. -/
def hostSetVariantProperties (n : FNode) (props : List (String × String)) : FNode :=
  { n with variantProperties := some props }

/-- Modelled host primitive `setComponentPropertyValue` (spec 6: "set
component-parameter value"): store a new value for an existing
parameter key, preserving the host's `{value, type}` wrapper kind;
unknown keys are rejected by the host and leave the map unchanged. -/
def setComponentPropertyValue (props : List (String × PropValue)) (key : String)
    (v : PropValue) : List (String × PropValue) :=
  props.map (fun kv =>
    if kv.1 == key then
      (kv.1, match kv.2 with
             | .wrapped _ kind => PropValue.wrapped v kind
             | _ => v)
    else kv)

/-- src/code.ts lines 940-948: extract the actual value from a possibly
wrapped `{value, type}` component-property object. -/
def extractActualValue (propertyData : PropValue) : PropValue :=
  match propertyData with
  | .wrapped value _ => value
  | v => v

/-- Step 1 of per-instance application (src/code.ts lines 921-925):
apply the payload's root variant-selector map when non-empty. -/
def applyRootVariantProperties (payload : CopiedInstanceData) (doc : Doc)
    (instanceRoot : FNode) : Doc :=
  if 0 < payload.variantProperties.length then
    updateNode doc instanceRoot.id (fun n => hostSetVariantProperties n payload.variantProperties)
  else doc

/-- One parameter write of step 2: set one root component parameter to
its unwrapped value (the first of the three mechanisms of src/code.ts
lines 950-983 that the host accepts). -/
def setRootComponentProperty (doc : Doc) (instanceRoot : FNode)
    (key : String) (propertyData : PropValue) : Doc :=
  updateNode doc instanceRoot.id (fun n =>
    { n with componentProperties :=
        n.componentProperties.map (fun m =>
          setComponentPropertyValue m key (extractActualValue propertyData)) })

/-- Step 2 of per-instance application (src/code.ts lines 927-997):
apply the payload's root component-parameter map key by key when
non-empty; a failing parameter is skipped, never aborting the rest. -/
def applyRootComponentProperties (payload : CopiedInstanceData) (doc : Doc)
    (instanceRoot : FNode) : Doc :=
  if 0 < payload.componentProperties.length then
    payload.componentProperties.foldl
      (fun d kv => setRootComponentProperty d instanceRoot kv.1 kv.2) doc
  else doc

/-- src/code.ts `createTargetSignature` (lines 1007-1016): same
signature computation as the copy side (path, then the inlined sibling
index). -/
def createTargetSignature (doc : Doc) (node : FNode) (instanceRoot : FNode) : String :=
  createUniqueSignature node instanceRoot (buildInternalHierarchyPath doc node instanceRoot)
    (getSiblingIndex doc node)

/-- Step 3 (src/code.ts lines 999-1023): re-collect the target's nodes
and rebuild a fresh signature map after the structural steps 1-2. -/
def buildTargetSignatureMap (doc : Doc) (instanceRoot : FNode) : List (String × FNode) :=
  (collectAllNodes doc instanceRoot).foldl
    (fun m node => mapSet m (createTargetSignature doc node instanceRoot) node) []

/-- The `type:name:path` fallback prefix used by tier 2 (src/code.ts
line 1037). -/
def fallbackSignatureOf (o : CopiedOverride) : String :=
  nodeTypeStr o.nodeType ++ ":" ++ o.nodeName ++ ":" ++ String.intercalate "/" o.hierarchyPath

/-- Step 4, the three-tier target resolution of one OverrideRecord
(src/code.ts lines 1030-1056), with its match-method label: exact
signature, then first map entry sharing the `type:name:path` prefix,
then first collected node with equal type and name. -/
def resolveTargetNode (signatureMap : List (String × FNode)) (allNodes : List FNode)
    (o : CopiedOverride) : Option (FNode × String) :=
  match lookupSig signatureMap o.uniqueSignature with
  | some node => some (node, "signature")
  | none =>
      match signatureMap.find? (fun kv => kv.1.startsWith (fallbackSignatureOf o ++ ":")) with
      | some kv => some (kv.2, "structural")
      | none =>
          match allNodes.find? (fun node => node.ty == o.nodeType && node.name == o.nodeName) with
          | some node => some (node, "name-type")
          | none => none

/-- Step 5, the per-record field writes (src/code.ts lines 1062-1165),
applied to the live target node in source order: the characters-guarded
text block (font name, then font size, then text content last), text
fills, opacity, visibility, non-text layer fills, strokes, then nested
instance variant and component maps. -/
def applyOverrideWrites (o : CopiedOverride) (targetNode : FNode) : FNode :=
  let targetNode := if o.characters.isSome ∧ targetNode.ty = .TEXT then
      let targetNode := match o.fontName with
        | some f => { targetNode with fontName := some f }
        | none => targetNode
      let targetNode := match o.fontSize with
        | some s => { targetNode with fontSize := some s }
        | none => targetNode
      { targetNode with characters := o.characters }
    else targetNode
  let targetNode := if o.fills.isSome ∧ targetNode.ty = .TEXT then
      { targetNode with fills := clonePaintArray o.fills }
    else targetNode
  let targetNode := if o.opacity.isSome ∧ targetNode.opacity.isSome then
      { targetNode with opacity := o.opacity }
    else targetNode
  let targetNode := if o.visible.isSome ∧ targetNode.visible.isSome then
      { targetNode with visible := o.visible }
    else targetNode
  let targetNode := if o.layerFills.isSome ∧ targetNode.fills.isSome ∧ targetNode.ty ≠ .TEXT then
      { targetNode with fills := clonePaintArray o.layerFills }
    else targetNode
  let targetNode := if o.layerStrokes.isSome ∧ targetNode.strokes.isSome then
      { targetNode with strokes := clonePaintArray o.layerStrokes }
    else targetNode
  let targetNode := match o.variantProperties with
    | some vp => if targetNode.ty = .INSTANCE then hostSetVariantProperties targetNode vp else targetNode
    | none => targetNode
  let targetNode := match o.componentProperties with
    | some cp =>
        if targetNode.ty = .INSTANCE then
          { targetNode with componentProperties :=
              targetNode.componentProperties.map (fun m =>
                cp.foldl (fun m2 kv => setComponentPropertyValue m2 kv.1 (extractActualValue kv.2)) m) }
        else targetNode
    | none => targetNode
  targetNode

/-- Apply one OverrideRecord to the document: resolve, then write; an
unmatched record is skipped and mutates nothing. -/
def applyOneOverride (doc : Doc) (signatureMap : List (String × FNode)) (allNodes : List FNode)
    (o : CopiedOverride) : Doc :=
  match resolveTargetNode signatureMap allNodes o with
  | none => doc
  | some r => updateNode doc r.1.id (applyOverrideWrites o)

/-- The fill write of the re-application pass (src/code.ts
lines 1205-1213): re-write the layer fills when the target has a fill
list and is not text. -/
def applyFillWrite (o : CopiedOverride) (targetNode : FNode) : FNode :=
  if targetNode.fills.isSome ∧ targetNode.ty ≠ .TEXT then
    { targetNode with fills := clonePaintArray o.layerFills }
  else targetNode

/-- Step 6, one record of the fill re-application pass (src/code.ts
lines 1184-1215): same three tiers, then the fill write. -/
def applyOneFillOverride (doc : Doc) (signatureMap : List (String × FNode)) (allNodes : List FNode)
    (o : CopiedOverride) : Doc :=
  match resolveTargetNode signatureMap allNodes o with
  | none => doc
  | some r => updateNode doc r.1.id (applyFillWrite o)

/-- Per-instance application (src/code.ts lines 918-1224): steps 1-2,
fresh node collection and signature map, the per-record pass over the
per-instance copies of the payload's records, then the fill
re-application pass over the layer-fill records. -/
def applyToInstance (payload : CopiedInstanceData) (doc : Doc) (instanceRoot : FNode) : Doc :=
  let doc := applyRootVariantProperties payload doc instanceRoot
  let doc := applyRootComponentProperties payload doc instanceRoot
  let allNodes := collectAllNodes doc instanceRoot
  let signatureMap := buildTargetSignatureMap doc instanceRoot
  let instanceOverrides := payload.overrides.map (fun o => o)
  let doc := instanceOverrides.foldl (fun d o => applyOneOverride d signatureMap allNodes o) doc
  let fillOverrides := instanceOverrides.filter (fun o => o.layerFills.isSome)
  let doc := fillOverrides.foldl (fun d o => applyOneFillOverride d signatureMap allNodes o) doc
  doc

/-- One paste target: its document, the selected instance, and the
host-resolved main component with its parent (the
`getMainComponentAsync` data of src/code.ts lines 882-899). -/
structure PasteTarget where
  doc : Doc
  instanceNode : FNode
  mainComponent : Option FNode
  mainComponentParent : Option FNode
  deriving DecidableEq, Repr

/-- The compatibility check of src/code.ts lines 885-897: same main
component id, or the payload has a component-set id and the target's
main component sits in that very component set. -/
def isCompatibleTarget (payload : CopiedInstanceData) (t : PasteTarget) : Bool :=
  match t.mainComponent with
  | none => false
  | some targetMainComponent =>
      (targetMainComponent.id == payload.sourceMainComponentId) ||
      (match payload.sourceComponentSetId, t.mainComponentParent with
       | some setId, some p => p.ty == NodeType.COMPONENT_SET && p.id == setId
       | _, _ => false)

/-- The outcome of one paste operation: the targets (mutated only when
compatible) and the success/skip counts reported to the user. -/
structure PasteOutcome where
  targets : List PasteTarget
  successCount : Nat
  skippedCount : Nat
  deriving DecidableEq, Repr

/-- The paste-instance-data handler, data path (src/code.ts
lines 881-1234): pre-filter compatible instances, process exactly
those, and count the incompatible ones as skipped (in the error-free
model every processed instance reports success). -/
def pasteInstanceData (payload : CopiedInstanceData) (targets : List PasteTarget) : PasteOutcome :=
  let compatibilityChecks := targets.map (fun t => (t, isCompatibleTarget payload t))
  let compatibleInstances := (compatibilityChecks.filter (fun c => c.2)).map (fun c => c.1)
  let skippedCount := targets.length - compatibleInstances.length
  let outcomes := compatibilityChecks.map (fun c =>
    if c.2 then { c.1 with doc := applyToInstance payload c.1.doc c.1.instanceNode } else c.1)
  { targets := outcomes, successCount := compatibleInstances.length, skippedCount := skippedCount }

/-! ### Normal form of the per-instance application

For the idempotence analysis the application pass is related to a
schedule of node patches.  A node's shape (`NodeShape`) collects the
fields that target resolution and the write guards consult: identity,
hierarchy and the presence flags of the guarded mutable fields.  All of
them are preserved by every write the pass performs, which is what makes
a second application resolve and guard exactly as the first. -/

/-- The resolution- and guard-relevant projection of a node.  `hasFills`
is only ever consulted for non-text nodes (text fills are written
without a presence check), so it is normalised to `true` on text. -/
structure NodeShape where
  id : String
  parentId : Option String
  ty : NodeType
  name : String
  hasOpacity : Bool
  hasVisible : Bool
  hasFills : Bool
  hasStrokes : Bool
  deriving DecidableEq, Repr

/-- Project a node onto its shape. -/
def projNode (n : FNode) : NodeShape :=
  { id := n.id, parentId := n.parentId, ty := n.ty, name := n.name,
    hasOpacity := n.opacity.isSome, hasVisible := n.visible.isSome,
    hasFills := if n.ty = .TEXT then true else n.fills.isSome,
    hasStrokes := n.strokes.isSome }

/-- A patch: per-field constant assignments (`none` = leave unchanged)
plus an ordered list of component-parameter value assignments. -/
structure NodePatch where
  characters : Option String := none
  fontName : Option FontName := none
  fontSize : Option Rat := none
  fills : Option (List Paint) := none
  strokes : Option (List Paint) := none
  opacity : Option Rat := none
  visible : Option Bool := none
  variantProperties : Option (List (String × String)) := none
  compAssigns : List (String × PropValue) := []
  deriving DecidableEq, Repr

/-- Assign a field when the patch carries a value. -/
def patchField {α : Type} (pv : Option α) (cur : Option α) : Option α :=
  match pv with
  | some v => some v
  | none => cur

/-- Run a list of component-parameter assignments against a stored map. -/
def execCompAssigns (m : List (String × PropValue)) (assigns : List (String × PropValue)) :
    List (String × PropValue) :=
  assigns.foldl (fun m2 a => setComponentPropertyValue m2 a.1 a.2) m

/-- Apply a patch to a node. -/
def applyPatch (n : FNode) (p : NodePatch) : FNode :=
  { n with
    characters := patchField p.characters n.characters,
    fontName := patchField p.fontName n.fontName,
    fontSize := patchField p.fontSize n.fontSize,
    fills := patchField p.fills n.fills,
    strokes := patchField p.strokes n.strokes,
    opacity := patchField p.opacity n.opacity,
    visible := patchField p.visible n.visible,
    variantProperties := patchField p.variantProperties n.variantProperties,
    componentProperties := n.componentProperties.map (fun m => execCompAssigns m p.compAssigns) }

/-- The empty patch. -/
def emptyPatch : NodePatch := {}

/-- Sequential composition of patches (`q` after `p`). -/
def combinePatch (p q : NodePatch) : NodePatch :=
  { characters := patchField q.characters p.characters,
    fontName := patchField q.fontName p.fontName,
    fontSize := patchField q.fontSize p.fontSize,
    fills := patchField q.fills p.fills,
    strokes := patchField q.strokes p.strokes,
    opacity := patchField q.opacity p.opacity,
    visible := patchField q.visible p.visible,
    variantProperties := patchField q.variantProperties p.variantProperties,
    compAssigns := p.compAssigns ++ q.compAssigns }

/-- Stage 1 of `applyOverrideWrites` (src/code.ts lines 1066-1096): the
characters-guarded text block — font name, then font size, then text. -/
def writeTextBlock (o : CopiedOverride) (targetNode : FNode) : FNode :=
  if o.characters.isSome ∧ targetNode.ty = .TEXT then
    let targetNode := match o.fontName with
      | some f => { targetNode with fontName := some f }
      | none => targetNode
    let targetNode := match o.fontSize with
      | some s => { targetNode with fontSize := some s }
      | none => targetNode
    { targetNode with characters := o.characters }
  else targetNode

/-- Stage 2: the text-node fill write (src/code.ts lines 1098-1104). -/
def writeTextFills (o : CopiedOverride) (targetNode : FNode) : FNode :=
  if o.fills.isSome ∧ targetNode.ty = .TEXT then
    { targetNode with fills := clonePaintArray o.fills }
  else targetNode

/-- Stage 3: the opacity write (src/code.ts lines 1106-1108). -/
def writeOpacity (o : CopiedOverride) (targetNode : FNode) : FNode :=
  if o.opacity.isSome ∧ targetNode.opacity.isSome then
    { targetNode with opacity := o.opacity }
  else targetNode

/-- Stage 4: the visibility write (src/code.ts lines 1110-1112). -/
def writeVisible (o : CopiedOverride) (targetNode : FNode) : FNode :=
  if o.visible.isSome ∧ targetNode.visible.isSome then
    { targetNode with visible := o.visible }
  else targetNode

/-- Stage 5: the non-text layer-fill write (src/code.ts lines 1114-1120). -/
def writeLayerFills (o : CopiedOverride) (targetNode : FNode) : FNode :=
  if o.layerFills.isSome ∧ targetNode.fills.isSome ∧ targetNode.ty ≠ .TEXT then
    { targetNode with fills := clonePaintArray o.layerFills }
  else targetNode

/-- Stage 6: the stroke write (src/code.ts lines 1122-1128). -/
def writeStrokes (o : CopiedOverride) (targetNode : FNode) : FNode :=
  if o.layerStrokes.isSome ∧ targetNode.strokes.isSome then
    { targetNode with strokes := clonePaintArray o.layerStrokes }
  else targetNode

/-- Stage 7: the nested-instance variant map write (src/code.ts
lines 1130-1139). -/
def writeVariantProps (o : CopiedOverride) (targetNode : FNode) : FNode :=
  match o.variantProperties with
  | some vp => if targetNode.ty = .INSTANCE then hostSetVariantProperties targetNode vp else targetNode
  | none => targetNode

/-- Stage 8: the nested-instance component-parameter writes (src/code.ts
lines 1141-1161). -/
def writeCompProps (o : CopiedOverride) (targetNode : FNode) : FNode :=
  match o.componentProperties with
  | some cp =>
      if targetNode.ty = .INSTANCE then
        { targetNode with componentProperties :=
            targetNode.componentProperties.map (fun m =>
              cp.foldl (fun m2 kv => setComponentPropertyValue m2 kv.1 (extractActualValue kv.2)) m) }
      else targetNode
  | none => targetNode

/-- The patch of stage 1, its guard evaluated against the target's
shape. -/
def patchTextBlock (o : CopiedOverride) (s : NodeShape) : NodePatch :=
  { characters := if o.characters.isSome ∧ s.ty = .TEXT then o.characters else none,
    fontName := if o.characters.isSome ∧ s.ty = .TEXT then o.fontName else none,
    fontSize := if o.characters.isSome ∧ s.ty = .TEXT then o.fontSize else none }

/-- The patch of stage 2. -/
def patchTextFills (o : CopiedOverride) (s : NodeShape) : NodePatch :=
  { fills := if o.fills.isSome ∧ s.ty = .TEXT then clonePaintArray o.fills else none }

/-- The patch of stage 3. -/
def patchOpacity (o : CopiedOverride) (s : NodeShape) : NodePatch :=
  { opacity := if o.opacity.isSome ∧ s.hasOpacity = true then o.opacity else none }

/-- The patch of stage 4. -/
def patchVisible (o : CopiedOverride) (s : NodeShape) : NodePatch :=
  { visible := if o.visible.isSome ∧ s.hasVisible = true then o.visible else none }

/-- The patch of stage 5. -/
def patchLayerFills (o : CopiedOverride) (s : NodeShape) : NodePatch :=
  { fills := if o.layerFills.isSome ∧ s.hasFills = true ∧ s.ty ≠ .TEXT then
      clonePaintArray o.layerFills
    else none }

/-- The patch of stage 6. -/
def patchStrokes (o : CopiedOverride) (s : NodeShape) : NodePatch :=
  { strokes := if o.layerStrokes.isSome ∧ s.hasStrokes = true then
      clonePaintArray o.layerStrokes
    else none }

/-- The patch of stage 7. -/
def patchVariantProps (o : CopiedOverride) (s : NodeShape) : NodePatch :=
  { variantProperties :=
      match o.variantProperties with
      | some vp => if s.ty = .INSTANCE then some vp else none
      | none => none }

/-- The patch of stage 8. -/
def patchCompProps (o : CopiedOverride) (s : NodeShape) : NodePatch :=
  { compAssigns :=
      match o.componentProperties with
      | some cp => if s.ty = .INSTANCE then cp.map (fun kv => (kv.1, extractActualValue kv.2)) else []
      | none => [] }

/-- The patch performed by `applyOverrideWrites` for a record: the
sequential combination of its eight stage patches, all guards evaluated
against the target's shape. -/
def writePatchOf (o : CopiedOverride) (s : NodeShape) : NodePatch :=
  combinePatch (combinePatch (combinePatch (combinePatch (combinePatch (combinePatch (combinePatch
    (patchTextBlock o s) (patchTextFills o s)) (patchOpacity o s)) (patchVisible o s))
    (patchLayerFills o s)) (patchStrokes o s)) (patchVariantProps o s)) (patchCompProps o s)

/-- The patch performed by the fill re-application write. -/
def fillPatchOf (o : CopiedOverride) (s : NodeShape) : NodePatch :=
  { fills := if s.hasFills = true ∧ s.ty ≠ .TEXT then clonePaintArray o.layerFills else none }

/-- Shape-compatibility of a patch: every presence-guarded field the
patch assigns was present on the shape (all patches the application pass
produces have their guards baked in, so they satisfy this). -/
def safeFor (s : NodeShape) (p : NodePatch) : Bool :=
  (p.opacity.isNone || s.hasOpacity) &&
  (p.visible.isNone || s.hasVisible) &&
  (p.strokes.isNone || s.hasStrokes) &&
  (p.fills.isNone || s.hasFills)

/-- One atomic node write the per-instance application performs: the
root variant-map write of step 1, one root component-parameter write of
step 2, the per-record writes of step 5, or one fill re-application
write of step 6. -/
inductive WriteKind where
  | varProps (vp : List (String × String))
  | compProp (key : String) (v : PropValue)
  | recordWrites (o : CopiedOverride)
  | fillRewrite (o : CopiedOverride)
  deriving DecidableEq, Repr

/-- Run one atomic write against a node. -/
def runWrite : WriteKind → FNode → FNode
  | .varProps vp, n => hostSetVariantProperties n vp
  | .compProp key v, n =>
      { n with componentProperties :=
          n.componentProperties.map (fun m => setComponentPropertyValue m key v) }
  | .recordWrites o, n => applyOverrideWrites o n
  | .fillRewrite o, n => applyFillWrite o n

/-- The patch an atomic write performs, its guards evaluated against the
target's shape. -/
def patchOfWrite : WriteKind → NodeShape → NodePatch
  | .varProps vp, _ => { variantProperties := some vp }
  | .compProp key v, _ => { compAssigns := [(key, v)] }
  | .recordWrites o, s => writePatchOf o s
  | .fillRewrite o, s => fillPatchOf o s

/-- The well-formedness the application pass guarantees for each issued
write: a fill re-application write only ever arises from a record with a
captured layer-fill list. -/
def wfWrite : WriteKind → Prop
  | .fillRewrite o => o.layerFills.isSome = true
  | _ => True

/-- A write schedule: atomic writes with their target node ids, in
application order. -/
abbrev WriteSched := List (String × WriteKind)

/-- Execute a write schedule against a document. -/
def execWrites (doc : Doc) (S : WriteSched) : Doc :=
  S.foldl (fun d e => updateNode d e.1 (runWrite e.2)) doc

/-- The effect of a write schedule on one node: every write whose target
id matches is run in order. -/
def applyWrites (S : WriteSched) (n : FNode) : FNode :=
  S.foldl (fun x e => if x.id == e.1 then runWrite e.2 x else x) n

/-- The combined patch a schedule applies to a node of the given id and
shape. -/
def patchFor (S : WriteSched) (s : NodeShape) (i : String) : NodePatch :=
  S.foldl (fun q e => if e.1 == i then combinePatch q (patchOfWrite e.2 s) else q) emptyPatch

/-- The write schedule of one per-instance application: the root variant
and component-parameter writes of steps 1-2, then one per-record write
per resolved OverrideRecord, then one fill re-application write per
resolved layer-fill record. -/
def writeSchedOf (payload : CopiedInstanceData) (doc : Doc) (instanceRoot : FNode) : WriteSched :=
  let doc1 := applyRootVariantProperties payload doc instanceRoot
  let doc2 := applyRootComponentProperties payload doc1 instanceRoot
  let allNodes := collectAllNodes doc2 instanceRoot
  let signatureMap := buildTargetSignatureMap doc2 instanceRoot
  (if 0 < payload.variantProperties.length then
      [(instanceRoot.id, WriteKind.varProps payload.variantProperties)]
    else [])
  ++ (if 0 < payload.componentProperties.length then
        payload.componentProperties.map (fun kv =>
          (instanceRoot.id, WriteKind.compProp kv.1 (extractActualValue kv.2)))
      else [])
  ++ payload.overrides.filterMap (fun o =>
      (resolveTargetNode signatureMap allNodes o).map (fun r => (r.1.id, WriteKind.recordWrites o)))
  ++ (payload.overrides.filter (fun o => o.layerFills.isSome)).filterMap (fun o =>
      (resolveTargetNode signatureMap allNodes o).map (fun r => (r.1.id, WriteKind.fillRewrite o)))

/-- Whether a component-parameter value is a `{value, type}` wrapper. -/
def isWrappedValue : PropValue → Bool
  | .wrapped _ _ => true
  | _ => false

/-- Host-shaped payload data: every component-parameter value unwraps to
a scalar (the host stores `{value, type}` wrappers around scalars, so an
extracted value is never itself a wrapper). -/
abbrev PayloadPlainCompValues (payload : CopiedInstanceData) : Prop :=
  (∀ kv ∈ payload.componentProperties, isWrappedValue (extractActualValue kv.2) = false) ∧
  (∀ o ∈ payload.overrides, ∀ kv ∈ o.componentProperties.getD [],
      isWrappedValue (extractActualValue kv.2) = false)

/-- Per-entry step of a component-parameter assignment list: rewrap the
new value into the entry's `{value, type}` wrapper kind when the entry
holds one (the `setComponentPropertyValue` body, viewed per entry). -/
def stepEntry (e : String × PropValue) (a : String × PropValue) : String × PropValue :=
  if e.1 == a.1 then
    (e.1, match e.2 with
          | .wrapped _ kind => PropValue.wrapped a.2 kind
          | _ => a.2)
  else e

/-- The effect of a whole assignment list on one stored map entry. -/
def entryTransform (assigns : List (String × PropValue)) (e : String × PropValue) :
    String × PropValue :=
  assigns.foldl stepEntry e

/-- The wrapper kind of a component-parameter value, if any. -/
def wrapTy : PropValue → Option String
  | .wrapped _ kind => some kind
  | _ => none

/-- Re-apply a wrapper kind to a value. -/
def reconstructVal (w : Option String) (v : PropValue) : PropValue :=
  match w with
  | some kind => .wrapped v kind
  | none => v

/-- The last value an assignment list assigns to a key, if any. -/
def lastAssignTo (assigns : List (String × PropValue)) (k : String) : Option PropValue :=
  assigns.foldl (fun acc a => if a.1 == k then some a.2 else acc) none

/-- Plainness of an assignment list: no assigned value is itself a
`{value, type}` wrapper (the host always hands the engine unwrapped
scalars, and the engine extracts before assigning). -/
abbrev PlainAssigns (assigns : List (String × PropValue)) : Prop :=
  ∀ a ∈ assigns, isWrappedValue a.2 = false

/-- Plainness of one atomic write: its patch's component-parameter
assignments are plain at every shape. -/
abbrev PlainWrite (w : WriteKind) : Prop :=
  ∀ s, PlainAssigns (patchOfWrite w s).compAssigns

/-- A well-formed, plain write schedule (what `writeSchedOf` produces
from a host-shaped payload). -/
abbrev GoodSched (S : WriteSched) : Prop :=
  ∀ e ∈ S, wfWrite e.2 ∧ PlainWrite e.2

/-- Shape equality of node lists: the application pass resolves and
guards two pointwise shape-equal documents identically. -/
abbrev ProjEqL (la lb : List FNode) : Prop := la.map projNode = lb.map projNode

/-- Shape equality of signature maps: equal keys, shape-equal nodes. -/
abbrev ProjEqM (ma mb : List (String × FNode)) : Prop :=
  ma.map (fun kv => (kv.1, projNode kv.2)) = mb.map (fun kv => (kv.1, projNode kv.2))

/-! ### Resource preload coordinator and the paste event trace

The sequencing and deduplication facts of the paste handler (src/code.ts
lines 858-1243) are stated over an event trace: font-load requests, node
field writes, and the cache clear the handler performs at the end. -/

/-- src/code.ts lines 860-868: the insertion-ordered set of distinct
font references mentioned by the payload's records and not already in
the process-wide loaded-fonts cache. -/
def fontsToLoad (payload : CopiedInstanceData) (loadedFontsCache : List FontName) : List FontName :=
  payload.overrides.foldl
    (fun acc o =>
      match o.fontName with
      | some f => if loadedFontsCache.contains f then acc else if acc.contains f then acc else acc ++ [f]
      | none => acc)
    []

/-- An observable event of the paste handler. -/
inductive PasteEvent where
  | fontLoad (font : FontName)
  | fieldWrite (nodeId : String) (field : String)
  | cacheClear
  deriving DecidableEq, Repr

/-- Whether an event is a font-load request. -/
def isFontLoadEvent : PasteEvent → Bool
  | .fontLoad _ => true
  | _ => false

/-- Whether an event is a node field write. -/
def isFieldWriteEvent : PasteEvent → Bool
  | .fieldWrite _ _ => true
  | _ => false

/-- The (nodeId, field) writes of one record application, in the order
`applyOverrideWrites` performs them (text content last in its block). -/
def overrideWriteList (o : CopiedOverride) (t : FNode) : List (String × String) :=
  (if o.characters.isSome ∧ t.ty = .TEXT then
      (match o.fontName with | some _ => [(t.id, "fontName")] | none => [])
      ++ (match o.fontSize with | some _ => [(t.id, "fontSize")] | none => [])
      ++ [(t.id, "characters")]
    else [])
  ++ (if o.fills.isSome ∧ t.ty = .TEXT then [(t.id, "fills")] else [])
  ++ (if o.opacity.isSome ∧ t.opacity.isSome then [(t.id, "opacity")] else [])
  ++ (if o.visible.isSome ∧ t.visible.isSome then [(t.id, "visible")] else [])
  ++ (if o.layerFills.isSome ∧ t.fills.isSome ∧ t.ty ≠ .TEXT then [(t.id, "fills")] else [])
  ++ (if o.layerStrokes.isSome ∧ t.strokes.isSome then [(t.id, "strokes")] else [])
  ++ (match o.variantProperties with
      | some _ => if t.ty = .INSTANCE then [(t.id, "variantProperties")] else []
      | none => [])
  ++ (match o.componentProperties with
      | some _ => if t.ty = .INSTANCE then [(t.id, "componentProperties")] else []
      | none => [])

/-- The (nodeId, field) writes of one per-instance application: the root
steps 1-2 writes, the per-record writes, then the fill re-pass writes. -/
def instanceWriteList (payload : CopiedInstanceData) (doc : Doc) (instanceRoot : FNode) :
    List (String × String) :=
  let doc1 := applyRootVariantProperties payload doc instanceRoot
  let doc2 := applyRootComponentProperties payload doc1 instanceRoot
  let allNodes := collectAllNodes doc2 instanceRoot
  let signatureMap := buildTargetSignatureMap doc2 instanceRoot
  (if 0 < payload.variantProperties.length then [(instanceRoot.id, "variantProperties")] else [])
  ++ (if 0 < payload.componentProperties.length then
        payload.componentProperties.map (fun kv => (instanceRoot.id, "componentProperty:" ++ kv.1))
      else [])
  ++ payload.overrides.foldr
      (fun o acc =>
        (match resolveTargetNode signatureMap allNodes o with
         | some r => overrideWriteList o r.1
         | none => []) ++ acc)
      []
  ++ (payload.overrides.filter (fun o => o.layerFills.isSome)).foldr
      (fun o acc =>
        (match resolveTargetNode signatureMap allNodes o with
         | some r => if r.1.fills.isSome ∧ r.1.ty ≠ .TEXT then [(r.1.id, "fills")] else []
         | none => []) ++ acc)
      []

/-- The event trace of one paste operation and the resulting font
cache: font loads complete (awaited) before any instance application
begins; the handler's final `clearAllCaches` empties the font cache. -/
def pasteOperationTrace (payload : CopiedInstanceData) (loadedFontsCache : List FontName)
    (targets : List PasteTarget) : List PasteEvent × List FontName :=
  let loads := fontsToLoad payload loadedFontsCache
  let compatibleInstances :=
    ((targets.map (fun t => (t, isCompatibleTarget payload t))).filter (fun c => c.2)).map (fun c => c.1)
  let writes := compatibleInstances.foldr
    (fun t acc => instanceWriteList payload t.doc t.instanceNode ++ acc) []
  (loads.map PasteEvent.fontLoad ++ writes.map (fun pr => PasteEvent.fieldWrite pr.1 pr.2)
     ++ [PasteEvent.cacheClear], [])

/-- The process-level trace of a sequence of paste operations, threading
the loaded-fonts cache from one operation to the next. -/
def processTrace (ops : List (CopiedInstanceData × List PasteTarget))
    (loadedFontsCache : List FontName) : List PasteEvent :=
  match ops with
  | [] => []
  | op :: rest =>
      let tr := pasteOperationTrace op.1 loadedFontsCache op.2
      tr.1 ++ processTrace rest tr.2

/-! ### The memoization caches (src/code.ts lines 44-50 and 203-221)

`hierarchyPathCache` and `nodeCollectionCache` are WeakMaps keyed by the
root node; an entry survives as long as its root node does.  They are
modelled keyed by root id. -/

/-- The process-wide caches. -/
structure PluginCaches where
  hierarchyPathCache : List (String × List (String × List String))
  nodeCollectionCache : List (String × List FNode)
  loadedFontsCache : List FontName
  deriving DecidableEq, Repr

/-- Generic JS map set: overwrite in place or append. -/
def mapSetG {V : Type} (m : List (String × V)) (k : String) (v : V) : List (String × V) :=
  if m.any (fun kv => kv.1 == k) then
    m.map (fun kv => if kv.1 == k then (k, v) else kv)
  else m ++ [(k, v)]

/-- The caches at process start. -/
def emptyCaches : PluginCaches :=
  { hierarchyPathCache := [], nodeCollectionCache := [], loadedFontsCache := [] }

/-- src/code.ts `clearAllCaches` (lines 217-221): only the font cache is
cleared; the two WeakMap caches are left to garbage collection, which
reclaims an entry only when its root node itself is dropped. -/
def clearAllCaches (c : PluginCaches) : PluginCaches :=
  { c with loadedFontsCache := [] }

/-- src/code.ts `collectAllNodesWithCache` (lines 203-215): return the
memoized enumeration when present — whatever the current document state
— else enumerate and memoize. -/
def collectAllNodesWithCache (doc : Doc) (root : FNode) (caches : PluginCaches) :
    List FNode × PluginCaches :=
  match lookupKey caches.nodeCollectionCache root.id with
  | some cached => (cached, caches)
  | none =>
      let allNodes := collectAllNodes doc root
      (allNodes, { caches with
        nodeCollectionCache := mapSetG caches.nodeCollectionCache root.id allNodes })

/-- src/code.ts `buildInternalHierarchyPath` with its cache
(lines 53-75): per-root, per-node memoized path. -/
def buildInternalHierarchyPathCached (doc : Doc) (node : FNode) (instanceRoot : FNode)
    (caches : PluginCaches) : List String × PluginCaches :=
  let rootCache := (lookupKey caches.hierarchyPathCache instanceRoot.id).getD []
  match lookupKey rootCache node.id with
  | some cached => (cached, caches)
  | none =>
      let path := buildInternalHierarchyPath doc node instanceRoot
      (path, { caches with
        hierarchyPathCache :=
          mapSetG caches.hierarchyPathCache instanceRoot.id (mapSetG rootCache node.id path) })

/-! ### Claim-level predicates -/

/-- The round-trip claim's "property-identical" relation: every property
the diff engine compares is equal between an instance node and its
counterpart. -/
abbrev NodesPropertyIdentical (n d : FNode) : Prop :=
  charactersOf n = charactersOf d ∧ n.fontName = d.fontName ∧ n.fontSize = d.fontSize ∧
  n.fills = d.fills ∧ n.strokes = d.strokes ∧ n.opacity = d.opacity ∧ n.visible = d.visible ∧
  n.variantProperties.getD [] = d.variantProperties.getD [] ∧
  n.componentProperties.getD [] = d.componentProperties.getD []

/-- The condition under which the diff engine's FILL OVERRIDES section
fires regardless of equality: a fill-capture node kind with a non-empty
fill list. -/
abbrev UnconditionalFillCapture (n : FNode) : Prop :=
  n.fills.isSome = true ∧ isFillCaptureType n.ty = true ∧ 0 < (n.fills.getD []).length

/-- Decidable zero-deviation check: every collected node resolves to a
counterpart it is property-identical to. -/
def zeroDeviationCheck (instanceDoc templateDoc : Doc) (instanceRoot mainComponent : FNode) : Bool :=
  (collectAllNodes instanceDoc instanceRoot).all (fun n =>
    match findCorrespondingNode (buildSignatureMap templateDoc mainComponent) mainComponent
        instanceRoot n (buildInternalHierarchyPath instanceDoc n instanceRoot)
        (getSiblingIndex instanceDoc n) with
    | some d => decide (NodesPropertyIdentical n d)
    | none => false)

/-- Decidable nested-instance capture-freeness check: no collected node
is an instance whose counterpart is also an instance while its (shared)
component-parameter map holds a `{value, type}` wrapper object.  JS
strict equality compares those objects by reference, so such a map —
though property-identical — always compares unequal between two nodes
and the diff engine captures it (src/code.ts line 550). -/
def nestedCaptureFreeCheck (instanceDoc templateDoc : Doc)
    (instanceRoot mainComponent : FNode) : Bool :=
  (collectAllNodes instanceDoc instanceRoot).all (fun n =>
    match findCorrespondingNode (buildSignatureMap templateDoc mainComponent) mainComponent
        instanceRoot n (buildInternalHierarchyPath instanceDoc n instanceRoot)
        (getSiblingIndex instanceDoc n) with
    | some d =>
        if n.ty = .INSTANCE ∧ d.ty = .INSTANCE then
          (n.componentProperties.getD []).all (fun kv => !(isWrappedValue kv.2))
        else true
    | none => true)

/-- Whether an emitted record has at least one populated property field. -/
def hasAnyPropertyField (d : OverrideData) : Bool :=
  d.characters.isSome || d.fontName.isSome || d.fontSize.isSome || d.fills.isSome ||
  d.opacity.isSome || d.visible.isSome || d.layerFills.isSome || d.layerStrokes.isSome ||
  d.variantProperties.isSome || d.componentProperties.isSome

/-- Whether a paint is one of the four gradient kinds. -/
def isGradientPaint : Paint → Bool
  | .gradient _ _ _ _ _ => true
  | _ => false

/-- Pairwise requirement of the gradient-blindness claim: equal length
and pairwise equal paint types, all of gradient kind. -/
abbrev gradientOnlyPair (a b : List Paint) : Prop :=
  a.length = b.length ∧
  ∀ pr ∈ a.zip b, paintTypeStr pr.1 = paintTypeStr pr.2 ∧ isGradientPaint pr.1 = true

/-! ### Concrete runs used by the counterexamples and witnesses -/

/-- A plain red solid paint. -/
def redPaint : Paint := .solid ⟨1, 0, 0⟩ (some 1)

/-- A plain blue solid paint. -/
def bluePaint : Paint := .solid ⟨0, 0, 1⟩ (some 1)

/-- Round-trip counterexample, template root. -/
def cexC : FNode :=
  { id := "C", parentId := none, ty := .COMPONENT, name := "Comp",
    fills := some [], strokes := some [], opacity := some 1, visible := some true }

/-- Round-trip counterexample, template rectangle with a red fill. -/
def cexCR : FNode :=
  { id := "CR", parentId := some "C", ty := .RECTANGLE, name := "Rect",
    fills := some [redPaint], strokes := some [], opacity := some 1, visible := some true }

/-- Round-trip counterexample, instance root, property-identical to the
template root. -/
def cexI : FNode :=
  { id := "I", parentId := none, ty := .INSTANCE, name := "Inst",
    fills := some [], strokes := some [], opacity := some 1, visible := some true,
    variantProperties := some [], componentProperties := some [] }

/-- Round-trip counterexample, instance rectangle, property-identical to
its template counterpart (same red fill). -/
def cexIR : FNode :=
  { id := "IR", parentId := some "I", ty := .RECTANGLE, name := "Rect",
    fills := some [redPaint], strokes := some [], opacity := some 1, visible := some true }

/-- Round-trip counterexample, template document. -/
def cexTemplateDoc : Doc := [cexC, cexCR]

/-- Round-trip counterexample, instance document. -/
def cexInstanceDoc : Doc := [cexI, cexIR]

/-- Amended round-trip witness, template root carrying a component
parameter. -/
def amdC : FNode :=
  { id := "AC", parentId := none, ty := .COMPONENT, name := "Panel",
    componentProperties := some [("Label", .wrapped (.str "Hi") "TEXT")] }

/-- Amended round-trip witness, zero-deviation instance root with a
non-empty component-parameter map and no fills anywhere. -/
def amdI : FNode :=
  { id := "AI", parentId := none, ty := .INSTANCE, name := "Panel",
    componentProperties := some [("Label", .wrapped (.str "Hi") "TEXT")] }

/-- Nested-capture demonstration, template root component. -/
def nstC : FNode :=
  { id := "NC", parentId := none, ty := .COMPONENT, name := "Group" }

/-- Nested-capture demonstration, template nested instance carrying a
wrapped component parameter. -/
def nstCN : FNode :=
  { id := "NCN", parentId := some "NC", ty := .INSTANCE, name := "Nested",
    componentProperties := some [("P", .wrapped (.str "x") "TEXT")] }

/-- Nested-capture demonstration, zero-deviation instance root. -/
def nstI : FNode :=
  { id := "NI", parentId := none, ty := .INSTANCE, name := "Group" }

/-- Nested-capture demonstration, nested instance property-identical to
its template counterpart, wrapped parameter included. -/
def nstIN : FNode :=
  { id := "NIN", parentId := some "NI", ty := .INSTANCE, name := "Nested",
    componentProperties := some [("P", .wrapped (.str "x") "TEXT")] }

/-- Nested-capture demonstration, template document. -/
def nstTemplateDoc : Doc := [nstC, nstCN]

/-- Nested-capture demonstration, instance document. -/
def nstInstanceDoc : Doc := [nstI, nstIN]

/-- Font-size regression, target instance root. -/
def c2Root : FNode :=
  { id := "I2", parentId := none, ty := .INSTANCE, name := "Card" }

/-- Font-size regression, target text node currently at size 12. -/
def c2Text : FNode :=
  { id := "T2", parentId := some "I2", ty := .TEXT, name := "Title",
    characters := some "Hello", fontName := some ⟨"Inter", "Regular"⟩, fontSize := some 12,
    fills := some [], strokes := some [], opacity := some 1, visible := some true }

/-- Font-size regression, target document. -/
def c2Doc : Doc := [c2Root, c2Text]

/-- Font-size regression: a record whose only populated property is a
font size changed from 12 to 18. -/
def c2Record : CopiedOverride :=
  { toOverrideData := { fontSize := some 18 }, nodeId := "T2src", nodeName := "Title",
    nodeType := .TEXT, hierarchyPath := [], siblingIndex := 0, uniqueSignature := "TEXT:Title::0" }

/-- Font-size regression, the pasted payload. -/
def c2Payload : CopiedInstanceData :=
  { sourceComponentName := "Card", sourceInstanceName := "Card", sourceComponentSetId := none,
    sourceMainComponentId := "MC", variantProperties := [], componentProperties := [],
    overrides := [c2Record], timestamp := 0 }

/-- Tier-exhaustion witness record: matches nothing. -/
def c3wRecord : CopiedOverride :=
  { toOverrideData := { opacity := some (1/2) }, nodeId := "Z", nodeName := "Zed",
    nodeType := .RECTANGLE, hierarchyPath := ["G"], siblingIndex := 0,
    uniqueSignature := "RECTANGLE:Zed:G:0" }

/-- Tier-exhaustion witness document. -/
def c3wDoc : Doc :=
  [{ id := "N", parentId := none, ty := .FRAME, name := "Other" }]

/-- Compatibility witness payload. -/
def c4Payload : CopiedInstanceData :=
  { sourceComponentName := "Btn", sourceInstanceName := "Btn", sourceComponentSetId := some "CS",
    sourceMainComponentId := "MC", variantProperties := [], componentProperties := [],
    overrides := [], timestamp := 0 }

/-- Compatibility witness, a compatible target (same main component). -/
def c4CompatTarget : PasteTarget :=
  { doc := [{ id := "X1", parentId := none, ty := .INSTANCE, name := "Btn" }],
    instanceNode := { id := "X1", parentId := none, ty := .INSTANCE, name := "Btn" },
    mainComponent := some { id := "MC", parentId := none, ty := .COMPONENT, name := "Btn" },
    mainComponentParent := none }

/-- Compatibility witness, an incompatible target (unrelated template,
no shared family). -/
def c4IncompatTarget : PasteTarget :=
  { doc := [{ id := "X2", parentId := none, ty := .INSTANCE, name := "Card" }],
    instanceNode := { id := "X2", parentId := none, ty := .INSTANCE, name := "Card" },
    mainComponent := some { id := "ZZ", parentId := none, ty := .COMPONENT, name := "Card" },
    mainComponentParent := none }

/-- Idempotence witness, target root. -/
def c5Root : FNode :=
  { id := "I5", parentId := none, ty := .INSTANCE, name := "Card5",
    variantProperties := some [("Size", "Small")],
    componentProperties := some [("Label", .wrapped (.str "Old") "TEXT")] }

/-- Idempotence witness, target text node. -/
def c5Text : FNode :=
  { id := "T5", parentId := some "I5", ty := .TEXT, name := "Title5",
    characters := some "a", fontName := some ⟨"Inter", "Regular"⟩, fontSize := some 12,
    fills := some [], strokes := some [], opacity := some 1, visible := some true }

/-- Idempotence witness, target rectangle with a blue fill. -/
def c5Rect : FNode :=
  { id := "R5", parentId := some "I5", ty := .RECTANGLE, name := "Body5",
    fills := some [bluePaint], strokes := some [], opacity := some 1, visible := some true }

/-- Idempotence witness, target document. -/
def c5Doc : Doc := [c5Root, c5Text, c5Rect]

/-- Idempotence witness, the pasted payload: root variant and parameter
maps, a text record, and a layer-fill record. -/
def c5Payload : CopiedInstanceData :=
  { sourceComponentName := "Card5", sourceInstanceName := "Card5", sourceComponentSetId := none,
    sourceMainComponentId := "MC5",
    variantProperties := [("Size", "Large")],
    componentProperties := [("Label", .wrapped (.str "Hi") "TEXT")],
    overrides :=
      [{ toOverrideData := { characters := some "Hello", fontSize := some 18 }, nodeId := "sT",
         nodeName := "Title5", nodeType := .TEXT, hierarchyPath := [], siblingIndex := 0,
         uniqueSignature := "TEXT:Title5::0" },
       { toOverrideData := { layerFills := some [redPaint] }, nodeId := "sR",
         nodeName := "Body5", nodeType := .RECTANGLE, hierarchyPath := [], siblingIndex := 0,
         uniqueSignature := "RECTANGLE:Body5::0" }],
    timestamp := 0 }

/-- Preload witness payload: one record mentioning one font. -/
def c6Payload : CopiedInstanceData :=
  { sourceComponentName := "Tag", sourceInstanceName := "Tag", sourceComponentSetId := none,
    sourceMainComponentId := "MC6", variantProperties := [], componentProperties := [],
    overrides :=
      [{ toOverrideData := { characters := some "Go", fontName := some ⟨"Inter", "Bold"⟩ },
         nodeId := "sT6", nodeName := "Label6", nodeType := .TEXT, hierarchyPath := [],
         siblingIndex := 0, uniqueSignature := "TEXT:Label6::0" }],
    timestamp := 0 }

/-- Preload witness target. -/
def c6Target : PasteTarget :=
  { doc := [{ id := "I6", parentId := none, ty := .INSTANCE, name := "Tag" },
            { id := "T6", parentId := some "I6", ty := .TEXT, name := "Label6",
              characters := some "x", fontName := some ⟨"Inter", "Regular"⟩,
              fontSize := some 10, fills := some [], strokes := some [],
              opacity := some 1, visible := some true }],
    instanceNode := { id := "I6", parentId := none, ty := .INSTANCE, name := "Tag" },
    mainComponent := some { id := "MC6", parentId := none, ty := .COMPONENT, name := "Tag" },
    mainComponentParent := none }

/-- Cache-staleness run, the root node. -/
def c7Root : FNode := { id := "R7", parentId := none, ty := .FRAME, name := "Root7" }

/-- Cache-staleness run, a child present in the first operation. -/
def c7Child : FNode := { id := "K7", parentId := some "R7", ty := .RECTANGLE, name := "Child7" }

/-- Cache-staleness run, document as seen by the first operation. -/
def c7Doc0 : Doc := [c7Root, c7Child]

/-- Cache-staleness run, document after the child was deleted. -/
def c7Doc1 : Doc := [c7Root]

/-- Cache state after the first operation enumerated the root. -/
def c7Caches1 : PluginCaches := (collectAllNodesWithCache c7Doc0 c7Root emptyCaches).2

/-- Sibling-rank run: the parent. -/
def tripleP : FNode := { id := "P", parentId := none, ty := .FRAME, name := "Row" }

/-- Sibling-rank run: first of three same-name same-type children. -/
def tripleA : FNode := { id := "A1", parentId := some "P", ty := .RECTANGLE, name := "Item" }

/-- Sibling-rank run: second child. -/
def tripleB : FNode := { id := "A2", parentId := some "P", ty := .RECTANGLE, name := "Item" }

/-- Sibling-rank run: third child. -/
def tripleC : FNode := { id := "A3", parentId := some "P", ty := .RECTANGLE, name := "Item" }

/-- Sibling-rank run: the document. -/
def tripleDoc : Doc := [tripleP, tripleA, tripleB, tripleC]

/-- The signature the engine computes for a node of the sibling-rank
document. -/
def tripleSig (n : FNode) : String :=
  createUniqueSignature n tripleP (buildInternalHierarchyPath tripleDoc n tripleP)
    (getSiblingIndex tripleDoc n)

/-- Gradient-blindness run: a linear gradient with a black stop. -/
def gradA : List Paint := [.gradient .linear none [⟨0, ⟨0, 0, 0⟩⟩] none none]

/-- Gradient-blindness run: same paint type, different stop colour. -/
def gradB : List Paint := [.gradient .linear none [⟨0, ⟨1, 1, 1⟩⟩] none none]

/-! ## Theorems -/

theorem clonePaint_eq (p : Paint) : clonePaint p = p := by
  cases p with
  | solid c o => cases c; rfl
  | image => rfl
  | gradient => rfl

theorem clonePaintArray_some (l : List Paint) : clonePaintArray (some l) = some l := by
  simp only [clonePaintArray]
  induction l with
  | nil => rfl
  | cons a t ih => simp_all [clonePaint_eq]

theorem paintPairEqual_refl (p : Paint) : paintPairEqual p p = true := by
  cases p <;> simp [paintPairEqual]

theorem paintsEqual_refl (l : List Paint) : paintsEqual (some l) (some l) = true := by
  simp only [paintsEqual, ne_eq, not_true_eq_false, if_false]
  induction l with
  | nil => simp
  | cons a t ih => simp_all [paintPairEqual_refl]

theorem fontNamesEqual_refl (f : Option FontName) : fontNamesEqual f f = true := by
  cases f <;> simp [fontNamesEqual]

theorem jsStrictEqStr_refl (s : String) : jsStrictEqStr s s = true := by
  simp [jsStrictEqStr]

theorem jsStrictEqProp_refl_of_plain (v : PropValue) (h : isWrappedValue v = false) :
    jsStrictEqProp v v = true := by
  cases v <;> simp_all [jsStrictEqProp, isWrappedValue]

theorem propertiesEqual_refl {V : Type} (jsEq : V → V → Bool) (m : List (String × V))
    (h : ∀ kv ∈ m, jsEq kv.2 kv.2 = true) :
    propertiesEqual jsEq m m = true := by
  simp only [propertiesEqual, ne_eq, not_true_eq_false, if_false, List.all_eq_true]
  intro k hk
  have hc : (keysOf m).contains k = true := List.elem_eq_true_of_mem hk
  rw [if_pos hc]
  cases hf : m.find? (fun kv => kv.1 == k) with
  | none =>
      exfalso
      have hk' : k ∈ m.map Prod.fst := hk
      obtain ⟨kv, hkv, hk1⟩ := List.mem_map.mp hk'
      exact (List.find?_eq_none.mp hf kv hkv) (beq_iff_eq.mpr hk1)
  | some kv =>
      have hkvm : kv ∈ m := List.mem_of_find?_eq_some hf
      show (match lookupKey m k, lookupKey m k with
        | some va, some vb => jsEq va vb
        | _, _ => false) = true
      unfold lookupKey
      rw [hf]
      exact h kv hkvm

theorem detectTextOverrides_refl (n d : FNode) (st : DetectState)
    (h1 : charactersOf n = charactersOf d) (h2 : n.fontName = d.fontName)
    (h3 : n.fontSize = d.fontSize) (h4 : n.fills = d.fills) :
    detectTextOverrides n d st = st := by
  unfold detectTextOverrides
  rw [h1, h2, h3, h4]
  cases d.fontName <;> cases d.fontSize <;> cases d.fills <;>
    simp [fontNamesEqual_refl, paintsEqual_refl]

theorem detectVisualOverrides_refl (n d : FNode) (st : DetectState)
    (h5 : n.opacity = d.opacity) (h6 : n.visible = d.visible) :
    detectVisualOverrides n d st = st := by
  unfold detectVisualOverrides
  rw [h5, h6]
  cases d.opacity <;> cases d.visible <;> simp

theorem detectLayerFillOverrides_of_no_capture (n d : FNode) (st : DetectState)
    (h4 : n.fills = d.fills) (hf : ¬ UnconditionalFillCapture n) :
    detectLayerFillOverrides n d st = st := by
  unfold detectLayerFillOverrides
  rw [← h4]
  cases hfs : n.fills with
  | none => rfl
  | some fl =>
      simp only [UnconditionalFillCapture, hfs, Option.isSome_some, Option.getD_some, true_and,
        not_and, not_lt] at hf
      by_cases hc : isFillCaptureType n.ty = true
      · have := hf hc
        simp [hc, Nat.le_zero.mp this]
      · simp [hc]

theorem detectStrokeOverrides_refl (n d : FNode) (st : DetectState)
    (h : n.strokes = d.strokes) :
    detectStrokeOverrides n d st = st := by
  unfold detectStrokeOverrides
  rw [← h]
  cases n.strokes <;> simp [paintsEqual_refl]

theorem detectInstanceOverrides_refl (n d : FNode) (st : DetectState)
    (h8 : n.variantProperties.getD [] = d.variantProperties.getD [])
    (h9 : n.componentProperties.getD [] = d.componentProperties.getD [])
    (hplain : n.ty = .INSTANCE → d.ty = .INSTANCE →
      ∀ kv ∈ n.componentProperties.getD [], isWrappedValue kv.2 = false) :
    detectInstanceOverrides n d st = st := by
  unfold detectInstanceOverrides
  by_cases hg : n.ty = .INSTANCE ∧ d.ty = .INSTANCE
  · rw [if_pos hg, h8, h9]
    have hp1 : propertiesEqual jsStrictEqStr (d.variantProperties.getD [])
        (d.variantProperties.getD []) = true :=
      propertiesEqual_refl _ _ (fun kv _ => jsStrictEqStr_refl kv.2)
    have hp2 : propertiesEqual jsStrictEqProp (d.componentProperties.getD [])
        (d.componentProperties.getD []) = true :=
      propertiesEqual_refl _ _ (fun kv hkv =>
        jsStrictEqProp_refl_of_plain kv.2 (hplain hg.1 hg.2 kv (by rw [h9]; exact hkv)))
    simp [hp1, hp2]
  · rw [if_neg hg]

theorem detectOverrides_eq_none_of_identical (n d : FNode)
    (h : NodesPropertyIdentical n d) (hf : ¬ UnconditionalFillCapture n)
    (hplain : n.ty = .INSTANCE → d.ty = .INSTANCE →
      ∀ kv ∈ n.componentProperties.getD [], isWrappedValue kv.2 = false) :
    detectOverrides n d = none := by
  obtain ⟨h1, h2, h3, h4, h5, h6, h7, h8, h9⟩ := h
  unfold detectOverrides
  dsimp only
  rw [detectTextOverrides_refl n d _ h1 h2 h3 h4,
    detectVisualOverrides_refl n d _ h6 h7,
    detectLayerFillOverrides_of_no_capture n d _ h4 hf,
    detectStrokeOverrides_refl n d _ h5,
    detectInstanceOverrides_refl n d _ h8 h9 hplain]
  rfl

theorem foldl_eq_of_fixed {α β : Type} (f : β → α → β) :
    ∀ (l : List α) (b : β), (∀ x ∈ l, ∀ acc, f acc x = acc) → l.foldl f b = b
  | [], _, _ => rfl
  | a :: t, b, h => by
      rw [List.foldl_cons, h a (List.mem_cons_self a t)]
      exact foldl_eq_of_fixed f t b (fun x hx acc => h x (List.mem_cons_of_mem a hx) acc)

theorem collectOverrides_eq_nil (instanceDoc templateDoc : Doc) (instanceRoot mainComponent : FNode)
    (hzero : zeroDeviationCheck instanceDoc templateDoc instanceRoot mainComponent = true)
    (hfills : ∀ n ∈ collectAllNodes instanceDoc instanceRoot, ¬ UnconditionalFillCapture n)
    (hnest : nestedCaptureFreeCheck instanceDoc templateDoc instanceRoot mainComponent = true) :
    collectOverrides instanceDoc templateDoc instanceRoot mainComponent = [] := by
  unfold zeroDeviationCheck at hzero
  unfold nestedCaptureFreeCheck at hnest
  unfold collectOverrides
  dsimp only
  apply foldl_eq_of_fixed
  intro node hn acc
  have hz := List.all_eq_true.mp hzero node hn
  have hne := List.all_eq_true.mp hnest node hn
  unfold collectStep
  dsimp only
  cases hfc : findCorrespondingNode (buildSignatureMap templateDoc mainComponent) mainComponent
      instanceRoot node (buildInternalHierarchyPath instanceDoc node instanceRoot)
      (getSiblingIndex instanceDoc node) with
  | none => rw [hfc] at hz; exact absurd hz (by simp)
  | some dflt =>
      rw [hfc] at hz
      rw [hfc] at hne
      have hid : NodesPropertyIdentical node dflt := of_decide_eq_true hz
      have hplain : node.ty = .INSTANCE → dflt.ty = .INSTANCE →
          ∀ kv ∈ node.componentProperties.getD [], isWrappedValue kv.2 = false := by
        intro hni hdi kv hkv
        dsimp only at hne
        rw [if_pos ⟨hni, hdi⟩] at hne
        have := List.all_eq_true.mp hne kv hkv
        simpa using this
      simp only [detectOverrides_eq_none_of_identical node dflt hid (hfills node hn) hplain]

/-- C1 (counterexample): a zero-deviation instance — every collected
node resolves to a counterpart it is property-identical to — whose
rectangle carries a (template-identical) non-empty fill list yields a
payload with a non-root OverrideRecord, because the diff engine captures
non-empty fills unconditionally; the claim's "empty override list"
conclusion is false as stated (the root parameter map here is empty, so
not even the synthetic root record is expected). -/
theorem c1_roundtrip_counterexample :
    zeroDeviationCheck cexInstanceDoc cexTemplateDoc cexI cexC = true ∧
    (copyInstanceData cexInstanceDoc cexTemplateDoc cexI cexC 0).componentProperties = [] ∧
    (copyInstanceData cexInstanceDoc cexTemplateDoc cexI cexC 0).overrides.map
        (fun o => o.nodeId) = ["IR"] ∧
    (copyInstanceData cexInstanceDoc cexTemplateDoc cexI cexC 0).overrides.all
        (fun o => o.layerFills.isSome) = true ∧
    cexI.id ≠ "IR" := by
  refine ⟨by decide, by decide, by decide, by decide, by decide⟩

/-- C1 (amended): capturing from a zero-deviation instance in which,
additionally, no collected node triggers the unconditional fill capture
(fill-capture kind with non-empty fill list) and no collected nested
instance shares with its instance counterpart a component-parameter map
holding `{value, type}` wrapper objects (which JS strict equality
compares by reference, so the engine captures such a map even when
property-identical) yields a payload whose override list is empty aside
from the synthetic root record carrying the root's component-parameter
map when that map is non-empty. -/
theorem c1_roundtrip_amended (instanceDoc templateDoc : Doc) (instanceRoot mainComponent : FNode)
    (ts : Nat)
    (hzero : zeroDeviationCheck instanceDoc templateDoc instanceRoot mainComponent = true)
    (hfills : ∀ n ∈ collectAllNodes instanceDoc instanceRoot, ¬ UnconditionalFillCapture n)
    (hnest : nestedCaptureFreeCheck instanceDoc templateDoc instanceRoot mainComponent = true) :
    (copyInstanceData instanceDoc templateDoc instanceRoot mainComponent ts).overrides =
      (if 0 < (instanceRoot.componentProperties.getD []).length then
        [mkCopiedOverride instanceRoot [] 0 (createUniqueSignature instanceRoot instanceRoot [] 0)
          { componentProperties := some (instanceRoot.componentProperties.getD []) }]
      else []) := by
  unfold copyInstanceData
  rw [collectOverrides_eq_nil _ _ _ _ hzero hfills hnest]
  simp

/-- C1 (witness): the amended round-trip theorem applied to a concrete
zero-deviation, fill-free instance with a non-empty root parameter map
(the root's counterpart is the main component itself, not an instance,
so the nested-instance exclusion holds vacuously): the payload carries
exactly the synthetic root record. -/
theorem c1_roundtrip_amended_witness :
    (copyInstanceData [amdI] [amdC] amdI amdC 0).overrides =
      (if 0 < (amdI.componentProperties.getD []).length then
        [mkCopiedOverride amdI [] 0 (createUniqueSignature amdI amdI [] 0)
          { componentProperties := some (amdI.componentProperties.getD []) }]
      else []) :=
  c1_roundtrip_amended [amdI] [amdC] amdI amdC 0 (by decide) (by decide) (by decide)

/-- Under the reference-compared wrapper semantics of `propertiesEqual`,
a zero-deviation nested instance carrying a non-empty component-parameter
map is captured anyway: the engine emits a record for it even though
every property is identical — the situation the amended round-trip
statement's nested-instance exclusion rules out. -/
theorem nested_instance_map_recaptured :
    zeroDeviationCheck nstInstanceDoc nstTemplateDoc nstI nstC = true ∧
    nestedCaptureFreeCheck nstInstanceDoc nstTemplateDoc nstI nstC = false ∧
    (copyInstanceData nstInstanceDoc nstTemplateDoc nstI nstC 0).overrides.map
        (fun o => o.nodeId) = ["NIN"] ∧
    (copyInstanceData nstInstanceDoc nstTemplateDoc nstI nstC 0).overrides.all
        (fun o => o.componentProperties.isSome) = true := by
  refine ⟨by decide, by decide, by decide, by decide⟩

theorem detectTextOverrides_inv (n d : FNode) (st : DetectState)
    (ih : st.2 = true → hasAnyPropertyField st.1 = true) :
    (detectTextOverrides n d st).2 = true →
      hasAnyPropertyField (detectTextOverrides n d st).1 = true := by
  unfold detectTextOverrides
  dsimp only
  repeat' split
  all_goals intro h
  all_goals simp_all [hasAnyPropertyField, clonePaintArray]

theorem detectVisualOverrides_inv (n d : FNode) (st : DetectState)
    (ih : st.2 = true → hasAnyPropertyField st.1 = true) :
    (detectVisualOverrides n d st).2 = true →
      hasAnyPropertyField (detectVisualOverrides n d st).1 = true := by
  unfold detectVisualOverrides
  dsimp only
  repeat' split
  all_goals intro h
  all_goals simp_all [hasAnyPropertyField]

theorem detectLayerFillOverrides_inv (n d : FNode) (st : DetectState)
    (ih : st.2 = true → hasAnyPropertyField st.1 = true) :
    (detectLayerFillOverrides n d st).2 = true →
      hasAnyPropertyField (detectLayerFillOverrides n d st).1 = true := by
  unfold detectLayerFillOverrides
  repeat' split
  all_goals intro h
  all_goals simp_all [hasAnyPropertyField, clonePaintArray]

theorem detectStrokeOverrides_inv (n d : FNode) (st : DetectState)
    (ih : st.2 = true → hasAnyPropertyField st.1 = true) :
    (detectStrokeOverrides n d st).2 = true →
      hasAnyPropertyField (detectStrokeOverrides n d st).1 = true := by
  unfold detectStrokeOverrides
  repeat' split
  all_goals intro h
  all_goals simp_all [hasAnyPropertyField, clonePaintArray]

theorem detectInstanceOverrides_inv (n d : FNode) (st : DetectState)
    (ih : st.2 = true → hasAnyPropertyField st.1 = true) :
    (detectInstanceOverrides n d st).2 = true →
      hasAnyPropertyField (detectInstanceOverrides n d st).1 = true := by
  unfold detectInstanceOverrides
  dsimp only
  repeat' split
  all_goals intro h
  all_goals simp_all [hasAnyPropertyField]

theorem detectOverrides_hasAny (n d : FNode) (od : OverrideData)
    (h : detectOverrides n d = some od) : hasAnyPropertyField od = true := by
  unfold detectOverrides at h
  dsimp only at h
  split at h
  case isTrue ht =>
    have := detectInstanceOverrides_inv n d _
      (detectStrokeOverrides_inv n d _
        (detectLayerFillOverrides_inv n d _
          (detectVisualOverrides_inv n d _
            (detectTextOverrides_inv n d ({}, false) (by intro hx; cases hx)))))
    cases h
    exact this ht
  case isFalse => cases h

theorem fallbackInstanceCapture_inv (n : FNode) (st : DetectState)
    (ih : st.2 = true → hasAnyPropertyField st.1 = true) :
    (fallbackInstanceCapture n st).2 = true →
      hasAnyPropertyField (fallbackInstanceCapture n st).1 = true := by
  unfold fallbackInstanceCapture
  dsimp only
  repeat' split
  all_goals intro h
  all_goals simp_all [hasAnyPropertyField]

theorem fallbackTextCapture_inv (n : FNode) (st : DetectState)
    (ih : st.2 = true → hasAnyPropertyField st.1 = true) :
    (fallbackTextCapture n st).2 = true →
      hasAnyPropertyField (fallbackTextCapture n st).1 = true := by
  unfold fallbackTextCapture
  dsimp only
  repeat' split
  all_goals intro h
  all_goals simp_all [hasAnyPropertyField, clonePaintArray]

theorem fallbackVisualCapture_inv (n : FNode) (st : DetectState)
    (ih : st.2 = true → hasAnyPropertyField st.1 = true) :
    (fallbackVisualCapture n st).2 = true →
      hasAnyPropertyField (fallbackVisualCapture n st).1 = true := by
  unfold fallbackVisualCapture
  dsimp only
  repeat' split
  all_goals intro h
  all_goals simp_all [hasAnyPropertyField]

theorem fallbackLayerFillCapture_inv (n : FNode) (st : DetectState)
    (ih : st.2 = true → hasAnyPropertyField st.1 = true) :
    (fallbackLayerFillCapture n st).2 = true →
      hasAnyPropertyField (fallbackLayerFillCapture n st).1 = true := by
  unfold fallbackLayerFillCapture
  repeat' split
  all_goals intro h
  all_goals simp_all [hasAnyPropertyField, clonePaintArray]

theorem fallbackStrokeCapture_inv (n : FNode) (st : DetectState)
    (ih : st.2 = true → hasAnyPropertyField st.1 = true) :
    (fallbackStrokeCapture n st).2 = true →
      hasAnyPropertyField (fallbackStrokeCapture n st).1 = true := by
  unfold fallbackStrokeCapture
  repeat' split
  all_goals intro h
  all_goals simp_all [hasAnyPropertyField, clonePaintArray]

theorem fallbackCapture_hasAny (n : FNode) (od : OverrideData)
    (h : fallbackCapture n = some od) : hasAnyPropertyField od = true := by
  unfold fallbackCapture at h
  dsimp only at h
  split at h
  case isTrue ht =>
    have := fallbackStrokeCapture_inv n _
      (fallbackLayerFillCapture_inv n _
        (fallbackVisualCapture_inv n _
          (fallbackTextCapture_inv n _
            (fallbackInstanceCapture_inv n ({}, false) (by intro hx; cases hx)))))
    cases h
    exact this ht
  case isFalse => cases h

theorem foldl_mem_invariant {α β : Type} (P : β → Prop) (f : List β → α → List β) :
    ∀ (l : List α) (acc : List β), (∀ b ∈ acc, P b) →
      (∀ (acc' : List β) (x : α), x ∈ l → (∀ b ∈ acc', P b) → ∀ b ∈ f acc' x, P b) →
      ∀ b ∈ l.foldl f acc, P b
  | [], _, hacc, _ => hacc
  | x :: t, acc, hacc, hstep => by
      rw [List.foldl_cons]
      exact foldl_mem_invariant P f t (f acc x)
        (hstep acc x (List.mem_cons_self x t) hacc)
        (fun acc' y hy => hstep acc' y (List.mem_cons_of_mem x hy))

theorem collectStep_populated (sigMap : List (String × FNode)) (instanceDoc : Doc)
    (instanceRoot mainComponent : FNode) (acc : List CopiedOverride) (node : FNode)
    (hacc : ∀ b ∈ acc, hasAnyPropertyField b.toOverrideData = true) :
    ∀ b ∈ collectStep sigMap instanceDoc instanceRoot mainComponent acc node,
      hasAnyPropertyField b.toOverrideData = true := by
  intro b hb
  unfold collectStep at hb
  dsimp only at hb
  cases hfc : findCorrespondingNode sigMap mainComponent instanceRoot node
      (buildInternalHierarchyPath instanceDoc node instanceRoot)
      (getSiblingIndex instanceDoc node) with
  | some dflt =>
      rw [hfc] at hb
      dsimp only at hb
      cases hdet : detectOverrides node dflt with
      | some od =>
          rw [hdet] at hb
          dsimp only at hb
          rcases List.mem_append.mp hb with hmem | hmem
          · exact hacc b hmem
          · rcases List.mem_singleton.mp hmem with rfl
            exact detectOverrides_hasAny node dflt od hdet
      | none => rw [hdet] at hb; exact hacc b hb
  | none =>
      rw [hfc] at hb
      dsimp only at hb
      cases hfb : fallbackCapture node with
      | some od =>
          rw [hfb] at hb
          dsimp only at hb
          rcases List.mem_append.mp hb with hmem | hmem
          · exact hacc b hmem
          · rcases List.mem_singleton.mp hmem with rfl
            exact fallbackCapture_hasAny node od hfb
      | none => rw [hfb] at hb; exact hacc b hb

theorem collectOverrides_all_populated (instanceDoc templateDoc : Doc)
    (instanceRoot mainComponent : FNode) :
    ∀ o ∈ collectOverrides instanceDoc templateDoc instanceRoot mainComponent,
      hasAnyPropertyField o.toOverrideData = true := by
  unfold collectOverrides
  dsimp only
  have h := foldl_mem_invariant
    (fun o : CopiedOverride => hasAnyPropertyField o.toOverrideData = true)
    (collectStep (buildSignatureMap templateDoc mainComponent) instanceDoc instanceRoot mainComponent)
    (collectAllNodes instanceDoc instanceRoot) [] (by simp)
    (fun acc x _ hacc => collectStep_populated _ _ _ _ acc x hacc)
  exact h

/-- C8: every OverrideRecord appended to the payload's overrides list —
by comparison, by fallback capture, or as the synthetic root-parameter
record — has at least one property field populated. -/
theorem c8_no_empty_records (instanceDoc templateDoc : Doc) (instanceRoot mainComponent : FNode)
    (ts : Nat) :
    ∀ o ∈ (copyInstanceData instanceDoc templateDoc instanceRoot mainComponent ts).overrides,
      hasAnyPropertyField o.toOverrideData = true := by
  unfold copyInstanceData
  dsimp only
  intro o ho
  split at ho
  case isTrue =>
    split at ho
    case isTrue => exact collectOverrides_all_populated _ _ _ _ o ho
    case isFalse =>
      rcases List.mem_append.mp ho with hmem | hmem
      · exact collectOverrides_all_populated _ _ _ _ o hmem
      · rcases List.mem_singleton.mp hmem with rfl
        simp [hasAnyPropertyField, mkCopiedOverride]
  case isFalse => exact collectOverrides_all_populated _ _ _ _ o ho

/-- C8 (witness): the no-empty-record theorem applied to the concrete
capture run, at its single emitted record. -/
theorem c8_no_empty_records_witness :
    hasAnyPropertyField ((mkCopiedOverride cexIR [] 0 (createUniqueSignature cexIR cexI [] 0)
      { layerFills := some [redPaint] }).toOverrideData) = true :=
  c8_no_empty_records cexInstanceDoc cexTemplateDoc cexI cexC 0
    (mkCopiedOverride cexIR [] 0 (createUniqueSignature cexIR cexI [] 0)
      { layerFills := some [redPaint] })
    (by decide)


theorem jsIndexOfByIdAux_ge (nid : String) :
    ∀ (l : List FNode) (k : Nat), (∃ x ∈ l, x.id = nid) →
      (k : Int) ≤ jsIndexOfByIdAux l nid k
  | [], k, h => by simp at h
  | c :: t, k, h => by
      unfold jsIndexOfByIdAux
      by_cases hc : c.id = nid
      · simp [hc]
      · simp only [hc, if_false]
        obtain ⟨x, hx, hxid⟩ := h
        rcases List.mem_cons.mp hx with rfl | hxt
        · exact absurd hxid hc
        · have := jsIndexOfByIdAux_ge nid t (k + 1) ⟨x, hxt, hxid⟩
          omega

theorem jsIndexOfByIdAux_ne (mid nid : String) (hne : mid ≠ nid) :
    ∀ (l : List FNode) (k : Nat), (∃ x ∈ l, x.id = mid) → (∃ x ∈ l, x.id = nid) →
      jsIndexOfByIdAux l mid k ≠ jsIndexOfByIdAux l nid k
  | [], _, hm, _ => by simp at hm
  | c :: t, k, hm, hn => by
      unfold jsIndexOfByIdAux
      by_cases hcm : c.id = mid
      · have hcn : ¬ c.id = nid := fun h => hne (hcm ▸ h)
        simp only [hcm, if_true, hcn, if_false, hne]
        obtain ⟨x, hx, hxid⟩ := hn
        rcases List.mem_cons.mp hx with rfl | hxt
        · exact absurd hxid hcn
        · have := jsIndexOfByIdAux_ge nid t (k + 1) ⟨x, hxt, hxid⟩
          omega
      · by_cases hcn : c.id = nid
        · simp only [hcm, if_false, hcn, if_true, Ne.symm hne]
          obtain ⟨x, hx, hxid⟩ := hm
          rcases List.mem_cons.mp hx with rfl | hxt
          · exact absurd hxid hcm
          · have := jsIndexOfByIdAux_ge mid t (k + 1) ⟨x, hxt, hxid⟩
            omega
        · simp only [hcm, if_false, hcn]
          obtain ⟨x, hx, hxid⟩ := hm
          rcases List.mem_cons.mp hx with rfl | hxt
          · exact absurd hxid hcm
          · obtain ⟨y, hy, hyid⟩ := hn
            rcases List.mem_cons.mp hy with rfl | hyt
            · exact absurd hyid hcn
            · exact jsIndexOfByIdAux_ne mid nid hne t (k + 1) ⟨x, hxt, hxid⟩ ⟨y, hyt, hyid⟩

/-- C9: the engine's signature is exactly the
`type:name:joined-path:siblingRank` string; the sibling rank is the
node's index among its parent's children sharing both its name and its
type; two distinct same-name same-type children of one parent always
receive distinct ranks; and the three same-name same-type children of
the concrete run receive ranks 0, 1, 2 with three pairwise distinct
signatures. -/
theorem c9_signature_and_sibling_rank :
    (∀ (node root : FNode) (hierarchyPath : List String) (siblingIndex : Int),
        createUniqueSignature node root hierarchyPath siblingIndex =
          nodeTypeStr node.ty ++ ":" ++ node.name ++ ":" ++ String.intercalate "/" hierarchyPath
            ++ ":" ++ toString siblingIndex) ∧
    (∀ (doc : Doc) (node p : FNode), parentOf doc node = some p →
        getSiblingIndex doc node =
          jsIndexOfById ((childrenOf doc p).filter
            (fun c => c.name == node.name && c.ty == node.ty)) node) ∧
    (∀ (doc : Doc) (p m n : FNode), parentOf doc m = some p → parentOf doc n = some p →
        m ∈ childrenOf doc p → n ∈ childrenOf doc p → m.name = n.name → m.ty = n.ty →
        m.id ≠ n.id → getSiblingIndex doc m ≠ getSiblingIndex doc n) ∧
    ([getSiblingIndex tripleDoc tripleA, getSiblingIndex tripleDoc tripleB,
        getSiblingIndex tripleDoc tripleC] = [0, 1, 2] ∧
      tripleSig tripleA ≠ tripleSig tripleB ∧ tripleSig tripleA ≠ tripleSig tripleC ∧
      tripleSig tripleB ≠ tripleSig tripleC) := by
  refine ⟨fun node root hp si => rfl, ?_, ?_, by decide⟩
  · intro doc node p h
    unfold getSiblingIndex
    rw [h]
  · intro doc p m n hm hn hmc hnc hname hty hid
    unfold getSiblingIndex
    rw [hm, hn]
    dsimp only
    have hpred : (fun c : FNode => c.name == m.name && c.ty == m.ty)
        = (fun c : FNode => c.name == n.name && c.ty == n.ty) := by
      rw [hname, hty]
    rw [hpred]
    unfold jsIndexOfById
    apply jsIndexOfByIdAux_ne m.id n.id hid
    · exact ⟨m, List.mem_filter.mpr ⟨hmc, by simp [hname, hty]⟩, rfl⟩
    · exact ⟨n, List.mem_filter.mpr ⟨hnc, by simp⟩, rfl⟩

/-- C9 (witness): the rank-distinctness part applied to two concrete
same-name same-type siblings. -/
theorem c9_signature_and_sibling_rank_witness :
    getSiblingIndex tripleDoc tripleA ≠ getSiblingIndex tripleDoc tripleB :=
  c9_signature_and_sibling_rank.2.2.1 tripleDoc tripleP tripleA tripleB
    (by decide) (by decide) (by decide) (by decide) (by decide) (by decide) (by decide)


theorem paintPairEqual_of_gradient (p q : Paint) (ht : paintTypeStr p = paintTypeStr q)
    (hg : isGradientPaint p = true) : paintPairEqual p q = true := by
  cases p with
  | solid c o => simp [isGradientPaint] at hg
  | image => simp [isGradientPaint] at hg
  | gradient k1 gt gs go gv =>
      cases q with
      | solid => cases k1 <;> simp [paintTypeStr] at ht
      | image => cases k1 <;> simp [paintTypeStr] at ht
      | gradient k2 => simp [paintPairEqual, ht]

theorem paintsEqual_of_gradientOnly (a b : List Paint) (h : gradientOnlyPair a b) :
    paintsEqual (some a) (some b) = true := by
  obtain ⟨hlen, hpair⟩ := h
  simp only [paintsEqual, hlen, ne_eq, not_true_eq_false, if_false, List.all_eq_true]
  intro pr hpr
  obtain ⟨ht, hg⟩ := hpair pr hpr
  exact paintPairEqual_of_gradient pr.1 pr.2 ht hg

theorem detectTextOverrides_fills_frame (n d : FNode) (st : DetectState) (a b : List Paint)
    (hna : n.fills = some a) (hdb : d.fills = some b) (hp : paintsEqual (some a) (some b) = true) :
    (detectTextOverrides n d st).1.fills = st.1.fills := by
  unfold detectTextOverrides
  rw [hna, hdb]
  dsimp only
  repeat' split
  all_goals simp_all

theorem detectVisualOverrides_frame (n d : FNode) (st : DetectState) :
    (detectVisualOverrides n d st).1.fills = st.1.fills ∧
    (detectVisualOverrides n d st).1.layerStrokes = st.1.layerStrokes := by
  unfold detectVisualOverrides
  dsimp only
  repeat' split
  all_goals simp_all

theorem detectLayerFillOverrides_frame (n d : FNode) (st : DetectState) :
    (detectLayerFillOverrides n d st).1.fills = st.1.fills ∧
    (detectLayerFillOverrides n d st).1.layerStrokes = st.1.layerStrokes := by
  unfold detectLayerFillOverrides
  repeat' split
  all_goals simp_all

theorem detectStrokeOverrides_frame (n d : FNode) (st : DetectState) :
    (detectStrokeOverrides n d st).1.fills = st.1.fills := by
  unfold detectStrokeOverrides
  repeat' split
  all_goals simp_all

theorem detectStrokeOverrides_strokes_frame (n d : FNode) (st : DetectState) (a b : List Paint)
    (hna : n.strokes = some a) (hdb : d.strokes = some b)
    (hp : paintsEqual (some a) (some b) = true) :
    (detectStrokeOverrides n d st).1.layerStrokes = st.1.layerStrokes := by
  unfold detectStrokeOverrides
  rw [hna, hdb]
  simp [hp]

theorem detectInstanceOverrides_frame (n d : FNode) (st : DetectState) :
    (detectInstanceOverrides n d st).1.fills = st.1.fills ∧
    (detectInstanceOverrides n d st).1.layerStrokes = st.1.layerStrokes := by
  unfold detectInstanceOverrides
  dsimp only
  repeat' split
  all_goals simp_all

theorem detectTextOverrides_strokes_frame (n d : FNode) (st : DetectState) :
    (detectTextOverrides n d st).1.layerStrokes = st.1.layerStrokes := by
  unfold detectTextOverrides
  dsimp only
  repeat' split
  all_goals simp_all

/-- C10: the paint comparator inspects type-specific fields only for
SOLID and IMAGE paints; two fill or stroke lists whose paints pairwise
share a gradient type always compare equal, whatever their stops or
transforms, so a gradient-only change in a text node's fills or in any
node's strokes never populates the corresponding field of a record
emitted by the exact-match comparison branch. -/
theorem c10_gradient_blind_comparator :
    (∀ a b : List Paint, gradientOnlyPair a b → paintsEqual (some a) (some b) = true) ∧
    (∀ (n d : FNode) (a b : List Paint) (od : OverrideData), n.ty = .TEXT → d.ty = .TEXT →
        n.fills = some a → d.fills = some b → gradientOnlyPair a b →
        detectOverrides n d = some od → od.fills = none) ∧
    (∀ (n d : FNode) (a b : List Paint) (od : OverrideData), n.strokes = some a →
        d.strokes = some b → gradientOnlyPair a b →
        detectOverrides n d = some od → od.layerStrokes = none) := by
  refine ⟨fun a b h => paintsEqual_of_gradientOnly a b h, ?_, ?_⟩
  · intro n d a b od _ _ hna hdb hgrad hdet
    unfold detectOverrides at hdet
    dsimp only at hdet
    split at hdet
    case isFalse => cases hdet
    case isTrue =>
      cases hdet
      rw [(detectInstanceOverrides_frame n d _).1, detectStrokeOverrides_frame n d _,
        (detectLayerFillOverrides_frame n d _).1, (detectVisualOverrides_frame n d _).1,
        detectTextOverrides_fills_frame n d _ a b hna hdb
          (paintsEqual_of_gradientOnly a b hgrad)]
  · intro n d a b od hna hdb hgrad hdet
    unfold detectOverrides at hdet
    dsimp only at hdet
    split at hdet
    case isFalse => cases hdet
    case isTrue =>
      cases hdet
      rw [(detectInstanceOverrides_frame n d _).2,
        detectStrokeOverrides_strokes_frame n d _ a b hna hdb
          (paintsEqual_of_gradientOnly a b hgrad),
        (detectLayerFillOverrides_frame n d _).2, (detectVisualOverrides_frame n d _).2,
        detectTextOverrides_strokes_frame n d _]

/-- C10 (witness): the comparator part applied to two concrete
gradient fill lists that differ only in their stops. -/
theorem c10_gradient_blind_comparator_witness : paintsEqual (some gradA) (some gradB) = true ∧ gradA ≠ gradB :=
  ⟨c10_gradient_blind_comparator.1 gradA gradB (by decide), by decide⟩


/-- C2 (code bug): a record whose only populated property is a font
size of 18, matched (tier 1) to a TEXT node currently at size 12, is
dropped entirely: the per-record application guards all font writes on
the record carrying text content (src/code.ts line 1066), so the target
ends at size 12 while the spec's application order and its end-to-end
scenario require it to end at 18. -/
theorem c2_fontsize_only_record_dropped :
    c2Record.fontSize = some 18 ∧ c2Record.characters = none ∧ c2Text.ty = .TEXT ∧
    resolveTargetNode (buildTargetSignatureMap c2Doc c2Root) (collectAllNodes c2Doc c2Root)
      c2Record = some (c2Text, "signature") ∧
    applyToInstance c2Payload c2Doc c2Root = c2Doc ∧
    ((applyToInstance c2Payload c2Doc c2Root).find? (fun n => n.id == "T2")).map
      (fun n => n.fontSize) = some (some 12) := by
  refine ⟨by decide, by decide, by decide, by decide, by decide, by decide⟩

/-- C3: target resolution attempts exactly the three tiers in order —
exact stored-signature lookup, first map entry sharing the
`type:name:path` prefix, first collected node with equal type and
name — stopping at the first hit; when no tier matches, the record is
skipped and neither the main pass nor the fill re-pass mutates any
node for it. -/
theorem c3_three_tier_matching (signatureMap : List (String × FNode)) (allNodes : List FNode)
    (o : CopiedOverride) :
    (∀ node : FNode, lookupSig signatureMap o.uniqueSignature = some node →
        resolveTargetNode signatureMap allNodes o = some (node, "signature")) ∧
    (∀ kv : String × FNode, lookupSig signatureMap o.uniqueSignature = none →
        signatureMap.find? (fun e => e.1.startsWith (fallbackSignatureOf o ++ ":")) = some kv →
        resolveTargetNode signatureMap allNodes o = some (kv.2, "structural")) ∧
    (∀ node : FNode, lookupSig signatureMap o.uniqueSignature = none →
        signatureMap.find? (fun e => e.1.startsWith (fallbackSignatureOf o ++ ":")) = none →
        allNodes.find? (fun e => e.ty == o.nodeType && e.name == o.nodeName) = some node →
        resolveTargetNode signatureMap allNodes o = some (node, "name-type")) ∧
    (lookupSig signatureMap o.uniqueSignature = none →
        signatureMap.find? (fun e => e.1.startsWith (fallbackSignatureOf o ++ ":")) = none →
        allNodes.find? (fun e => e.ty == o.nodeType && e.name == o.nodeName) = none →
        resolveTargetNode signatureMap allNodes o = none ∧
        ∀ doc : Doc, applyOneOverride doc signatureMap allNodes o = doc ∧
            applyOneFillOverride doc signatureMap allNodes o = doc) := by
  refine ⟨?_, ?_, ?_, ?_⟩
  · intro node h
    unfold resolveTargetNode
    rw [h]
  · intro kv h1 h2
    unfold resolveTargetNode
    rw [h1, h2]
  · intro node h1 h2 h3
    unfold resolveTargetNode
    rw [h1, h2, h3]
  · intro h1 h2 h3
    have hres : resolveTargetNode signatureMap allNodes o = none := by
      unfold resolveTargetNode
      rw [h1, h2, h3]
    exact ⟨hres, fun doc => ⟨by unfold applyOneOverride; rw [hres],
      by unfold applyOneFillOverride; rw [hres]⟩⟩

/-- C3 (witness): the no-match case applied to a record that matches
nothing: the record is skipped and the document is untouched. -/
theorem c3_three_tier_matching_witness :
    resolveTargetNode [] [] c3wRecord = none ∧
    applyOneOverride c3wDoc [] [] c3wRecord = c3wDoc ∧
    applyOneFillOverride c3wDoc [] [] c3wRecord = c3wDoc := by
  have h := (c3_three_tier_matching [] [] c3wRecord).2.2.2 (by decide) (by decide) (by decide)
  exact ⟨h.1, (h.2 c3wDoc).1, (h.2 c3wDoc).2⟩

theorem length_sub_filter {α : Type} (p : α → Bool) (l : List α) :
    l.length - (l.filter p).length = (l.filter (fun a => !(p a))).length := by
  induction l with
  | nil => rfl
  | cons a t ih =>
      have hle := List.length_filter_le p t
      by_cases h : p a
      · simp only [List.filter_cons, h, if_true, Bool.not_true, List.length_cons]
        simpa using ih
      · simp only [List.filter_cons, h, Bool.false_eq_true, if_false, Bool.not_false,
          List.length_cons, eq_self_iff_true, if_true]
        omega

theorem checks_filter_length (payload : CopiedInstanceData) (targets : List PasteTarget) :
    (((targets.map (fun t => (t, isCompatibleTarget payload t))).filter (fun c => c.2)).map
      (fun c => c.1)).length =
    (targets.filter (fun t => isCompatibleTarget payload t)).length := by
  induction targets with
  | nil => rfl
  | cons a t ih =>
      by_cases h : isCompatibleTarget payload a
      · simp [List.filter_cons, h, ih]
      · simp [List.filter_cons, h, ih]

/-- C4: a target is processed only when compatible (same main component
id, or a component-set id shared with the payload); every incompatible
target is left entirely unmutated and counted in the skipped tally,
while the success count covers exactly the compatible targets. -/
theorem c4_compatibility_gate (payload : CopiedInstanceData) (targets : List PasteTarget) :
    (pasteInstanceData payload targets).skippedCount =
      (targets.filter (fun t => !(isCompatibleTarget payload t))).length ∧
    (pasteInstanceData payload targets).successCount =
      (targets.filter (fun t => isCompatibleTarget payload t)).length ∧
    (pasteInstanceData payload targets).targets.length = targets.length ∧
    (∀ (i : Nat) (t : PasteTarget), targets[i]? = some t →
        isCompatibleTarget payload t = false →
        (pasteInstanceData payload targets).targets[i]? = some t) := by
  unfold pasteInstanceData
  dsimp only
  refine ⟨?_, ?_, by simp, ?_⟩
  · rw [checks_filter_length]
    exact length_sub_filter _ _
  · exact checks_filter_length payload targets
  · intro i t ht hc
    rw [List.getElem?_map, List.getElem?_map, ht]
    simp [hc]

/-- C4 (witness): the gate applied to one compatible and one
incompatible target: the incompatible one comes back unchanged. -/
theorem c4_compatibility_gate_witness :
    (pasteInstanceData c4Payload [c4CompatTarget, c4IncompatTarget]).targets[1]? =
      some c4IncompatTarget :=
  (c4_compatibility_gate c4Payload [c4CompatTarget, c4IncompatTarget]).2.2.2 1
    c4IncompatTarget (by decide) (by decide)


/-- C7 (counterexample): after one operation memoized the enumeration
for a still-live root, and the document then lost a child, the next
operation — even run after the code's own clearAllCaches — is handed the
stale two-node enumeration of the old document, not the fresh one-node
enumeration: the memoized enumeration IS reused across operations. -/
theorem c7_cache_invalidation_counterexample :
    (collectAllNodesWithCache c7Doc1 c7Root (clearAllCaches c7Caches1)).1 ≠
      collectAllNodes c7Doc1 c7Root ∧
    (collectAllNodesWithCache c7Doc1 c7Root (clearAllCaches c7Caches1)).1 =
      collectAllNodes c7Doc0 c7Root := by
  refine ⟨by decide, by decide⟩

/-- C7 (amended): clearAllCaches clears only the loaded-fonts cache and
leaves the hierarchy-path and node-collection caches untouched; those
two caches are never explicitly invalidated, so any memoized entry for a
still-live root is returned unchanged by a later operation regardless of
the current document state. -/
theorem c7_caches_survive_operations :
    (∀ c : PluginCaches, (clearAllCaches c).hierarchyPathCache = c.hierarchyPathCache ∧
        (clearAllCaches c).nodeCollectionCache = c.nodeCollectionCache ∧
        (clearAllCaches c).loadedFontsCache = []) ∧
    (∀ (doc : Doc) (root : FNode) (caches : PluginCaches) (cached : List FNode),
        lookupKey caches.nodeCollectionCache root.id = some cached →
        collectAllNodesWithCache doc root caches = (cached, caches)) ∧
    (∀ (doc : Doc) (node root : FNode) (caches : PluginCaches)
        (rc : List (String × List String)) (cached : List String),
        lookupKey caches.hierarchyPathCache root.id = some rc →
        lookupKey rc node.id = some cached →
        buildInternalHierarchyPathCached doc node root caches = (cached, caches)) := by
  refine ⟨fun c => ⟨rfl, rfl, rfl⟩, ?_, ?_⟩
  · intro doc root caches cached h
    unfold collectAllNodesWithCache
    rw [h]
  · intro doc node root caches rc cached h1 h2
    unfold buildInternalHierarchyPathCached
    rw [h1]
    dsimp only [Option.getD_some]
    rw [h2]

/-- C7 (witness): the cache-hit part applied to the concrete stale
cache: the old enumeration comes back on the mutated document. -/
theorem c7_caches_survive_operations_witness :
    collectAllNodesWithCache c7Doc1 c7Root (clearAllCaches c7Caches1) =
      ([c7Root, c7Child], clearAllCaches c7Caches1) :=
  c7_caches_survive_operations.2.1 c7Doc1 c7Root (clearAllCaches c7Caches1) [c7Root, c7Child] (by decide)


theorem foldl_invariant {α β : Type} (P : β → Prop) (f : β → α → β) :
    ∀ (l : List α) (b : β), P b → (∀ acc x, x ∈ l → P acc → P (f acc x)) → P (l.foldl f b)
  | [], _, hb, _ => hb
  | x :: t, b, hb, hstep => by
      rw [List.foldl_cons]
      exact foldl_invariant P f t (f b x) (hstep b x (List.mem_cons_self x t) hb)
        (fun acc y hy => hstep acc y (List.mem_cons_of_mem x hy))

theorem fontsToLoad_spec (payload : CopiedInstanceData) (cache : List FontName) :
    (fontsToLoad payload cache).Nodup ∧
      ∀ g ∈ fontsToLoad payload cache, cache.contains g = false := by
  unfold fontsToLoad
  apply foldl_invariant
    (fun acc : List FontName => acc.Nodup ∧ ∀ g ∈ acc, cache.contains g = false)
  · exact ⟨List.nodup_nil, by simp⟩
  · intro acc o _ hP
    obtain ⟨hnd, hdisj⟩ := hP
    cases hf : o.fontName with
    | none => exact ⟨hnd, hdisj⟩
    | some f =>
        dsimp only
        by_cases hc : cache.contains f
        · simp only [hc, if_true]
          exact ⟨hnd, hdisj⟩
        · simp only [hc, Bool.false_eq_true, if_false]
          by_cases ha : acc.contains f
          · simp only [ha, if_true]
            exact ⟨hnd, hdisj⟩
          · simp only [ha, Bool.false_eq_true, if_false]
            have hfna : f ∉ acc := fun hmem => ha (List.elem_eq_true_of_mem hmem)
            refine ⟨?_, ?_⟩
            · rw [← List.concat_eq_append]
              exact List.Nodup.concat hfna hnd
            · intro g hg
              rcases List.mem_append.mp hg with hga | hgf
              · exact hdisj g hga
              · rcases List.mem_singleton.mp hgf with rfl
                exact Bool.eq_false_iff.mpr (fun hcc => hc hcc)

theorem trace_shape_load_index (L : List FontName) (Wr : List (String × String)) (i : Nat)
    (e : PasteEvent)
    (h : ((L.map PasteEvent.fontLoad ++ Wr.map (fun pr => PasteEvent.fieldWrite pr.1 pr.2))
        ++ [PasteEvent.cacheClear])[i]? = some e)
    (he : isFontLoadEvent e = true) :
    i < L.length ∧ ∃ f, e = PasteEvent.fontLoad f ∧ L[i]? = some f := by
  by_cases hi : i < L.length
  · refine ⟨hi, ?_⟩
    rw [List.getElem?_append_left (by simp; omega), List.getElem?_append_left (by simpa),
      List.getElem?_map] at h
    cases hL : L[i]? with
    | none => rw [hL] at h; cases h
    | some f =>
        rw [hL] at h
        exact ⟨f, (Option.some_inj.mp h).symm, rfl⟩
  · exfalso
    push_neg at hi
    by_cases hib : i < L.length + Wr.length
    · rw [List.getElem?_append_left (by simp; omega),
        List.getElem?_append_right (by simpa using hi)] at h
      have hmem := List.getElem?_mem h
      rcases List.mem_map.mp hmem with ⟨pr, _, rfl⟩
      simp [isFontLoadEvent] at he
    · push_neg at hib
      rw [List.getElem?_append_right (by simp; omega)] at h
      have hmem := List.getElem?_mem h
      rcases List.mem_singleton.mp hmem with rfl
      simp [isFontLoadEvent] at he

theorem trace_shape_write_lower (L : List FontName) (Wr : List (String × String)) (j : Nat)
    (e : PasteEvent)
    (h : ((L.map PasteEvent.fontLoad ++ Wr.map (fun pr => PasteEvent.fieldWrite pr.1 pr.2))
        ++ [PasteEvent.cacheClear])[j]? = some e)
    (he : isFieldWriteEvent e = true) :
    L.length ≤ j := by
  by_contra hj
  push_neg at hj
  rw [List.getElem?_append_left (by simp; omega), List.getElem?_append_left (by simpa),
    List.getElem?_map] at h
  cases hL : L[j]? with
  | none => rw [hL] at h; cases h
  | some f =>
      rw [hL] at h
      rw [← Option.some_inj.mp h] at he
      simp [isFieldWriteEvent] at he


theorem pasteOperationTrace_shape (payload : CopiedInstanceData) (cache : List FontName)
    (targets : List PasteTarget) :
    ∃ Wr : List (String × String), (pasteOperationTrace payload cache targets).1 =
      ((fontsToLoad payload cache).map PasteEvent.fontLoad
        ++ Wr.map (fun pr => PasteEvent.fieldWrite pr.1 pr.2)) ++ [PasteEvent.cacheClear] :=
  ⟨_, rfl⟩

theorem nodup_getElem?_inj {α : Type} (l : List α) (hn : l.Nodup) (i j : Nat) (a : α)
    (hi : l[i]? = some a) (hj : l[j]? = some a) : i = j := by
  have hi' : i < l.length := by
    by_contra h
    push_neg at h
    rw [List.getElem?_eq_none h] at hi
    cases hi
  have hj' : j < l.length := by
    by_contra h
    push_neg at h
    rw [List.getElem?_eq_none h] at hj
    cases hj
  rw [List.getElem?_eq_getElem hi'] at hi
  rw [List.getElem?_eq_getElem hj'] at hj
  have heq : l[i] = l[j] := by rw [Option.some_inj.mp hi, Option.some_inj.mp hj]
  exact (List.Nodup.getElem_inj_iff hn).mp heq

theorem processTrace_clear_between :
    ∀ (ops : List (CopiedInstanceData × List PasteTarget)) (cache : List FontName)
      (i j : Nat) (f : FontName), i < j →
      (processTrace ops cache)[i]? = some (PasteEvent.fontLoad f) →
      (processTrace ops cache)[j]? = some (PasteEvent.fontLoad f) →
      ∃ k, i < k ∧ k < j ∧ (processTrace ops cache)[k]? = some PasteEvent.cacheClear
  | [], cache, i, j, f, hij, hi, hj => by simp [processTrace] at hi
  | op :: rest, cache, i, j, f, hij, hi, hj => by
      unfold processTrace at hi hj ⊢
      dsimp only at hi hj ⊢
      obtain ⟨Wr, hshape⟩ := pasteOperationTrace_shape op.1 cache op.2
      rw [hshape] at hi hj ⊢
      have hlen3 : (((fontsToLoad op.1 cache).map PasteEvent.fontLoad
          ++ Wr.map (fun pr => PasteEvent.fieldWrite pr.1 pr.2))
          ++ [PasteEvent.cacheClear]).length =
          (fontsToLoad op.1 cache).length + Wr.length + 1 := by simp; omega
      by_cases hjn : j < (fontsToLoad op.1 cache).length + Wr.length + 1
      · exfalso
        rw [List.getElem?_append_left (by omega)] at hi hj
        obtain ⟨hiL, fi, hfi, hLi⟩ := trace_shape_load_index _ _ _ _ hi rfl
        obtain ⟨hjL, fj, hfj, hLj⟩ := trace_shape_load_index _ _ _ _ hj rfl
        injection hfi with hfi1
        injection hfj with hfj1
        rw [← hfi1] at hLi
        rw [← hfj1] at hLj
        have := nodup_getElem?_inj _ (fontsToLoad_spec op.1 cache).1 i j f hLi hLj
        omega
      · push_neg at hjn
        by_cases hin : i < (fontsToLoad op.1 cache).length + Wr.length + 1
        · have hi1 := hi
          rw [List.getElem?_append_left (by omega)] at hi1
          obtain ⟨hiL, _, _, _⟩ := trace_shape_load_index _ _ _ _ hi1 rfl
          refine ⟨(fontsToLoad op.1 cache).length + Wr.length, by omega, by omega, ?_⟩
          rw [List.getElem?_append_left (by omega),
            List.getElem?_append_right (by simp)]
          simp
        · push_neg at hin
          rw [List.getElem?_append_right (by omega)] at hi hj
          obtain ⟨k, hk1, hk2, hk3⟩ := processTrace_clear_between rest
            (pasteOperationTrace op.1 cache op.2).2
            (i - (((fontsToLoad op.1 cache).map PasteEvent.fontLoad
              ++ Wr.map (fun pr => PasteEvent.fieldWrite pr.1 pr.2))
              ++ [PasteEvent.cacheClear]).length)
            (j - (((fontsToLoad op.1 cache).map PasteEvent.fontLoad
              ++ Wr.map (fun pr => PasteEvent.fieldWrite pr.1 pr.2))
              ++ [PasteEvent.cacheClear]).length)
            f (by omega) hi hj
          refine ⟨k + (((fontsToLoad op.1 cache).map PasteEvent.fontLoad
              ++ Wr.map (fun pr => PasteEvent.fieldWrite pr.1 pr.2))
              ++ [PasteEvent.cacheClear]).length, by omega, by omega, ?_⟩
          rw [List.getElem?_append_right (by omega)]
          simpa [Nat.add_sub_cancel] using hk3

/-- C6: within one paste operation every font-load request precedes
every node field write; the fonts requested are pairwise distinct and
none of them is already in the loaded-fonts cache; and across a whole
process, two load requests for the same font reference are always
separated by an explicit cache clear (the handler clears the font cache
at the end of each paste). -/
theorem c6_font_preload :
    (∀ (payload : CopiedInstanceData) (cache : List FontName) (targets : List PasteTarget)
        (i j : Nat) (e1 e2 : PasteEvent),
        (pasteOperationTrace payload cache targets).1[i]? = some e1 →
        (pasteOperationTrace payload cache targets).1[j]? = some e2 →
        isFontLoadEvent e1 = true → isFieldWriteEvent e2 = true → i < j) ∧
    (∀ (payload : CopiedInstanceData) (cache : List FontName),
        (fontsToLoad payload cache).Nodup ∧
        ∀ g ∈ fontsToLoad payload cache, cache.contains g = false) ∧
    (∀ (ops : List (CopiedInstanceData × List PasteTarget)) (cache : List FontName)
        (i j : Nat) (f : FontName), i < j →
        (processTrace ops cache)[i]? = some (PasteEvent.fontLoad f) →
        (processTrace ops cache)[j]? = some (PasteEvent.fontLoad f) →
        ∃ k, i < k ∧ k < j ∧ (processTrace ops cache)[k]? = some PasteEvent.cacheClear) := by
  refine ⟨?_, fontsToLoad_spec, processTrace_clear_between⟩
  intro payload cache targets i j e1 e2 h1 h2 he1 he2
  obtain ⟨Wr, hshape⟩ := pasteOperationTrace_shape payload cache targets
  rw [hshape] at h1 h2
  obtain ⟨hi, _⟩ := trace_shape_load_index _ _ _ _ h1 he1
  have hj := trace_shape_write_lower _ _ _ _ h2 he2
  omega

/-- C6 (witness): the ordering part applied to the concrete one-record
paste: the font load at index 0 precedes the font-name write at
index 1. -/
theorem c6_font_preload_witness :
    (pasteOperationTrace c6Payload [] [c6Target]).1[0]? =
      some (PasteEvent.fontLoad ⟨"Inter", "Bold"⟩) ∧
    (pasteOperationTrace c6Payload [] [c6Target]).1[1]? =
      some (PasteEvent.fieldWrite "T6" "fontName") ∧
    (0 : Nat) < 1 :=
  ⟨by decide, by decide,
    c6_font_preload.1 c6Payload [] [c6Target] 0 1 (PasteEvent.fontLoad ⟨"Inter", "Bold"⟩)
      (PasteEvent.fieldWrite "T6" "fontName") (by decide) (by decide) (by decide) (by decide)⟩


/-! ### C5: idempotence of the per-instance application

The pass is normalised to a write schedule (`writeSchedOf`) of atomic
per-node writes; each write equals a shape-guarded patch, shapes are
preserved by every write, the schedule is therefore identical on the
second run, and the combined per-node patch is idempotent. -/

theorem execCompAssigns_eq_map (assigns : List (String × PropValue)) :
    ∀ m : List (String × PropValue), execCompAssigns m assigns = m.map (entryTransform assigns) := by
  induction assigns with
  | nil =>
      intro m
      show m = _
      have h1 : List.map (entryTransform []) m = List.map (fun e => e) m :=
        List.map_congr_left (fun e _ => rfl)
      rw [h1, List.map_id']
  | cons a t ih =>
      intro m
      show execCompAssigns (setComponentPropertyValue m a.1 a.2) t = _
      rw [ih]
      unfold setComponentPropertyValue
      rw [List.map_map]
      apply List.map_congr_left
      intro e _
      rfl

theorem entryTransform_fst (assigns : List (String × PropValue)) :
    ∀ e : String × PropValue, (entryTransform assigns e).1 = e.1 := by
  induction assigns with
  | nil => intro e; rfl
  | cons a t ih =>
      intro e
      show (entryTransform t (stepEntry e a)).1 = e.1
      rw [ih]
      unfold stepEntry
      split
      · rfl
      · rfl

theorem lastAssignTo_acc (k : String) :
    ∀ (t : List (String × PropValue)) (acc : Option PropValue),
      t.foldl (fun acc a => if a.1 == k then some a.2 else acc) acc =
        (match lastAssignTo t k with
         | some v => some v
         | none => acc) := by
  intro t
  induction t with
  | nil => intro acc; rfl
  | cons a t ih =>
      intro acc
      show t.foldl _ (if a.1 == k then some a.2 else acc) = _
      rw [ih]
      show _ = (match t.foldl (fun acc a => if a.1 == k then some a.2 else acc)
        (if a.1 == k then some a.2 else none) with
        | some v => some v | none => acc)
      rw [ih]
      by_cases hk : (a.1 == k) = true
      · simp only [hk, if_true]
        cases lastAssignTo t k <;> rfl
      · simp only [hk]
        cases lastAssignTo t k <;> simp_all

theorem lastAssignTo_cons (a : String × PropValue) (t : List (String × PropValue)) (k : String) :
    lastAssignTo (a :: t) k =
      (match lastAssignTo t k with
       | some v => some v
       | none => if a.1 == k then some a.2 else none) := by
  show t.foldl _ (if a.1 == k then some a.2 else none) = _
  rw [lastAssignTo_acc]

theorem lastAssignTo_mem (k : String) :
    ∀ (assigns : List (String × PropValue)) (v : PropValue),
      lastAssignTo assigns k = some v → ∃ a ∈ assigns, a.2 = v := by
  intro assigns
  induction assigns with
  | nil => intro v h; cases h
  | cons a t ih =>
      intro v h
      rw [lastAssignTo_cons] at h
      cases hl : lastAssignTo t k with
      | some w =>
          rw [hl] at h
          obtain ⟨b, hb, hbv⟩ := ih w hl
          cases h
          exact ⟨b, List.mem_cons_of_mem a hb, hbv⟩
      | none =>
          rw [hl] at h
          by_cases hk : (a.1 == k) = true
          · rw [if_pos hk] at h
            cases h
            exact ⟨a, List.mem_cons_self a t, rfl⟩
          · rw [if_neg (by simp [hk])] at h
            cases h

theorem wrapTy_reconstruct (w : Option String) (v : PropValue)
    (hv : isWrappedValue v = false) : wrapTy (reconstructVal w v) = w := by
  cases w with
  | some kind => rfl
  | none => cases v <;> simp_all [wrapTy, isWrappedValue, reconstructVal]

theorem rewrap_eq_reconstruct (cur v : PropValue) :
    (match cur with
     | PropValue.wrapped _ kind => PropValue.wrapped v kind
     | _ => v) = reconstructVal (wrapTy cur) v := by
  cases cur <;> rfl

theorem entryTransform_char (k : String) :
    ∀ (assigns : List (String × PropValue)), PlainAssigns assigns →
      ∀ (e : String × PropValue), e.1 = k →
      entryTransform assigns e =
        (match lastAssignTo assigns k with
         | none => e
         | some v => (e.1, reconstructVal (wrapTy e.2) v)) := by
  intro assigns
  induction assigns with
  | nil => intro _ e _; rfl
  | cons a t ih =>
      intro hplain e hek
      have hplaint : PlainAssigns t := fun b hb => hplain b (List.mem_cons_of_mem a hb)
      rw [lastAssignTo_cons]
      show entryTransform t (stepEntry e a) = _
      by_cases hk : (a.1 == k) = true
      · have hka : (e.1 == a.1) = true := by
          rw [hek]
          exact beq_iff_eq.mpr (beq_iff_eq.mp hk).symm
        have hstep : stepEntry e a = (e.1, reconstructVal (wrapTy e.2) a.2) := by
          unfold stepEntry
          rw [if_pos hka, rewrap_eq_reconstruct]
        rw [hstep, ih hplaint (e.1, reconstructVal (wrapTy e.2) a.2) hek]
        cases hl : lastAssignTo t k with
        | none => simp only [hl, hk, if_true]
        | some v =>
            simp only [hl]
            have hpa : isWrappedValue a.2 = false := hplain a (List.mem_cons_self a t)
            rw [wrapTy_reconstruct (wrapTy e.2) a.2 hpa]
      · have hstep : stepEntry e a = e := by
          unfold stepEntry
          rw [if_neg]
          intro hc
          rw [hek] at hc
          exact absurd (beq_iff_eq.mpr (beq_iff_eq.mp hc).symm) (by simp [hk])
        rw [hstep, ih hplaint e hek]
        cases hl : lastAssignTo t k with
        | none =>
            simp only [hl]
            rw [if_neg (by simp [hk])]
        | some v => simp only [hl]

theorem entryTransform_idem (assigns : List (String × PropValue)) (hplain : PlainAssigns assigns)
    (e : String × PropValue) :
    entryTransform assigns (entryTransform assigns e) = entryTransform assigns e := by
  have h1 := entryTransform_char e.1 assigns hplain e rfl
  cases hl : lastAssignTo assigns e.1 with
  | none =>
      rw [hl] at h1
      rw [h1, h1]
  | some v =>
      rw [hl] at h1
      rw [h1]
      have h2 := entryTransform_char e.1 assigns hplain (e.1, reconstructVal (wrapTy e.2) v) rfl
      rw [hl] at h2
      rw [h2]
      have hv : isWrappedValue v = false := by
        obtain ⟨a, ha, hav⟩ := lastAssignTo_mem e.1 assigns v hl
        rw [← hav]
        exact hplain a ha
      rw [wrapTy_reconstruct (wrapTy e.2) v hv]

theorem execCompAssigns_idem (m assigns : List (String × PropValue))
    (hplain : PlainAssigns assigns) :
    execCompAssigns (execCompAssigns m assigns) assigns = execCompAssigns m assigns := by
  rw [execCompAssigns_eq_map assigns]
  rw [execCompAssigns_eq_map assigns]
  rw [List.map_map]
  exact List.map_congr_left (fun e _ => entryTransform_idem assigns hplain e)


theorem projNode_id (n : FNode) : (projNode n).id = n.id := rfl

theorem projNode_parentId (n : FNode) : (projNode n).parentId = n.parentId := rfl

theorem projNode_ty (n : FNode) : (projNode n).ty = n.ty := rfl

theorem projNode_name (n : FNode) : (projNode n).name = n.name := rfl

theorem projNode_hasOpacity (n : FNode) : (projNode n).hasOpacity = n.opacity.isSome := rfl

theorem projNode_hasVisible (n : FNode) : (projNode n).hasVisible = n.visible.isSome := rfl

theorem projNode_hasStrokes (n : FNode) : (projNode n).hasStrokes = n.strokes.isSome := rfl

theorem projNode_hasFills (n : FNode) :
    (projNode n).hasFills = (if n.ty = .TEXT then true else n.fills.isSome) := rfl

theorem patchField_diag {α : Type} (x : Option α) : patchField x x = x := by
  cases x <;> rfl

theorem patchField_assoc {α : Type} (q p c : Option α) :
    patchField q (patchField p c) = patchField (patchField q p) c := by
  cases q <;> rfl

theorem patchField_isSome_of {α : Type} (pf c : Option α)
    (h : pf.isNone = true ∨ c.isSome = true) : (patchField pf c).isSome = c.isSome := by
  cases pf with
  | none => rfl
  | some v =>
      cases h with
      | inl h => exact absurd h (by simp)
      | inr h => simp [patchField, h]

theorem execCompAssigns_append (m A B : List (String × PropValue)) :
    execCompAssigns m (A ++ B) = execCompAssigns (execCompAssigns m A) B := by
  simp [execCompAssigns, List.foldl_append]

theorem applyPatch_empty (t : FNode) : applyPatch t emptyPatch = t := by
  have hm : Option.map (fun m => execCompAssigns m emptyPatch.compAssigns) t.componentProperties
      = t.componentProperties := by
    cases t.componentProperties <;> rfl
  calc applyPatch t emptyPatch
      = { t with
          componentProperties := (Option.map
            (fun m => execCompAssigns m emptyPatch.compAssigns) t.componentProperties) } := rfl
    _ = t := by rw [hm]

theorem applyPatch_nilAssigns (t : FNode) (p : NodePatch) (hA : p.compAssigns = []) :
    applyPatch t p =
      { t with
        characters := patchField p.characters t.characters,
        fontName := patchField p.fontName t.fontName,
        fontSize := patchField p.fontSize t.fontSize,
        fills := patchField p.fills t.fills,
        strokes := patchField p.strokes t.strokes,
        opacity := patchField p.opacity t.opacity,
        visible := patchField p.visible t.visible,
        variantProperties := patchField p.variantProperties t.variantProperties } := by
  have hm : Option.map (fun m => execCompAssigns m p.compAssigns) t.componentProperties
      = t.componentProperties := by
    rw [hA]; cases t.componentProperties <;> rfl
  calc applyPatch t p
      = { t with
          characters := patchField p.characters t.characters,
          fontName := patchField p.fontName t.fontName,
          fontSize := patchField p.fontSize t.fontSize,
          fills := patchField p.fills t.fills,
          strokes := patchField p.strokes t.strokes,
          opacity := patchField p.opacity t.opacity,
          visible := patchField p.visible t.visible,
          variantProperties := patchField p.variantProperties t.variantProperties,
          componentProperties := (Option.map
            (fun m => execCompAssigns m p.compAssigns) t.componentProperties) } := rfl
    _ = _ := by rw [hm]

theorem applyPatch_combine (n : FNode) (p q : NodePatch) :
    applyPatch (applyPatch n p) q = applyPatch n (combinePatch p q) := by
  have hm : Option.map (fun m => execCompAssigns m q.compAssigns)
        (Option.map (fun m => execCompAssigns m p.compAssigns) n.componentProperties)
      = Option.map (fun m => execCompAssigns m (p.compAssigns ++ q.compAssigns))
          n.componentProperties := by
    cases n.componentProperties with
    | none => rfl
    | some m =>
        show some (execCompAssigns (execCompAssigns m p.compAssigns) q.compAssigns)
          = some (execCompAssigns m (p.compAssigns ++ q.compAssigns))
        rw [execCompAssigns_append]
  calc applyPatch (applyPatch n p) q
      = { n with
          characters := patchField q.characters (patchField p.characters n.characters),
          fontName := patchField q.fontName (patchField p.fontName n.fontName),
          fontSize := patchField q.fontSize (patchField p.fontSize n.fontSize),
          fills := patchField q.fills (patchField p.fills n.fills),
          strokes := patchField q.strokes (patchField p.strokes n.strokes),
          opacity := patchField q.opacity (patchField p.opacity n.opacity),
          visible := patchField q.visible (patchField p.visible n.visible),
          variantProperties := (patchField q.variantProperties
            (patchField p.variantProperties n.variantProperties)),
          componentProperties := (Option.map (fun m => execCompAssigns m q.compAssigns)
            (Option.map (fun m => execCompAssigns m p.compAssigns)
              n.componentProperties)) } := rfl
    _ = applyPatch n (combinePatch p q) := by
        simp only [patchField_assoc, hm]
        rfl

theorem applyPatch_idem (n : FNode) (p : NodePatch) (hp : PlainAssigns p.compAssigns) :
    applyPatch (applyPatch n p) p = applyPatch n p := by
  rw [applyPatch_combine]
  have hm : Option.map (fun m => execCompAssigns m (p.compAssigns ++ p.compAssigns))
        n.componentProperties
      = Option.map (fun m => execCompAssigns m p.compAssigns) n.componentProperties := by
    cases n.componentProperties with
    | none => rfl
    | some m =>
        show some (execCompAssigns m (p.compAssigns ++ p.compAssigns))
          = some (execCompAssigns m p.compAssigns)
        rw [execCompAssigns_append, execCompAssigns_idem m p.compAssigns hp]
  calc applyPatch n (combinePatch p p)
      = { n with
          characters := patchField (patchField p.characters p.characters) n.characters,
          fontName := patchField (patchField p.fontName p.fontName) n.fontName,
          fontSize := patchField (patchField p.fontSize p.fontSize) n.fontSize,
          fills := patchField (patchField p.fills p.fills) n.fills,
          strokes := patchField (patchField p.strokes p.strokes) n.strokes,
          opacity := patchField (patchField p.opacity p.opacity) n.opacity,
          visible := patchField (patchField p.visible p.visible) n.visible,
          variantProperties := (patchField
            (patchField p.variantProperties p.variantProperties) n.variantProperties),
          componentProperties := (Option.map
            (fun m => execCompAssigns m (p.compAssigns ++ p.compAssigns))
            n.componentProperties) } := rfl
    _ = applyPatch n p := by
        simp only [patchField_diag, hm]
        rfl

theorem proj_applyPatch (n : FNode) (p : NodePatch) (h : safeFor (projNode n) p = true) :
    projNode (applyPatch n p) = projNode n := by
  simp only [safeFor, Bool.and_eq_true, Bool.or_eq_true] at h
  obtain ⟨⟨⟨ho, hv⟩, hs⟩, hf⟩ := h
  have hop : (patchField p.opacity n.opacity).isSome = n.opacity.isSome := by
    refine patchField_isSome_of _ _ ?_
    cases ho with
    | inl h => exact Or.inl h
    | inr h => exact Or.inr h
  have hvi : (patchField p.visible n.visible).isSome = n.visible.isSome := by
    refine patchField_isSome_of _ _ ?_
    cases hv with
    | inl h => exact Or.inl h
    | inr h => exact Or.inr h
  have hst : (patchField p.strokes n.strokes).isSome = n.strokes.isSome := by
    refine patchField_isSome_of _ _ ?_
    cases hs with
    | inl h => exact Or.inl h
    | inr h => exact Or.inr h
  have hfi : (if n.ty = .TEXT then true else (patchField p.fills n.fills).isSome)
      = (if n.ty = .TEXT then true else n.fills.isSome) := by
    by_cases hty : n.ty = .TEXT
    · rw [if_pos hty, if_pos hty]
    · rw [if_neg hty, if_neg hty]
      refine patchField_isSome_of _ _ ?_
      cases hf with
      | inl h => exact Or.inl h
      | inr h =>
          refine Or.inr ?_
          have h2 : (projNode n).hasFills = true := h
          rw [projNode_hasFills, if_neg hty] at h2
          exact h2
  have hmain : projNode (applyPatch n p) = ({
      id := n.id,
      parentId := n.parentId,
      ty := n.ty,
      name := n.name,
      hasOpacity := (patchField p.opacity n.opacity).isSome,
      hasVisible := (patchField p.visible n.visible).isSome,
      hasFills := (if n.ty = .TEXT then true else (patchField p.fills n.fills).isSome),
      hasStrokes := (patchField p.strokes n.strokes).isSome } : NodeShape) := rfl
  rw [hmain, hop, hvi, hfi, hst]
  rfl

theorem safeFor_empty (s : NodeShape) : safeFor s emptyPatch = true := rfl

theorem safe_field {α : Type} (qf pf : Option α) (b : Bool)
    (hfp : (pf.isNone || b) = true) (hfq : (qf.isNone || b) = true) :
    ((patchField qf pf).isNone || b) = true := by
  cases qf with
  | none => exact hfp
  | some v => exact hfq

theorem safeFor_combine (s : NodeShape) (p q : NodePatch)
    (hp : safeFor s p = true) (hq : safeFor s q = true) :
    safeFor s (combinePatch p q) = true := by
  simp only [safeFor, Bool.and_eq_true] at hp hq ⊢
  obtain ⟨⟨⟨hpo, hpv⟩, hps⟩, hpf⟩ := hp
  obtain ⟨⟨⟨hqo, hqv⟩, hqs⟩, hqf⟩ := hq
  exact ⟨⟨⟨safe_field _ _ _ hpo hqo, safe_field _ _ _ hpv hqv⟩, safe_field _ _ _ hps hqs⟩,
    safe_field _ _ _ hpf hqf⟩

theorem plainAssigns_append (A B : List (String × PropValue))
    (hA : PlainAssigns A) (hB : PlainAssigns B) : PlainAssigns (A ++ B) := by
  intro a ha
  rcases List.mem_append.mp ha with h | h
  · exact hA a h
  · exact hB a h

theorem writeTextBlock_eq_patch (o : CopiedOverride) (t : FNode) :
    writeTextBlock o t = applyPatch t (patchTextBlock o (projNode t)) := by
  unfold writeTextBlock patchTextBlock
  by_cases h : o.characters.isSome ∧ t.ty = .TEXT
  · have h' : o.characters.isSome ∧ (projNode t).ty = .TEXT := ⟨h.1, h.2⟩
    rw [if_pos h, if_pos h', if_pos h', if_pos h']
    rw [applyPatch_nilAssigns _ _ rfl]
    obtain ⟨c, hc⟩ := Option.isSome_iff_exists.mp h.1
    rw [hc]
    cases hfn : o.fontName <;> cases hfs : o.fontSize <;> rfl
  · have h' : ¬(o.characters.isSome ∧ (projNode t).ty = .TEXT) := h
    rw [if_neg h, if_neg h', if_neg h', if_neg h']
    exact (applyPatch_empty t).symm

theorem writeTextFills_eq_patch (o : CopiedOverride) (t : FNode) :
    writeTextFills o t = applyPatch t (patchTextFills o (projNode t)) := by
  unfold writeTextFills patchTextFills
  by_cases h : o.fills.isSome ∧ t.ty = .TEXT
  · have h' : o.fills.isSome ∧ (projNode t).ty = .TEXT := ⟨h.1, h.2⟩
    rw [if_pos h, if_pos h']
    rw [applyPatch_nilAssigns _ _ rfl]
    obtain ⟨l, hl⟩ := Option.isSome_iff_exists.mp h.1
    rw [hl]
    rfl
  · have h' : ¬(o.fills.isSome ∧ (projNode t).ty = .TEXT) := h
    rw [if_neg h, if_neg h']
    exact (applyPatch_empty t).symm

theorem writeOpacity_eq_patch (o : CopiedOverride) (t : FNode) :
    writeOpacity o t = applyPatch t (patchOpacity o (projNode t)) := by
  unfold writeOpacity patchOpacity
  by_cases h : o.opacity.isSome ∧ t.opacity.isSome
  · have h' : o.opacity.isSome ∧ (projNode t).hasOpacity = true := ⟨h.1, h.2⟩
    rw [if_pos h, if_pos h']
    rw [applyPatch_nilAssigns _ _ rfl]
    obtain ⟨v, hv⟩ := Option.isSome_iff_exists.mp h.1
    rw [hv]
    rfl
  · have h' : ¬(o.opacity.isSome ∧ (projNode t).hasOpacity = true) := h
    rw [if_neg h, if_neg h']
    exact (applyPatch_empty t).symm

theorem writeVisible_eq_patch (o : CopiedOverride) (t : FNode) :
    writeVisible o t = applyPatch t (patchVisible o (projNode t)) := by
  unfold writeVisible patchVisible
  by_cases h : o.visible.isSome ∧ t.visible.isSome
  · have h' : o.visible.isSome ∧ (projNode t).hasVisible = true := ⟨h.1, h.2⟩
    rw [if_pos h, if_pos h']
    rw [applyPatch_nilAssigns _ _ rfl]
    obtain ⟨v, hv⟩ := Option.isSome_iff_exists.mp h.1
    rw [hv]
    rfl
  · have h' : ¬(o.visible.isSome ∧ (projNode t).hasVisible = true) := h
    rw [if_neg h, if_neg h']
    exact (applyPatch_empty t).symm

theorem writeLayerFills_eq_patch (o : CopiedOverride) (t : FNode) :
    writeLayerFills o t = applyPatch t (patchLayerFills o (projNode t)) := by
  unfold writeLayerFills patchLayerFills
  by_cases hty : t.ty = .TEXT
  · have hn1 : ¬(o.layerFills.isSome ∧ t.fills.isSome ∧ t.ty ≠ .TEXT) := fun hh => hh.2.2 hty
    have hn2 : ¬(o.layerFills.isSome ∧ (projNode t).hasFills = true ∧ (projNode t).ty ≠ .TEXT) :=
      fun hh => hh.2.2 hty
    rw [if_neg hn1, if_neg hn2]
    exact (applyPatch_empty t).symm
  · by_cases h : o.layerFills.isSome ∧ t.fills.isSome ∧ t.ty ≠ .TEXT
    · have h' : o.layerFills.isSome ∧ (projNode t).hasFills = true ∧ (projNode t).ty ≠ .TEXT := by
        refine ⟨h.1, ?_, h.2.2⟩
        show (if t.ty = .TEXT then true else t.fills.isSome) = true
        rw [if_neg hty]
        exact h.2.1
      rw [if_pos h, if_pos h']
      rw [applyPatch_nilAssigns _ _ rfl]
      obtain ⟨l, hl⟩ := Option.isSome_iff_exists.mp h.1
      rw [hl]
      rfl
    · have h' : ¬(o.layerFills.isSome ∧ (projNode t).hasFills = true ∧ (projNode t).ty ≠ .TEXT) := by
        intro hh
        refine h ⟨hh.1, ?_, hh.2.2⟩
        have h2 : (if t.ty = .TEXT then true else t.fills.isSome) = true := hh.2.1
        rw [if_neg hty] at h2
        exact h2
      rw [if_neg h, if_neg h']
      exact (applyPatch_empty t).symm

theorem writeStrokes_eq_patch (o : CopiedOverride) (t : FNode) :
    writeStrokes o t = applyPatch t (patchStrokes o (projNode t)) := by
  unfold writeStrokes patchStrokes
  by_cases h : o.layerStrokes.isSome ∧ t.strokes.isSome
  · have h' : o.layerStrokes.isSome ∧ (projNode t).hasStrokes = true := ⟨h.1, h.2⟩
    rw [if_pos h, if_pos h']
    rw [applyPatch_nilAssigns _ _ rfl]
    obtain ⟨l, hl⟩ := Option.isSome_iff_exists.mp h.1
    rw [hl]
    rfl
  · have h' : ¬(o.layerStrokes.isSome ∧ (projNode t).hasStrokes = true) := h
    rw [if_neg h, if_neg h']
    exact (applyPatch_empty t).symm

theorem writeVariantProps_eq_patch (o : CopiedOverride) (t : FNode) :
    writeVariantProps o t = applyPatch t (patchVariantProps o (projNode t)) := by
  unfold writeVariantProps patchVariantProps
  cases hvp : o.variantProperties with
  | none => exact (applyPatch_empty t).symm
  | some vp =>
      dsimp only
      by_cases hin : t.ty = .INSTANCE
      · have hin' : (projNode t).ty = .INSTANCE := hin
        rw [if_pos hin, if_pos hin']
        rw [applyPatch_nilAssigns _ _ rfl]
        rfl
      · have hin' : ¬((projNode t).ty = .INSTANCE) := hin
        rw [if_neg hin, if_neg hin']
        exact (applyPatch_empty t).symm

theorem writeCompProps_eq_patch (o : CopiedOverride) (t : FNode) :
    writeCompProps o t = applyPatch t (patchCompProps o (projNode t)) := by
  unfold writeCompProps patchCompProps
  cases hcp : o.componentProperties with
  | none => exact (applyPatch_empty t).symm
  | some cp =>
      dsimp only
      by_cases hin : t.ty = .INSTANCE
      · have hin' : (projNode t).ty = .INSTANCE := hin
        rw [if_pos hin, if_pos hin']
        have hm : Option.map (fun m => execCompAssigns m
              (cp.map (fun kv => (kv.1, extractActualValue kv.2)))) t.componentProperties
            = t.componentProperties.map (fun m =>
                cp.foldl (fun m2 kv =>
                  setComponentPropertyValue m2 kv.1 (extractActualValue kv.2)) m) := by
          cases t.componentProperties with
          | none => rfl
          | some m =>
              show some (execCompAssigns m (cp.map (fun kv => (kv.1, extractActualValue kv.2))))
                = some (cp.foldl (fun m2 kv =>
                    setComponentPropertyValue m2 kv.1 (extractActualValue kv.2)) m)
              simp only [execCompAssigns]
              rw [List.foldl_map]
        calc ({ t with
              componentProperties := (t.componentProperties.map (fun m =>
                cp.foldl (fun m2 kv =>
                  setComponentPropertyValue m2 kv.1 (extractActualValue kv.2)) m)) } : FNode)
            = { t with
                componentProperties := (Option.map (fun m => execCompAssigns m
                  (cp.map (fun kv => (kv.1, extractActualValue kv.2))))
                  t.componentProperties) } := by rw [hm]
          _ = applyPatch t ({ compAssigns :=
                (cp.map (fun kv => (kv.1, extractActualValue kv.2))) } : NodePatch) := rfl
      · have hin' : ¬((projNode t).ty = .INSTANCE) := hin
        rw [if_neg hin, if_neg hin']
        exact (applyPatch_empty t).symm

theorem safe_patchTextBlock (o : CopiedOverride) (t : FNode) :
    safeFor (projNode t) (patchTextBlock o (projNode t)) = true := rfl

theorem safe_patchVariantProps (o : CopiedOverride) (t : FNode) :
    safeFor (projNode t) (patchVariantProps o (projNode t)) = true := rfl

theorem safe_patchCompProps (o : CopiedOverride) (t : FNode) :
    safeFor (projNode t) (patchCompProps o (projNode t)) = true := rfl

theorem safe_patchOpacity (o : CopiedOverride) (t : FNode) :
    safeFor (projNode t) (patchOpacity o (projNode t)) = true := by
  by_cases h : o.opacity.isSome ∧ (projNode t).hasOpacity = true
  · simp [safeFor, patchOpacity, if_pos h, h.2]
  · simp [safeFor, patchOpacity, if_neg h]

theorem safe_patchVisible (o : CopiedOverride) (t : FNode) :
    safeFor (projNode t) (patchVisible o (projNode t)) = true := by
  by_cases h : o.visible.isSome ∧ (projNode t).hasVisible = true
  · simp [safeFor, patchVisible, if_pos h, h.2]
  · simp [safeFor, patchVisible, if_neg h]

theorem safe_patchStrokes (o : CopiedOverride) (t : FNode) :
    safeFor (projNode t) (patchStrokes o (projNode t)) = true := by
  by_cases h : o.layerStrokes.isSome ∧ (projNode t).hasStrokes = true
  · simp [safeFor, patchStrokes, if_pos h, h.2]
  · simp [safeFor, patchStrokes, if_neg h]

theorem safe_patchTextFills (o : CopiedOverride) (t : FNode) :
    safeFor (projNode t) (patchTextFills o (projNode t)) = true := by
  by_cases h : o.fills.isSome ∧ (projNode t).ty = .TEXT
  · have hty : t.ty = .TEXT := h.2
    simp [safeFor, patchTextFills, if_pos h, projNode_hasFills, hty]
  · simp [safeFor, patchTextFills, if_neg h]

theorem safe_patchLayerFills (o : CopiedOverride) (t : FNode) :
    safeFor (projNode t) (patchLayerFills o (projNode t)) = true := by
  by_cases h : o.layerFills.isSome ∧ (projNode t).hasFills = true ∧ (projNode t).ty ≠ .TEXT
  · simp [safeFor, patchLayerFills, if_pos h, h.2.1]
  · simp [safeFor, patchLayerFills, if_neg h]

theorem safe_fillPatchOf (o : CopiedOverride) (s : NodeShape) :
    safeFor s (fillPatchOf o s) = true := by
  by_cases h : s.hasFills = true ∧ s.ty ≠ .TEXT
  · simp [safeFor, fillPatchOf, if_pos h, h.1]
  · simp [safeFor, fillPatchOf, if_neg h]

theorem safe_writePatchOf (o : CopiedOverride) (t : FNode) :
    safeFor (projNode t) (writePatchOf o (projNode t)) = true := by
  unfold writePatchOf
  exact safeFor_combine _ _ _ (safeFor_combine _ _ _ (safeFor_combine _ _ _ (safeFor_combine _ _ _
    (safeFor_combine _ _ _ (safeFor_combine _ _ _ (safeFor_combine _ _ _
      (safe_patchTextBlock o t) (safe_patchTextFills o t)) (safe_patchOpacity o t))
      (safe_patchVisible o t)) (safe_patchLayerFills o t)) (safe_patchStrokes o t))
    (safe_patchVariantProps o t)) (safe_patchCompProps o t)

theorem proj_writeTextBlock (o : CopiedOverride) (t : FNode) :
    projNode (writeTextBlock o t) = projNode t := by
  rw [writeTextBlock_eq_patch]; exact proj_applyPatch _ _ (safe_patchTextBlock o t)

theorem proj_writeTextFills (o : CopiedOverride) (t : FNode) :
    projNode (writeTextFills o t) = projNode t := by
  rw [writeTextFills_eq_patch]; exact proj_applyPatch _ _ (safe_patchTextFills o t)

theorem proj_writeOpacity (o : CopiedOverride) (t : FNode) :
    projNode (writeOpacity o t) = projNode t := by
  rw [writeOpacity_eq_patch]; exact proj_applyPatch _ _ (safe_patchOpacity o t)

theorem proj_writeVisible (o : CopiedOverride) (t : FNode) :
    projNode (writeVisible o t) = projNode t := by
  rw [writeVisible_eq_patch]; exact proj_applyPatch _ _ (safe_patchVisible o t)

theorem proj_writeLayerFills (o : CopiedOverride) (t : FNode) :
    projNode (writeLayerFills o t) = projNode t := by
  rw [writeLayerFills_eq_patch]; exact proj_applyPatch _ _ (safe_patchLayerFills o t)

theorem proj_writeStrokes (o : CopiedOverride) (t : FNode) :
    projNode (writeStrokes o t) = projNode t := by
  rw [writeStrokes_eq_patch]; exact proj_applyPatch _ _ (safe_patchStrokes o t)

theorem proj_writeVariantProps (o : CopiedOverride) (t : FNode) :
    projNode (writeVariantProps o t) = projNode t := by
  rw [writeVariantProps_eq_patch]; exact proj_applyPatch _ _ (safe_patchVariantProps o t)

theorem proj_writeCompProps (o : CopiedOverride) (t : FNode) :
    projNode (writeCompProps o t) = projNode t := by
  rw [writeCompProps_eq_patch]; exact proj_applyPatch _ _ (safe_patchCompProps o t)

theorem applyOverrideWrites_decomp (o : CopiedOverride) (n : FNode) :
    applyOverrideWrites o n =
      writeCompProps o (writeVariantProps o (writeStrokes o (writeLayerFills o (writeVisible o
        (writeOpacity o (writeTextFills o (writeTextBlock o n))))))) := rfl

theorem proj_applyOverrideWrites (o : CopiedOverride) (n : FNode) :
    projNode (applyOverrideWrites o n) = projNode n := by
  rw [applyOverrideWrites_decomp, proj_writeCompProps, proj_writeVariantProps, proj_writeStrokes,
    proj_writeLayerFills, proj_writeVisible, proj_writeOpacity, proj_writeTextFills,
    proj_writeTextBlock]

theorem applyOverrideWrites_eq_patch (o : CopiedOverride) (n : FNode) :
    applyOverrideWrites o n = applyPatch n (writePatchOf o (projNode n)) := by
  rw [applyOverrideWrites_decomp]
  rw [writeCompProps_eq_patch]
  rw [proj_writeVariantProps, proj_writeStrokes, proj_writeLayerFills, proj_writeVisible,
    proj_writeOpacity, proj_writeTextFills, proj_writeTextBlock]
  rw [writeVariantProps_eq_patch]
  rw [proj_writeStrokes, proj_writeLayerFills, proj_writeVisible, proj_writeOpacity,
    proj_writeTextFills, proj_writeTextBlock]
  rw [writeStrokes_eq_patch]
  rw [proj_writeLayerFills, proj_writeVisible, proj_writeOpacity, proj_writeTextFills,
    proj_writeTextBlock]
  rw [writeLayerFills_eq_patch]
  rw [proj_writeVisible, proj_writeOpacity, proj_writeTextFills, proj_writeTextBlock]
  rw [writeVisible_eq_patch]
  rw [proj_writeOpacity, proj_writeTextFills, proj_writeTextBlock]
  rw [writeOpacity_eq_patch]
  rw [proj_writeTextFills, proj_writeTextBlock]
  rw [writeTextFills_eq_patch]
  rw [proj_writeTextBlock]
  rw [writeTextBlock_eq_patch]
  simp only [applyPatch_combine]
  rfl

theorem applyFillWrite_eq_patch (o : CopiedOverride) (t : FNode)
    (hw : o.layerFills.isSome = true) :
    applyFillWrite o t = applyPatch t (fillPatchOf o (projNode t)) := by
  unfold applyFillWrite fillPatchOf
  by_cases hty : t.ty = .TEXT
  · have hn1 : ¬(t.fills.isSome ∧ t.ty ≠ .TEXT) := fun hh => hh.2 hty
    have hn2 : ¬((projNode t).hasFills = true ∧ (projNode t).ty ≠ .TEXT) := fun hh => hh.2 hty
    rw [if_neg hn1, if_neg hn2]
    exact (applyPatch_empty t).symm
  · by_cases h : t.fills.isSome ∧ t.ty ≠ .TEXT
    · have h' : (projNode t).hasFills = true ∧ (projNode t).ty ≠ .TEXT := by
        refine ⟨?_, h.2⟩
        show (if t.ty = .TEXT then true else t.fills.isSome) = true
        rw [if_neg hty]
        exact h.1
      rw [if_pos h, if_pos h']
      rw [applyPatch_nilAssigns _ _ rfl]
      obtain ⟨l, hl⟩ := Option.isSome_iff_exists.mp hw
      rw [hl]
      rfl
    · have h' : ¬((projNode t).hasFills = true ∧ (projNode t).ty ≠ .TEXT) := by
        intro hh
        refine h ⟨?_, hh.2⟩
        have h2 : (if t.ty = .TEXT then true else t.fills.isSome) = true := hh.1
        rw [if_neg hty] at h2
        exact h2
      rw [if_neg h, if_neg h']
      exact (applyPatch_empty t).symm

theorem proj_applyFillWrite (o : CopiedOverride) (t : FNode) (hw : o.layerFills.isSome = true) :
    projNode (applyFillWrite o t) = projNode t := by
  rw [applyFillWrite_eq_patch o t hw]
  exact proj_applyPatch _ _ (safe_fillPatchOf o (projNode t))

theorem runWrite_eq_patch (w : WriteKind) (hw : wfWrite w) (n : FNode) :
    runWrite w n = applyPatch n (patchOfWrite w (projNode n)) := by
  cases w with
  | varProps vp =>
      show hostSetVariantProperties n vp = _
      rw [applyPatch_nilAssigns _ _ rfl]
      rfl
  | compProp key v =>
      rfl
  | recordWrites o => exact applyOverrideWrites_eq_patch o n
  | fillRewrite o => exact applyFillWrite_eq_patch o n hw

theorem safe_patchOfWrite (w : WriteKind) (n : FNode) :
    safeFor (projNode n) (patchOfWrite w (projNode n)) = true := by
  cases w with
  | varProps vp => rfl
  | compProp key v => rfl
  | recordWrites o => exact safe_writePatchOf o n
  | fillRewrite o => exact safe_fillPatchOf o (projNode n)

theorem proj_runWrite (w : WriteKind) (hw : wfWrite w) (n : FNode) :
    projNode (runWrite w n) = projNode n := by
  rw [runWrite_eq_patch w hw n]
  exact proj_applyPatch _ _ (safe_patchOfWrite w n)

theorem writePatchOf_compAssigns (o : CopiedOverride) (s : NodeShape) :
    (writePatchOf o s).compAssigns = (patchCompProps o s).compAssigns := rfl

theorem applyWrites_acc (S : WriteSched) (hS : ∀ e ∈ S, wfWrite e.2) :
    ∀ (n : FNode) (p : NodePatch), safeFor (projNode n) p = true →
      S.foldl (fun x e => if x.id == e.1 then runWrite e.2 x else x) (applyPatch n p)
        = applyPatch n (S.foldl (fun q e =>
            if e.1 == n.id then combinePatch q (patchOfWrite e.2 (projNode n)) else q) p) := by
  induction S with
  | nil => intro n p _; rfl
  | cons e T ih =>
      intro n p hp
      have hT : ∀ x ∈ T, wfWrite x.2 := fun x hx => hS x (List.mem_cons_of_mem e hx)
      have hw : wfWrite e.2 := hS e (List.mem_cons_self e T)
      show T.foldl (fun x e => if x.id == e.1 then runWrite e.2 x else x)
          (if (applyPatch n p).id == e.1 then runWrite e.2 (applyPatch n p) else applyPatch n p)
        = applyPatch n (T.foldl (fun q e =>
            if e.1 == n.id then combinePatch q (patchOfWrite e.2 (projNode n)) else q)
            (if e.1 == n.id then combinePatch p (patchOfWrite e.2 (projNode n)) else p))
      by_cases hmatch : n.id = e.1
      · have hb1 : ((applyPatch n p).id == e.1) = true := beq_iff_eq.mpr hmatch
        have hb2 : (e.1 == n.id) = true := beq_iff_eq.mpr hmatch.symm
        rw [if_pos hb1, if_pos hb2]
        rw [runWrite_eq_patch e.2 hw (applyPatch n p)]
        rw [proj_applyPatch n p hp]
        rw [applyPatch_combine]
        have h := ih hT n (combinePatch p (patchOfWrite e.2 (projNode n)))
          (safeFor_combine _ _ _ hp (safe_patchOfWrite e.2 n))
        exact h
      · have hb1 : ¬(((applyPatch n p).id == e.1) = true) := by
          intro hc
          exact hmatch (beq_iff_eq.mp hc)
        have hb2 : ¬((e.1 == n.id) = true) := by
          intro hc
          exact hmatch (beq_iff_eq.mp hc).symm
        rw [if_neg hb1, if_neg hb2]
        exact ih hT n p hp

theorem applyWrites_eq_patch (S : WriteSched) (hS : ∀ e ∈ S, wfWrite e.2) (n : FNode) :
    applyWrites S n = applyPatch n (patchFor S (projNode n) n.id) := by
  have h := applyWrites_acc S hS n emptyPatch (safeFor_empty (projNode n))
  rw [applyPatch_empty] at h
  exact h

theorem safe_patchFor (S : WriteSched) (n : FNode) (i : String) :
    safeFor (projNode n) (patchFor S (projNode n) i) = true := by
  have h := foldl_invariant (fun q : NodePatch => safeFor (projNode n) q = true)
    (fun q e => if e.1 == i then combinePatch q (patchOfWrite e.2 (projNode n)) else q) S emptyPatch
    (safeFor_empty (projNode n))
    (fun acc e _ hacc => by
      show safeFor (projNode n)
        (if e.1 == i then combinePatch acc (patchOfWrite e.2 (projNode n)) else acc) = true
      by_cases hb : (e.1 == i) = true
      · rw [if_pos hb]
        exact safeFor_combine _ _ _ hacc (safe_patchOfWrite e.2 n)
      · rw [if_neg hb]
        exact hacc)
  exact h

theorem plain_patchFor (S : WriteSched) (hS : ∀ e ∈ S, PlainWrite e.2) (s : NodeShape)
    (i : String) : PlainAssigns (patchFor S s i).compAssigns := by
  have h := foldl_invariant (fun q : NodePatch => PlainAssigns q.compAssigns)
    (fun q e => if e.1 == i then combinePatch q (patchOfWrite e.2 s) else q) S emptyPatch
    (fun a ha => absurd ha (List.not_mem_nil a))
    (fun acc e he hacc => by
      show PlainAssigns (if e.1 == i then combinePatch acc (patchOfWrite e.2 s) else acc).compAssigns
      by_cases hb : (e.1 == i) = true
      · rw [if_pos hb]
        exact plainAssigns_append _ _ hacc (hS e he s)
      · rw [if_neg hb]
        exact hacc)
  exact h

theorem proj_applyWrites (S : WriteSched) (hS : ∀ e ∈ S, wfWrite e.2) (n : FNode) :
    projNode (applyWrites S n) = projNode n := by
  rw [applyWrites_eq_patch S hS n]
  exact proj_applyPatch _ _ (safe_patchFor S n n.id)

theorem applyWrites_idem (S : WriteSched) (hS : GoodSched S) (n : FNode) :
    applyWrites S (applyWrites S n) = applyWrites S n := by
  have hwf : ∀ e ∈ S, wfWrite e.2 := fun e he => (hS e he).1
  have hpl : ∀ e ∈ S, PlainWrite e.2 := fun e he => (hS e he).2
  have h1 := applyWrites_eq_patch S hwf n
  have hproj : projNode (applyWrites S n) = projNode n := proj_applyWrites S hwf n
  have hid : (applyWrites S n).id = n.id := congrArg NodeShape.id hproj
  rw [applyWrites_eq_patch S hwf (applyWrites S n), hproj, hid, h1, applyPatch_combine]
  rw [← applyPatch_combine]
  exact applyPatch_idem n _ (plain_patchFor S hpl (projNode n) n.id)

theorem execWrites_eq_map (S : WriteSched) : ∀ d : Doc, execWrites d S = d.map (applyWrites S) := by
  induction S with
  | nil =>
      intro d
      show d = d.map (applyWrites [])
      have h1 : d.map (applyWrites ([] : WriteSched)) = d.map (fun n => n) :=
        List.map_congr_left (fun a _ => rfl)
      rw [h1, List.map_id']
  | cons e T ih =>
      intro d
      show execWrites (updateNode d e.1 (runWrite e.2)) T = _
      rw [ih]
      unfold updateNode
      rw [List.map_map]
      exact List.map_congr_left (fun n _ => rfl)

theorem execWrites_append (d : Doc) (S1 S2 : WriteSched) :
    execWrites d (S1 ++ S2) = execWrites (execWrites d S1) S2 := by
  unfold execWrites
  rw [List.foldl_append]

theorem execWrites_idem (d : Doc) (S : WriteSched) (hS : GoodSched S) :
    execWrites (execWrites d S) S = execWrites d S := by
  rw [execWrites_eq_map S d]
  rw [execWrites_eq_map S (d.map (applyWrites S))]
  rw [List.map_map]
  exact List.map_congr_left (fun n _ => applyWrites_idem S hS n)

theorem proj_updateNode (d : Doc) (i : String) (f : FNode → FNode)
    (hf : ∀ n, projNode (f n) = projNode n) :
    (updateNode d i f).map projNode = d.map projNode := by
  unfold updateNode
  rw [List.map_map]
  refine List.map_congr_left ?_
  intro n _
  show projNode (if n.id == i then f n else n) = projNode n
  by_cases hb : (n.id == i) = true
  · rw [if_pos hb]; exact hf n
  · rw [if_neg hb]

theorem proj_execWrites (d : Doc) (S : WriteSched) (hS : ∀ e ∈ S, wfWrite e.2) :
    (execWrites d S).map projNode = d.map projNode := by
  rw [execWrites_eq_map]
  rw [List.map_map]
  exact List.map_congr_left (fun n _ => proj_applyWrites S hS n)

theorem rootVariant_eq_execWrites (payload : CopiedInstanceData) (d : Doc) (root : FNode) :
    applyRootVariantProperties payload d root
      = execWrites d (if 0 < payload.variantProperties.length then
          [(root.id, WriteKind.varProps payload.variantProperties)]
        else []) := by
  unfold applyRootVariantProperties
  by_cases h : 0 < payload.variantProperties.length
  · rw [if_pos h, if_pos h]
    rfl
  · rw [if_neg h, if_neg h]
    rfl

theorem rootComp_eq_execWrites (payload : CopiedInstanceData) (d : Doc) (root : FNode) :
    applyRootComponentProperties payload d root
      = execWrites d (if 0 < payload.componentProperties.length then
          payload.componentProperties.map (fun kv =>
            (root.id, WriteKind.compProp kv.1 (extractActualValue kv.2)))
        else []) := by
  unfold applyRootComponentProperties
  by_cases h : 0 < payload.componentProperties.length
  · rw [if_pos h, if_pos h]
    unfold execWrites
    rw [List.foldl_map]
    rfl
  · rw [if_neg h, if_neg h]
    rfl

theorem overridePass_eq_execWrites (M : List (String × FNode)) (N : List FNode) :
    ∀ (os : List CopiedOverride) (d : Doc),
      os.foldl (fun d o => applyOneOverride d M N o) d
        = execWrites d (os.filterMap (fun o =>
            (resolveTargetNode M N o).map (fun r => (r.1.id, WriteKind.recordWrites o)))) := by
  intro os
  induction os with
  | nil => intro d; rfl
  | cons o os ih =>
      intro d
      rw [List.foldl_cons, List.filterMap_cons]
      cases hr : resolveTargetNode M N o with
      | none =>
          have h1 : applyOneOverride d M N o = d := by
            unfold applyOneOverride
            rw [hr]
          rw [h1]
          simp only [Option.map_none']
          exact ih d
      | some r =>
          have h1 : applyOneOverride d M N o = updateNode d r.1.id (applyOverrideWrites o) := by
            unfold applyOneOverride
            rw [hr]
          rw [h1]
          simp only [Option.map_some']
          have h := ih (updateNode d r.1.id (applyOverrideWrites o))
          exact h

theorem fillPass_eq_execWrites (M : List (String × FNode)) (N : List FNode) :
    ∀ (os : List CopiedOverride) (d : Doc),
      os.foldl (fun d o => applyOneFillOverride d M N o) d
        = execWrites d (os.filterMap (fun o =>
            (resolveTargetNode M N o).map (fun r => (r.1.id, WriteKind.fillRewrite o)))) := by
  intro os
  induction os with
  | nil => intro d; rfl
  | cons o os ih =>
      intro d
      rw [List.foldl_cons, List.filterMap_cons]
      cases hr : resolveTargetNode M N o with
      | none =>
          have h1 : applyOneFillOverride d M N o = d := by
            unfold applyOneFillOverride
            rw [hr]
          rw [h1]
          simp only [Option.map_none']
          exact ih d
      | some r =>
          have h1 : applyOneFillOverride d M N o = updateNode d r.1.id (applyFillWrite o) := by
            unfold applyOneFillOverride
            rw [hr]
          rw [h1]
          simp only [Option.map_some']
          have h := ih (updateNode d r.1.id (applyFillWrite o))
          exact h

theorem applyToInstance_eq_execWrites (payload : CopiedInstanceData) (d : Doc) (root : FNode) :
    applyToInstance payload d root = execWrites d (writeSchedOf payload d root) := by
  have hmap : payload.overrides.map (fun o => o) = payload.overrides := by
    simp
  unfold applyToInstance writeSchedOf
  dsimp only
  rw [hmap]
  rw [execWrites_append, execWrites_append, execWrites_append]
  rw [← rootVariant_eq_execWrites payload d root]
  rw [← rootComp_eq_execWrites payload (applyRootVariantProperties payload d root) root]
  rw [← overridePass_eq_execWrites _ _ payload.overrides]
  rw [← fillPass_eq_execWrites _ _ (payload.overrides.filter (fun o => o.layerFills.isSome))]

theorem goodSched_writeSchedOf (payload : CopiedInstanceData) (d : Doc) (root : FNode)
    (hplain : PayloadPlainCompValues payload) : GoodSched (writeSchedOf payload d root) := by
  intro e he
  unfold writeSchedOf at he
  dsimp only at he
  simp only [List.mem_append] at he
  rcases he with ((h1 | h2) | h3) | h4
  · by_cases hc : 0 < payload.variantProperties.length
    · rw [if_pos hc] at h1
      simp only [List.mem_singleton] at h1
      subst h1
      exact ⟨trivial, fun s a ha => absurd ha (List.not_mem_nil a)⟩
    · rw [if_neg hc] at h1
      exact absurd h1 (List.not_mem_nil e)
  · by_cases hc : 0 < payload.componentProperties.length
    · rw [if_pos hc] at h2
      obtain ⟨kv, hkv, rfl⟩ := List.mem_map.mp h2
      refine ⟨trivial, ?_⟩
      intro s a ha
      have ha0 : a ∈ [(kv.1, extractActualValue kv.2)] := ha
      have ha' : a = (kv.1, extractActualValue kv.2) := List.mem_singleton.mp ha0
      rw [ha']
      exact hplain.1 kv hkv
    · rw [if_neg hc] at h2
      exact absurd h2 (List.not_mem_nil e)
  · obtain ⟨o, ho, he⟩ := List.mem_filterMap.mp h3
    obtain ⟨r, hro, rfl⟩ := Option.map_eq_some'.mp he
    refine ⟨trivial, ?_⟩
    intro s a ha
    have ha' : a ∈ (patchCompProps o s).compAssigns := ha
    cases hcp : o.componentProperties with
    | none =>
        simp only [patchCompProps, hcp] at ha'
        exact absurd ha' (List.not_mem_nil a)
    | some cp =>
        simp only [patchCompProps, hcp] at ha'
        by_cases hin : s.ty = .INSTANCE
        · rw [if_pos hin] at ha'
          obtain ⟨kv, hkv, rfl⟩ := List.mem_map.mp ha'
          refine hplain.2 o ho kv ?_
          rw [hcp]
          exact hkv
        · rw [if_neg hin] at ha'
          exact absurd ha' (List.not_mem_nil a)
  · obtain ⟨o, ho, he⟩ := List.mem_filterMap.mp h4
    obtain ⟨r, hro, rfl⟩ := Option.map_eq_some'.mp he
    have hof : o.layerFills.isSome = true := (List.mem_filter.mp ho).2
    exact ⟨hof, fun s a ha => absurd ha (List.not_mem_nil a)⟩

theorem find?_proj (f g : FNode → Bool)
    (hfg : ∀ a b, projNode a = projNode b → f a = g b) :
    ∀ (la lb : List FNode), ProjEqL la lb →
      Option.map projNode (la.find? f) = Option.map projNode (lb.find? g) := by
  intro la
  induction la with
  | nil =>
      intro lb h
      cases lb with
      | nil => rfl
      | cons b lb => exact absurd h (by simp)
  | cons a la ih =>
      intro lb h
      cases lb with
      | nil => exact absurd h (by simp)
      | cons b lb =>
          simp only [ProjEqL, List.map_cons] at h
          injection h with h1 h2
          by_cases hfa : f a = true
          · have hgb : g b = true := by rw [← hfg a b h1]; exact hfa
            rw [List.find?_cons_of_pos _ hfa, List.find?_cons_of_pos _ hgb]
            simp [h1]
          · have hgb : ¬(g b = true) := by rw [← hfg a b h1]; exact hfa
            rw [List.find?_cons_of_neg _ (by simpa using hfa),
              List.find?_cons_of_neg _ (by simpa using hgb)]
            exact ih lb h2

theorem byId_proj (i : String) (la lb : List FNode) (h : ProjEqL la lb) :
    Option.map projNode (byId la i) = Option.map projNode (byId lb i) := by
  unfold byId
  refine find?_proj _ _ ?_ la lb h
  intro a b hab
  have h3 : a.id = b.id := congrArg NodeShape.id hab
  rw [h3]

theorem parentOf_proj (la lb : List FNode) (h : ProjEqL la lb) (na nb : FNode)
    (hn : projNode na = projNode nb) :
    Option.map projNode (parentOf la na) = Option.map projNode (parentOf lb nb) := by
  unfold parentOf
  have hp : na.parentId = nb.parentId := congrArg NodeShape.parentId hn
  rw [hp]
  cases hpid : nb.parentId with
  | none => rfl
  | some pid => exact byId_proj pid la lb h

theorem buildPathAux_proj (rootId : String) (la lb : List FNode) (h : ProjEqL la lb) :
    ∀ (fuel : Nat) (oa ob : Option FNode), Option.map projNode oa = Option.map projNode ob →
      buildPathAux la rootId fuel oa = buildPathAux lb rootId fuel ob := by
  intro fuel
  induction fuel with
  | zero =>
      intro oa ob ho
      cases oa with
      | none =>
          cases ob with
          | none => rfl
          | some b => exact absurd ho (by simp)
      | some a =>
          cases ob with
          | none => exact absurd ho (by simp)
          | some b => rfl
  | succ fuel ih =>
      intro oa ob ho
      cases oa with
      | none =>
          cases ob with
          | none => rfl
          | some b => exact absurd ho (by simp)
      | some a =>
          cases ob with
          | none => exact absurd ho (by simp)
          | some b =>
              have hab : projNode a = projNode b := Option.some.inj (by simpa using ho)
              have hid : a.id = b.id := congrArg NodeShape.id hab
              have hty : a.ty = b.ty := congrArg NodeShape.ty hab
              have hnm : a.name = b.name := congrArg NodeShape.name hab
              show (if a.id = rootId ∨ a.ty = .PAGE ∨ a.ty = .DOCUMENT then []
                  else buildPathAux la rootId fuel (parentOf la a) ++ [a.name])
                = (if b.id = rootId ∨ b.ty = .PAGE ∨ b.ty = .DOCUMENT then []
                  else buildPathAux lb rootId fuel (parentOf lb b) ++ [b.name])
              rw [hid, hty, hnm]
              by_cases hc : b.id = rootId ∨ b.ty = .PAGE ∨ b.ty = .DOCUMENT
              · rw [if_pos hc, if_pos hc]
              · rw [if_neg hc, if_neg hc]
                rw [ih (parentOf la a) (parentOf lb b) (parentOf_proj la lb h a b hab)]

theorem chainReaches_proj (rootId : String) (la lb : List FNode) (h : ProjEqL la lb) :
    ∀ (fuel : Nat) (oa ob : Option FNode), Option.map projNode oa = Option.map projNode ob →
      chainReaches la rootId fuel oa = chainReaches lb rootId fuel ob := by
  intro fuel
  induction fuel with
  | zero =>
      intro oa ob ho
      cases oa with
      | none =>
          cases ob with
          | none => rfl
          | some b => exact absurd ho (by simp)
      | some a =>
          cases ob with
          | none => exact absurd ho (by simp)
          | some b => rfl
  | succ fuel ih =>
      intro oa ob ho
      cases oa with
      | none =>
          cases ob with
          | none => rfl
          | some b => exact absurd ho (by simp)
      | some a =>
          cases ob with
          | none => exact absurd ho (by simp)
          | some b =>
              have hab : projNode a = projNode b := Option.some.inj (by simpa using ho)
              have hid : a.id = b.id := congrArg NodeShape.id hab
              show (if a.id = rootId then true else chainReaches la rootId fuel (parentOf la a))
                = (if b.id = rootId then true else chainReaches lb rootId fuel (parentOf lb b))
              rw [hid]
              by_cases hc : b.id = rootId
              · rw [if_pos hc, if_pos hc]
              · rw [if_neg hc, if_neg hc]
                rw [ih (parentOf la a) (parentOf lb b) (parentOf_proj la lb h a b hab)]

theorem filter_proj (f g : FNode → Bool) (hfg : ∀ a b, projNode a = projNode b → f a = g b) :
    ∀ (la lb : List FNode), ProjEqL la lb → ProjEqL (la.filter f) (lb.filter g) := by
  intro la
  induction la with
  | nil =>
      intro lb h
      cases lb with
      | nil => rfl
      | cons b lb => exact absurd h (by simp)
  | cons a la ih =>
      intro lb h
      cases lb with
      | nil => exact absurd h (by simp)
      | cons b lb =>
          simp only [ProjEqL, List.map_cons] at h
          injection h with h1 h2
          rw [List.filter_cons, List.filter_cons, hfg a b h1]
          by_cases hgb : g b = true
          · rw [if_pos hgb, if_pos hgb]
            show projNode a :: (la.filter f).map projNode = projNode b :: (lb.filter g).map projNode
            rw [h1, ih lb h2]
          · rw [if_neg hgb, if_neg hgb]
            exact ih lb h2

theorem length_of_projEq (la lb : List FNode) (h : ProjEqL la lb) : la.length = lb.length := by
  have h2 := congrArg List.length h
  simpa using h2

theorem findAllOverridable_proj (la lb : List FNode) (h : ProjEqL la lb) (root : FNode) :
    ProjEqL (findAllOverridable la root) (findAllOverridable lb root) := by
  unfold findAllOverridable
  have hlen : la.length = lb.length := length_of_projEq la lb h
  refine filter_proj _ _ ?_ la lb h
  intro a b hab
  have hid : a.id = b.id := congrArg NodeShape.id hab
  have hty : a.ty = b.ty := congrArg NodeShape.ty hab
  rw [hid, hty, hlen,
    chainReaches_proj root.id la lb h lb.length (parentOf la a) (parentOf lb b)
      (parentOf_proj la lb h a b hab)]

theorem collectAllNodes_proj (la lb : List FNode) (h : ProjEqL la lb) (root : FNode) :
    ProjEqL (collectAllNodes la root) (collectAllNodes lb root) := by
  unfold collectAllNodes
  show projNode root :: (findAllOverridable la root).map projNode
    = projNode root :: (findAllOverridable lb root).map projNode
  rw [findAllOverridable_proj la lb h root]

theorem childrenOf_proj (la lb : List FNode) (h : ProjEqL la lb) (pa pb : FNode)
    (hp : projNode pa = projNode pb) : ProjEqL (childrenOf la pa) (childrenOf lb pb) := by
  unfold childrenOf
  refine filter_proj _ _ ?_ la lb h
  intro a b hab
  have h1 : a.parentId = b.parentId := congrArg NodeShape.parentId hab
  have h2 : pa.id = pb.id := congrArg NodeShape.id hp
  rw [h1, h2]

theorem jsIndexOfByIdAux_proj (nid : String) :
    ∀ (la lb : List FNode), ProjEqL la lb → ∀ i : Nat,
      jsIndexOfByIdAux la nid i = jsIndexOfByIdAux lb nid i := by
  intro la
  induction la with
  | nil =>
      intro lb h i
      cases lb with
      | nil => rfl
      | cons b lb => exact absurd h (by simp)
  | cons a la ih =>
      intro lb h i
      cases lb with
      | nil => exact absurd h (by simp)
      | cons b lb =>
          simp only [ProjEqL, List.map_cons] at h
          injection h with h1 h2
          have hid : a.id = b.id := congrArg NodeShape.id h1
          show (if a.id = nid then (i : Int) else jsIndexOfByIdAux la nid (i + 1))
            = (if b.id = nid then (i : Int) else jsIndexOfByIdAux lb nid (i + 1))
          rw [hid]
          by_cases hc : b.id = nid
          · rw [if_pos hc, if_pos hc]
          · rw [if_neg hc, if_neg hc]
            exact ih lb h2 (i + 1)

theorem getSiblingIndex_proj (la lb : List FNode) (h : ProjEqL la lb) (na nb : FNode)
    (hn : projNode na = projNode nb) : getSiblingIndex la na = getSiblingIndex lb nb := by
  unfold getSiblingIndex
  have hp := parentOf_proj la lb h na nb hn
  cases hpa : parentOf la na with
  | none =>
      cases hpb : parentOf lb nb with
      | none => rfl
      | some pb => rw [hpa, hpb] at hp; exact absurd hp (by simp)
  | some pa =>
      cases hpb : parentOf lb nb with
      | none => rw [hpa, hpb] at hp; exact absurd hp (by simp)
      | some pb =>
          rw [hpa, hpb] at hp
          have hpp : projNode pa = projNode pb := Option.some.inj (by simpa using hp)
          dsimp only
          unfold jsIndexOfById
          have hna : na.id = nb.id := congrArg NodeShape.id hn
          rw [hna]
          refine jsIndexOfByIdAux_proj nb.id _ _ ?_ 0
          refine filter_proj _ _ ?_ _ _ (childrenOf_proj la lb h pa pb hpp)
          intro a b hab
          have h1 : a.name = b.name := congrArg NodeShape.name hab
          have h2 : a.ty = b.ty := congrArg NodeShape.ty hab
          have h3 : na.name = nb.name := congrArg NodeShape.name hn
          have h4 : na.ty = nb.ty := congrArg NodeShape.ty hn
          rw [h1, h2, h3, h4]

theorem buildInternalHierarchyPath_proj (la lb : List FNode) (h : ProjEqL la lb) (root : FNode)
    (na nb : FNode) (hn : projNode na = projNode nb) :
    buildInternalHierarchyPath la na root = buildInternalHierarchyPath lb nb root := by
  unfold buildInternalHierarchyPath
  have hlen : la.length = lb.length := length_of_projEq la lb h
  rw [hlen]
  exact buildPathAux_proj root.id la lb h lb.length _ _ (parentOf_proj la lb h na nb hn)

theorem createTargetSignature_proj (la lb : List FNode) (h : ProjEqL la lb) (root : FNode)
    (na nb : FNode) (hn : projNode na = projNode nb) :
    createTargetSignature la na root = createTargetSignature lb nb root := by
  unfold createTargetSignature createUniqueSignature
  have h1 : na.ty = nb.ty := congrArg NodeShape.ty hn
  have h2 : na.name = nb.name := congrArg NodeShape.name hn
  rw [h1, h2, buildInternalHierarchyPath_proj la lb h root na nb hn,
    getSiblingIndex_proj la lb h na nb hn]

theorem keys_of_projEqM (ma mb : List (String × FNode)) (h : ProjEqM ma mb) :
    ma.map Prod.fst = mb.map Prod.fst := by
  have h2 := congrArg (List.map Prod.fst) h
  rw [List.map_map, List.map_map] at h2
  exact h2

theorem any_key_proj (k : String) :
    ∀ (ma mb : List (String × FNode)), ProjEqM ma mb →
      (ma.any (fun kv => kv.1 == k)) = (mb.any (fun kv => kv.1 == k)) := by
  intro ma
  induction ma with
  | nil =>
      intro mb h
      cases mb with
      | nil => rfl
      | cons b mb => exact absurd h (by simp)
  | cons a ma ih =>
      intro mb h
      cases mb with
      | nil => exact absurd h (by simp)
      | cons b mb =>
          simp only [ProjEqM, List.map_cons] at h
          injection h with h1 h2
          injection h1 with hkey hval
          show (a.1 == k || ma.any (fun kv => kv.1 == k))
            = (b.1 == k || mb.any (fun kv => kv.1 == k))
          rw [hkey, ih mb h2]

theorem mapSet_update_proj (k : String) (va vb : FNode) (hv : projNode va = projNode vb) :
    ∀ (ma mb : List (String × FNode)), ProjEqM ma mb →
      ProjEqM (ma.map (fun kv => if kv.1 == k then (k, va) else kv))
        (mb.map (fun kv => if kv.1 == k then (k, vb) else kv)) := by
  intro ma
  induction ma with
  | nil =>
      intro mb h
      cases mb with
      | nil => rfl
      | cons b mb => exact absurd h (by simp)
  | cons a ma ih =>
      intro mb h
      cases mb with
      | nil => exact absurd h (by simp)
      | cons b mb =>
          simp only [ProjEqM, List.map_cons] at h
          injection h with h1 h2
          injection h1 with hkey hval
          simp only [List.map_cons]
          show ((if a.1 == k then (k, va) else a).1,
              projNode (if a.1 == k then (k, va) else a).2) ::
              (ma.map (fun kv => if kv.1 == k then (k, va) else kv)).map
                (fun kv => (kv.1, projNode kv.2))
            = ((if b.1 == k then (k, vb) else b).1,
              projNode (if b.1 == k then (k, vb) else b).2) ::
              (mb.map (fun kv => if kv.1 == k then (k, vb) else kv)).map
                (fun kv => (kv.1, projNode kv.2))
          rw [hkey]
          have htail := ih mb h2
          simp only [ProjEqM] at htail
          by_cases hb : (b.1 == k) = true
          · rw [if_pos hb, if_pos hb, htail, hv]
          · rw [if_neg hb, if_neg hb, htail, hkey, hval]

theorem mapSet_proj (k : String) (va vb : FNode) (hv : projNode va = projNode vb)
    (ma mb : List (String × FNode)) (h : ProjEqM ma mb) :
    ProjEqM (mapSet ma k va) (mapSet mb k vb) := by
  unfold mapSet
  rw [any_key_proj k ma mb h]
  by_cases hany : (mb.any (fun kv => kv.1 == k)) = true
  · rw [if_pos hany, if_pos hany]
    exact mapSet_update_proj k va vb hv ma mb h
  · rw [if_neg hany, if_neg hany]
    show (ma ++ [(k, va)]).map (fun kv => (kv.1, projNode kv.2))
      = (mb ++ [(k, vb)]).map (fun kv => (kv.1, projNode kv.2))
    rw [List.map_append, List.map_append]
    have h' : ma.map (fun kv => (kv.1, projNode kv.2)) = mb.map (fun kv => (kv.1, projNode kv.2)) := h
    rw [h']
    show List.map (fun kv => (kv.1, projNode kv.2)) mb ++ [(k, projNode va)]
      = List.map (fun kv => (kv.1, projNode kv.2)) mb ++ [(k, projNode vb)]
    rw [hv]

theorem foldl_proj_pairs {γ : Type} (R : γ → γ → Prop) (fa fb : γ → FNode → γ)
    (hstep : ∀ ca cb a b, R ca cb → projNode a = projNode b → R (fa ca a) (fb cb b)) :
    ∀ (la lb : List FNode), ProjEqL la lb →
      ∀ (ca cb : γ), R ca cb → R (la.foldl fa ca) (lb.foldl fb cb) := by
  intro la
  induction la with
  | nil =>
      intro lb h ca cb hR
      cases lb with
      | nil => exact hR
      | cons b lb => exact absurd h (by simp)
  | cons a la ih =>
      intro lb h ca cb hR
      cases lb with
      | nil => exact absurd h (by simp)
      | cons b lb =>
          simp only [ProjEqL, List.map_cons] at h
          injection h with h1 h2
          rw [List.foldl_cons, List.foldl_cons]
          exact ih lb h2 (fa ca a) (fb cb b) (hstep ca cb a b hR h1)

theorem buildTargetSignatureMap_proj (la lb : List FNode) (h : ProjEqL la lb) (root : FNode) :
    ProjEqM (buildTargetSignatureMap la root) (buildTargetSignatureMap lb root) := by
  unfold buildTargetSignatureMap
  refine foldl_proj_pairs ProjEqM _ _ ?_ (collectAllNodes la root) (collectAllNodes lb root)
    (collectAllNodes_proj la lb h root) [] [] rfl
  intro ca cb a b hR hab
  show ProjEqM (mapSet ca (createTargetSignature la a root) a)
    (mapSet cb (createTargetSignature lb b root) b)
  rw [createTargetSignature_proj la lb h root a b hab]
  exact mapSet_proj _ a b hab ca cb hR

theorem find?_projM (f : String × FNode → Bool)
    (hf : ∀ (a b : String × FNode), a.1 = b.1 → projNode a.2 = projNode b.2 → f a = f b) :
    ∀ (ma mb : List (String × FNode)), ProjEqM ma mb →
      Option.map (fun kv => (kv.1, projNode kv.2)) (ma.find? f)
        = Option.map (fun kv => (kv.1, projNode kv.2)) (mb.find? f) := by
  intro ma
  induction ma with
  | nil =>
      intro mb h
      cases mb with
      | nil => rfl
      | cons b mb => exact absurd h (by simp)
  | cons a ma ih =>
      intro mb h
      cases mb with
      | nil => exact absurd h (by simp)
      | cons b mb =>
          simp only [ProjEqM, List.map_cons] at h
          injection h with h1 h2
          injection h1 with hkey hval
          by_cases hfa : f a = true
          · have hfb : f b = true := by rw [← hf a b hkey hval]; exact hfa
            rw [List.find?_cons_of_pos _ hfa, List.find?_cons_of_pos _ hfb]
            simp only [Option.map_some']
            rw [hkey, hval]
          · have hfb : ¬(f b = true) := by rw [← hf a b hkey hval]; exact hfa
            rw [List.find?_cons_of_neg _ (by simpa using hfa),
              List.find?_cons_of_neg _ (by simpa using hfb)]
            exact ih mb h2

theorem lookupSig_proj (k : String) (ma mb : List (String × FNode)) (hm : ProjEqM ma mb) :
    Option.map projNode (lookupSig ma k) = Option.map projNode (lookupSig mb k) := by
  have h := find?_projM (fun kv => kv.1 == k)
    (fun a b hk _ => by show (a.1 == k) = (b.1 == k); rw [hk]) ma mb hm
  have h2 := congrArg (Option.map Prod.snd) h
  rw [Option.map_map, Option.map_map] at h2
  unfold lookupSig
  rw [Option.map_map, Option.map_map]
  exact h2

theorem findPrefix_proj (pre : String) (ma mb : List (String × FNode)) (hm : ProjEqM ma mb) :
    Option.map (fun kv => (kv.1, projNode kv.2)) (ma.find? (fun kv => kv.1.startsWith pre))
      = Option.map (fun kv => (kv.1, projNode kv.2))
          (mb.find? (fun kv => kv.1.startsWith pre)) :=
  find?_projM (fun kv => kv.1.startsWith pre)
    (fun a b hk _ => by show (a.1.startsWith pre) = (b.1.startsWith pre); rw [hk]) ma mb hm

theorem resolveTargetNode_proj (ma mb : List (String × FNode)) (hm : ProjEqM ma mb)
    (Na Nb : List FNode) (hN : ProjEqL Na Nb) (o : CopiedOverride) :
    Option.map (fun r => (projNode r.1, r.2)) (resolveTargetNode ma Na o)
      = Option.map (fun r => (projNode r.1, r.2)) (resolveTargetNode mb Nb o) := by
  unfold resolveTargetNode
  have h1 := lookupSig_proj o.uniqueSignature ma mb hm
  cases ha : lookupSig ma o.uniqueSignature with
  | some na =>
      cases hb : lookupSig mb o.uniqueSignature with
      | none =>
          rw [ha, hb] at h1
          exact absurd h1 (by simp)
      | some nb =>
          rw [ha, hb] at h1
          have hab : projNode na = projNode nb := Option.some.inj (by simpa using h1)
          show some (projNode na, "signature") = some (projNode nb, "signature")
          rw [hab]
  | none =>
      cases hb : lookupSig mb o.uniqueSignature with
      | some nb =>
          rw [ha, hb] at h1
          exact absurd h1 (by simp)
      | none =>
          have h2 := findPrefix_proj (fallbackSignatureOf o ++ ":") ma mb hm
          cases hfa : ma.find? (fun kv => kv.1.startsWith (fallbackSignatureOf o ++ ":")) with
          | some kva =>
              cases hfb : mb.find? (fun kv => kv.1.startsWith (fallbackSignatureOf o ++ ":")) with
              | none =>
                  rw [hfa, hfb] at h2
                  exact absurd h2 (by simp)
              | some kvb =>
                  rw [hfa, hfb] at h2
                  have hkv : (kva.1, projNode kva.2) = (kvb.1, projNode kvb.2) :=
                    Option.some.inj (by simpa using h2)
                  injection hkv with hk1 hk2
                  show some (projNode kva.2, "structural") = some (projNode kvb.2, "structural")
                  rw [hk2]
          | none =>
              cases hfb : mb.find? (fun kv => kv.1.startsWith (fallbackSignatureOf o ++ ":")) with
              | some kvb =>
                  rw [hfa, hfb] at h2
                  exact absurd h2 (by simp)
              | none =>
                  have h3 := find?_proj
                    (fun node => node.ty == o.nodeType && node.name == o.nodeName)
                    (fun node => node.ty == o.nodeType && node.name == o.nodeName)
                    (fun a b hab => by
                      have ht : a.ty = b.ty := congrArg NodeShape.ty hab
                      have hn : a.name = b.name := congrArg NodeShape.name hab
                      show (a.ty == o.nodeType && a.name == o.nodeName)
                        = (b.ty == o.nodeType && b.name == o.nodeName)
                      rw [ht, hn])
                    Na Nb hN
                  cases hna : Na.find? (fun node => node.ty == o.nodeType && node.name == o.nodeName) with
                  | some xa =>
                      cases hnb : Nb.find? (fun node => node.ty == o.nodeType && node.name == o.nodeName) with
                      | none =>
                          rw [hna, hnb] at h3
                          exact absurd h3 (by simp)
                      | some xb =>
                          rw [hna, hnb] at h3
                          have hx : projNode xa = projNode xb := Option.some.inj (by simpa using h3)
                          show some (projNode xa, "name-type") = some (projNode xb, "name-type")
                          rw [hx]
                  | none =>
                      cases hnb : Nb.find? (fun node => node.ty == o.nodeType && node.name == o.nodeName) with
                      | some xb =>
                          rw [hna, hnb] at h3
                          exact absurd h3 (by simp)
                      | none => rfl

theorem filterMap_ptwise {α β : Type} (l : List α) (f g : α → Option β)
    (h : ∀ a ∈ l, f a = g a) : l.filterMap f = l.filterMap g := by
  induction l with
  | nil => rfl
  | cons a t ih =>
      rw [List.filterMap_cons, List.filterMap_cons, h a (List.mem_cons_self a t),
        ih (fun x hx => h x (List.mem_cons_of_mem a hx))]

theorem resolveSeg_proj (ma mb : List (String × FNode)) (hm : ProjEqM ma mb)
    (Na Nb : List FNode) (hN : ProjEqL Na Nb) (κ : CopiedOverride → WriteKind) :
    ∀ os : List CopiedOverride,
      os.filterMap (fun o => (resolveTargetNode ma Na o).map (fun r => (r.1.id, κ o)))
        = os.filterMap (fun o => (resolveTargetNode mb Nb o).map (fun r => (r.1.id, κ o))) := by
  intro os
  refine filterMap_ptwise os _ _ ?_
  intro o _
  have h := resolveTargetNode_proj ma mb hm Na Nb hN o
  cases hra : resolveTargetNode ma Na o with
  | none =>
      cases hrb : resolveTargetNode mb Nb o with
      | none => rfl
      | some rb => rw [hra, hrb] at h; exact absurd h (by simp)
  | some ra =>
      cases hrb : resolveTargetNode mb Nb o with
      | none => rw [hra, hrb] at h; exact absurd h (by simp)
      | some rb =>
          rw [hra, hrb] at h
          have hp : (projNode ra.1, ra.2) = (projNode rb.1, rb.2) :=
            Option.some.inj (by simpa using h)
          injection hp with hp1 hp2
          have hid : ra.1.id = rb.1.id := congrArg NodeShape.id hp1
          show some (ra.1.id, κ o) = some (rb.1.id, κ o)
          rw [hid]

theorem proj_applyRootVariantProperties (payload : CopiedInstanceData) (dd : Doc)
    (root : FNode) :
    (applyRootVariantProperties payload dd root).map projNode = dd.map projNode := by
  unfold applyRootVariantProperties
  by_cases hc : 0 < payload.variantProperties.length
  · rw [if_pos hc]
    exact proj_updateNode dd root.id _ (fun n => rfl)
  · rw [if_neg hc]

theorem proj_applyRootComponentProperties (payload : CopiedInstanceData) (dd : Doc)
    (root : FNode) :
    (applyRootComponentProperties payload dd root).map projNode = dd.map projNode := by
  unfold applyRootComponentProperties
  by_cases hc : 0 < payload.componentProperties.length
  · rw [if_pos hc]
    have h := foldl_invariant (fun dx : Doc => dx.map projNode = dd.map projNode)
      (fun dx kv => setRootComponentProperty dx root kv.1 kv.2) payload.componentProperties dd rfl
      (fun acc kv _ hacc => by
        show (setRootComponentProperty acc root kv.1 kv.2).map projNode = dd.map projNode
        unfold setRootComponentProperty
        rw [proj_updateNode acc root.id
          (fun n => { n with componentProperties := (n.componentProperties.map
            (fun m => setComponentPropertyValue m kv.1 (extractActualValue kv.2))) })
          (fun n => rfl), hacc])
    exact h
  · rw [if_neg hc]

theorem writeSchedOf_proj (payload : CopiedInstanceData) (root : FNode) (da db : Doc)
    (h : ProjEqL da db) : writeSchedOf payload da root = writeSchedOf payload db root := by
  unfold writeSchedOf
  dsimp only
  have hd2 : ProjEqL
      (applyRootComponentProperties payload (applyRootVariantProperties payload da root) root)
      (applyRootComponentProperties payload (applyRootVariantProperties payload db root) root) := by
    show (applyRootComponentProperties payload
        (applyRootVariantProperties payload da root) root).map projNode
      = (applyRootComponentProperties payload
          (applyRootVariantProperties payload db root) root).map projNode
    rw [proj_applyRootComponentProperties, proj_applyRootComponentProperties,
      proj_applyRootVariantProperties, proj_applyRootVariantProperties]
    exact h
  have hm := buildTargetSignatureMap_proj _ _ hd2 root
  have hN := collectAllNodes_proj _ _ hd2 root
  congr 1
  · congr 1
    exact resolveSeg_proj _ _ hm _ _ hN WriteKind.recordWrites payload.overrides
  · exact resolveSeg_proj _ _ hm _ _ hN WriteKind.fillRewrite
      (payload.overrides.filter (fun o => o.layerFills.isSome))

/-- C5: applying the same CopiedPayload twice in succession to the same
target, with no other changes in between, produces the same final field
values on every node as applying it once (stated as idempotence of the
per-instance application on the document; the payload is host-shaped:
its component-parameter values unwrap to plain scalars).  In particular
the fill re-application pass re-applies already-correct fills as an
effective no-op. -/
theorem c5_idempotent_application (payload : CopiedInstanceData) (d : Doc) (root : FNode)
    (hplain : PayloadPlainCompValues payload) :
    applyToInstance payload (applyToInstance payload d root) root
      = applyToInstance payload d root := by
  have hgood := goodSched_writeSchedOf payload d root hplain
  have hproj : (applyToInstance payload d root).map projNode = d.map projNode := by
    rw [applyToInstance_eq_execWrites]
    exact proj_execWrites d _ (fun e he => (hgood e he).1)
  have hsched : writeSchedOf payload (applyToInstance payload d root) root
      = writeSchedOf payload d root := writeSchedOf_proj payload root _ _ hproj
  rw [applyToInstance_eq_execWrites payload (applyToInstance payload d root) root, hsched,
    applyToInstance_eq_execWrites payload d root]
  exact execWrites_idem d _ hgood

/-- Witness for C5: the concrete two-record payload applied twice to the
three-node instance document equals a single application, with the
plain-values hypothesis discharged by computation. -/
theorem c5_idempotent_application_witness :
    PayloadPlainCompValues c5Payload ∧
    applyToInstance c5Payload (applyToInstance c5Payload c5Doc c5Root) c5Root
      = applyToInstance c5Payload c5Doc c5Root :=
  ⟨by decide, c5_idempotent_application c5Payload c5Doc c5Root (by decide)⟩


end Figmate
